import Mathlib

/-!
# RegSeg: the energy functional `FunctionalBase`

A shallow embedding of `Code/Modules/Functional/include/FunctionalBase.hxx`.

Conventions of the embedding.

* Scalars (`double`, `float`) are rationals: sums and products are exact.
* `disp.GetNorm() > 1.0e-8` is written on the squared norm, `1.0e-16 < |disp|^2`; the two
  tests agree because both sides are non-negative.
* Rasters are lists of cells in buffer order; meshes are lists of points in container order,
  the point identifier of a node being its position.
* An operation that can raise, read past the end of a container, dereference a null pointer or
  loop forever returns `Except Fault _`; loops whose exit is not structural take a step budget.
* Machine integers are naturals; where the code can wrap (the region counter of the rasterizer,
  `m_ReferenceSize[i] - 1` in `CheckExtent`) the wrap is written out.
* Blocks under `#ifndef NDEBUG` (diagnostic dumps) are not part of the embedding.
* Collaborators that the functional only calls (mesh binarizer, resampler, normal estimator,
  region-energy model, triangle-area primitive) are the fields of `Collaborators`.
-/

namespace rstk

/-! ## Data model -/

/-- Template constant `Dimension` of the reference image and of the surface meshes. -/
abbrev Dimension : Nat := 3

/-- Physical point (`PointType`, `ContourPointType`, `ReferencePointType`). -/
abbrev PointType := Fin Dimension → ℚ

/-- Displacement or normal (`VectorType`). -/
abbrev VectorType := Fin Dimension → ℚ

/-- Continuous image index (`ContinuousIndex`). -/
abbrev ContinuousIndex := Fin Dimension → ℚ

/-- Cell of a region raster (`ROIPixelType`, an unsigned integer pixel). -/
abbrev ROIPixelType := Nat

/-- Region raster (`ROIType`), its buffer in raster order. -/
abbrev ROIType := List ROIPixelType

/-- Probability map of one region at reference resolution (`ProbabilityMapType`). -/
abbrev ProbabilityMapType := List ℚ

/-- Pixel of the reference image (`ReferencePixelType`, a vector of channels). -/
abbrev ReferencePixelType := List ℚ

/-- Value of the functional (`MeasureType`); `⊤` is `NumericTraits<MeasureType>::infinity()`. -/
abbrev MeasureType := WithTop ℚ

/-- Ways in which an operation does not return normally. -/
inductive Fault where
  /-- Raised by `itkExceptionMacro`: "Initialization failed: no transform is set". -/
  | noTransform
  /-- Raised by `itkExceptionMacro`: "NumberOfPoints in functional and NumberOfSamples in
  transform do not match". -/
  | sampleMismatch
  /-- A null smart pointer is dereferenced. -/
  | nullPointer
  /-- A container is indexed past its end. -/
  | outOfRange
  /-- The step budget ran out before the loop exited. -/
  | outOfFuel
  deriving DecidableEq, Repr

/-- The faults that are exceptions raised by the functional itself (hard errors). -/
def Fault.isException : Fault → Bool
  | .noTransform => true
  | .sampleMismatch => true
  | _ => false

/-- Surface mesh (`ContourType`, a quad-edge mesh): its points, its polygon cells (point ids of
each face) and, for each node, the left faces met when walking the `Onext` ring of
`FindEdge(node)` (`none` for `m_NoFace`). -/
structure ContourType where
  points : List PointType
  cells : List (List Nat)
  ring : Nat → List (Option Nat)

/-- Mesh with one scalar per node (`ShapeGradientType`). -/
structure ShapeGradientType where
  points : List PointType
  pointData : Nat → ℚ

/-- Sparse matrix (`WeightsMatrix`, a `vnl_sparse_matrix`), given by its entries; an entry that
is not stored reads as zero. -/
structure WeightsMatrix where
  rows : Nat
  cols : Nat
  get : Nat → Nat → ℚ

/-- Modelled from the spec: the class of the deformation model (`m_Transform`) is not among the
sources. It is taken as the functional observes it through the calls it makes: the count and
positions of the registered off-grid samples (`GetNumberOfSamples`, `AddOffGridPos`), the
interpolated displacement at each sample (what `Interpolate()` leaves to be read by
`GetOffGridValue`), the basis matrix `GetPhi()`, whose shape is left free, and the pixel count of
each coefficient image and the spacing of the first one (`GetCoefficientsImages`). -/
structure Transform where
  m_NumberOfSamples : Nat
  m_OffGridPos : List PointType
  m_OffGridValue : Nat → VectorType
  m_Phi : WeightsMatrix
  coefficientPixels : Fin Dimension → Nat
  coefficientSpacing : Fin Dimension → ℚ

/-- Reference image: buffer and geometry. `direction` and `inverseDirection` are the direction
cosines and their inverse. -/
structure ReferenceImage where
  buffer : List ReferencePixelType
  origin : PointType
  spacing : Fin Dimension → ℚ
  size : Fin Dimension → Nat
  direction : Fin Dimension → Fin Dimension → ℚ
  inverseDirection : Fin Dimension → Fin Dimension → ℚ

/-- High-resolution sampling grid (`m_ReferenceSamplingGrid`): geometry only. -/
structure SamplingGrid where
  origin : PointType
  spacing : Fin Dimension → ℚ
  size : Fin Dimension → Nat

/-- Options read by `ParseSettings` (`m_Settings`); `none` is an absent key. -/
structure Settings where
  functionalScale : Option ℚ
  smoothing : Option ℚ
  smoothAuto : Option Bool
  decileThreshold : Option ℚ

/-- External collaborators and type constants. -/
structure Collaborators where
  /-- Largest pixel value, `itk::NumericTraits<ROIPixelType>::max()`. -/
  roiPixelMax : Nat
  /-- Mesh-to-raster binarizer: value of the output raster at a grid cell. -/
  BinarizeMesh : ContourType → Nat → ROIPixelType
  /-- Resample filter: value at a reference pixel of the resampled region raster. -/
  ResampleROI : ROIType → Nat → ℚ
  /-- Region-energy model on an intensity sample. -/
  GetEnergyOfSample : ReferencePixelType → Nat → ℚ
  /-- Region-energy model at a physical point. -/
  GetEnergyAtPoint : PointType → Nat → ℚ
  /-- Normal estimator: normal of a node of a mesh. -/
  ComputeNormals : ContourType → Nat → VectorType
  /-- Area of a triangle, `TriangleType::ComputeArea`. -/
  ComputeArea : PointType → PointType → PointType → ℚ
  /-- Nearest-neighbour interpolator over the label raster. -/
  InterpolateROI : ROIType → PointType → ROIPixelType
  /-- Gaussian smoothing of the reference image. -/
  Smooth : ReferenceImage → VectorType → ReferenceImage
  /-- Mesh copy filter from a contour to a mesh with scalars (`ShapeCopyType`). -/
  CopyShape : ContourType → ShapeGradientType

/-- State of a functional (`FunctionalBase`). A smart pointer is an `Option`, `none` being the
null pointer. -/
structure FunctionalBase where
  m_NumberOfContours : Nat
  m_NumberOfRegions : Nat
  m_NumberOfPoints : Nat
  m_NumberOfNodes : Nat
  m_SamplingFactor : Nat
  m_Scale : ℚ
  m_DecileThreshold : ℚ
  m_EnergyUpdated : Bool
  m_RegionsUpdated : Bool
  m_ApplySmoothing : Bool
  m_Value : MeasureType
  m_Sigma : VectorType
  m_Settings : Settings
  m_Transform : Option Transform
  m_Derivative : Fin Dimension → Option (List ℚ)
  m_ReferenceImage : Option ReferenceImage
  m_ReferenceSamplingGrid : Option SamplingGrid
  m_CurrentRegions : Option ROIType
  m_ROIs : List ROIType
  m_CurrentROIs : List ROIType
  m_CurrentMaps : List (Option ProbabilityMapType)
  m_Priors : List ContourType
  m_CurrentContours : List ContourType
  m_Gradients : List ShapeGradientType
  m_OuterList : List (List Nat)
  m_FirstPixelCenter : PointType
  m_LastPixelCenter : PointType
  m_Origin : PointType
  m_End : PointType
  m_ReferenceSize : Fin Dimension → Nat
  m_ReferenceSpacing : Fin Dimension → ℚ
  m_Direction : Fin Dimension → Fin Dimension → ℚ

/-- The constructor `FunctionalBase::FunctionalBase()`: counters as in the initializer list, the
value at infinity, every container empty and every pointer null. -/
def FunctionalBase.New : FunctionalBase where
  m_NumberOfContours := 0
  m_NumberOfRegions := 1
  m_NumberOfPoints := 0
  m_NumberOfNodes := 0
  m_SamplingFactor := 4
  m_Scale := 1
  m_DecileThreshold := 5 / 100
  m_EnergyUpdated := false
  m_RegionsUpdated := false
  m_ApplySmoothing := false
  m_Value := ⊤
  m_Sigma := fun _ => 0
  m_Settings := ⟨none, none, none, none⟩
  m_Transform := none
  m_Derivative := fun _ => none
  m_ReferenceImage := none
  m_ReferenceSamplingGrid := none
  m_CurrentRegions := none
  m_ROIs := []
  m_CurrentROIs := []
  m_CurrentMaps := []
  m_Priors := []
  m_CurrentContours := []
  m_Gradients := []
  m_OuterList := []
  m_FirstPixelCenter := fun _ => 0
  m_LastPixelCenter := fun _ => 0
  m_Origin := fun _ => 0
  m_End := fun _ => 0
  m_ReferenceSize := fun _ => 0
  m_ReferenceSpacing := fun _ => 0
  m_Direction := fun _ _ => 0

/-! ## Region rasterizer -/

/-- Body of the pixel loop of `ComputeCurrentRegions` on one cell: the pair is
(`regionsBuffer[pix]`, `roiBuffer[pix]`). -/
def claimPixel (unassigned idx : ROIPixelType) (cell : ROIPixelType × ROIPixelType) :
    ROIPixelType × ROIPixelType :=
  if cell.1 = unassigned ∧ cell.2 = 1 then (idx, cell.2) else (cell.1, 0)

/-- The pixel loop of `ComputeCurrentRegions`: both buffers are walked in lockstep. -/
def claimCells (unassigned idx : ROIPixelType) (regionsBuffer roiBuffer : ROIType) :
    ROIType × ROIType :=
  ((List.zip regionsBuffer roiBuffer).map (claimPixel unassigned idx)).unzip

/-- The raster `tempROI` of region `idx` before the pixel loop: the binarized contour, or the
all-ones raster for the last region. Both have the size of the sampling grid. -/
def tempROI (env : Collaborators) (f : FunctionalBase) (nPix idx : Nat) : Except Fault ROIType :=
  if idx < f.m_CurrentROIs.length - 1 then
    match f.m_CurrentContours[idx]? with
    | some contour => .ok ((List.range nPix).map (env.BinarizeMesh contour))
    | none => .error .outOfRange
  else .ok (List.replicate nPix 1)

/-- The region loop of `ComputeCurrentRegions`. The counter `idx` has the pixel type, so `idx++`
wraps past `roiPixelMax`. -/
def regionsLoop (env : Collaborators) (nPix : Nat) (regionsBuffer : ROIType) :
    Nat → ROIPixelType → FunctionalBase → Except Fault (ROIType × FunctionalBase)
  | 0, _, _ => .error .outOfFuel
  | fuel + 1, idx, f =>
    if idx < f.m_CurrentROIs.length then
      match tempROI env f nPix idx with
      | .error e => .error e
      | .ok roi =>
        let claimed := claimCells env.roiPixelMax idx regionsBuffer roi
        regionsLoop env nPix claimed.1 fuel ((idx + 1) % (env.roiPixelMax + 1))
          { f with m_CurrentROIs := f.m_CurrentROIs.set idx claimed.2 }
    else .ok (regionsBuffer, f)

/-- Embedding of `FunctionalBase::ComputeCurrentRegions`. -/
def ComputeCurrentRegions (env : Collaborators) (fuel : Nat) (f : FunctionalBase) :
    Except Fault FunctionalBase :=
  match f.m_CurrentRegions with
  | none => .error .nullPointer
  | some regions =>
    let unassigned := env.roiPixelMax
    let nPix := regions.length
    match regionsLoop env nPix (List.replicate nPix unassigned) fuel 0 f with
    | .error e => .error e
    | .ok (regionsBuffer, f1) =>
      .ok { f1 with m_CurrentRegions := some regionsBuffer, m_RegionsUpdated := true }

/-- Value at cell `pix` of the mask of region `idx` as the region loop builds it: the binarized
contour `idx`, or `1` for the last region. -/
def maskValue (env : Collaborators) (f : FunctionalBase) (idx pix : Nat) : ROIPixelType :=
  if idx < f.m_CurrentROIs.length - 1 then
    match f.m_CurrentContours[idx]? with
    | some contour => env.BinarizeMesh contour pix
    | none => 0
  else 1


/-! ## Image geometry -/

/-- Continuous index of a physical point and whether it lies in the image domain
(`itk::ImageBase::TransformPhysicalPointToContinuousIndex`): the index is
`inverseDirection * (p - origin) / spacing`, and the domain reaches half a pixel beyond the first
and the last pixel centre on every axis. -/
def ReferenceImage.TransformPhysicalPointToContinuousIndex (img : ReferenceImage)
    (p : PointType) : Bool × ContinuousIndex :=
  let idx : ContinuousIndex := fun i =>
    (∑ j, img.inverseDirection i j * (p j - img.origin j)) / img.spacing i
  (decide (∀ i, -(1 / 2) ≤ idx i ∧ idx i ≤ (img.size i : ℚ) - 1 / 2), idx)

/-- Physical point of a continuous index
(`itk::ImageBase::TransformContinuousIndexToPhysicalPoint`). -/
def ReferenceImage.TransformContinuousIndexToPhysicalPoint (img : ReferenceImage)
    (idx : ContinuousIndex) : PointType :=
  fun i => img.origin i + ∑ j, img.direction i j * img.spacing j * idx j

/-- Embedding of `FunctionalBase::SetReferenceImage`: stores the image and caches its geometry. -/
def SetReferenceImage (f : FunctionalBase) (img : ReferenceImage) : FunctionalBase :=
  { f with
    m_ReferenceImage := some img
    m_FirstPixelCenter := img.origin
    m_Direction := img.direction
    m_ReferenceSize := img.size
    m_ReferenceSpacing := img.spacing
    m_Origin := img.TransformContinuousIndexToPhysicalPoint (fun _ => -(1 / 2))
    m_LastPixelCenter := img.TransformContinuousIndexToPhysicalPoint
      (fun dim => (img.size dim : ℚ) - 1)
    m_End := img.TransformContinuousIndexToPhysicalPoint (fun dim => (img.size dim : ℚ) - 1 / 2) }

/-- Number of values of `itk::SizeValueType`, the unsigned integer type of an image size
(`unsigned long`, 64 bits): arithmetic on a size is modulo this number. -/
def SizeValueModulus : Nat := 2 ^ 64

/-- Embedding of `FunctionalBase::CheckExtent`: returns `isInside` and the point `p`, which is
passed by reference and clamped axis by axis when it is outside. `m_ReferenceSize[i] - 1` is
unsigned arithmetic: on an axis of size 0 it wraps to the largest value of the type. -/
def CheckExtent (f : FunctionalBase) (p : PointType) : Except Fault (Bool × PointType) :=
  match f.m_ReferenceImage with
  | none => .error .nullPointer
  | some img =>
    let located := img.TransformPhysicalPointToContinuousIndex p
    let isInside := located.1
    let idx := located.2
    if !isInside then
      .ok (isInside, fun i =>
        if idx i < 0 then f.m_FirstPixelCenter i
        else if idx i >
            (((f.m_ReferenceSize i + SizeValueModulus - 1) % SizeValueModulus : Nat) : ℚ) then
          f.m_LastPixelCenter i
        else p i)
    else .ok (isInside, p)

/-! ## Contour updater -/

/-- Squared Euclidean norm of a displacement. -/
def normSq (v : VectorType) : ℚ := ∑ i, v i * v i

/-- Whether `disp.GetNorm() > 1.0e-8`, tested on the squared norm. -/
def exceedsThreshold (disp : VectorType) : Bool := decide (1 / 10 ^ 16 < normSq disp)

/-- Locals of `UpdateContour` that outlive the loops: the count of moved nodes, the running
off-grid sample index and the samples found off the image domain. -/
structure UpdateLocals where
  changed : Nat
  gpid : Nat
  invalid : List Nat

/-- The node loop of `UpdateContour` over the points of one prior; `curPoints` are the points of
the current contour, written in place with `SetElement`. -/
def updatePoints (f : FunctionalBase) (T : Transform) :
    List PointType → Nat → List PointType × UpdateLocals →
      Except Fault (List PointType × UpdateLocals)
  | [], _, st => .ok st
  | ci :: rest, pid, (curPoints, loc) =>
    let disp := T.m_OffGridValue loc.gpid
    if exceedsThreshold disp then
      match CheckExtent f (fun i => ci i + disp i) with
      | .error e => .error e
      | .ok (isInside, ci_prime) =>
        updatePoints f T rest (pid + 1)
          (curPoints.set pid ci_prime,
            { changed := loc.changed + 1
              gpid := loc.gpid + 1
              invalid := if isInside then loc.invalid else loc.invalid ++ [loc.gpid] })
    else
      updatePoints f T rest (pid + 1) (curPoints, { loc with gpid := loc.gpid + 1 })

/-- The contour loop of `UpdateContour`, `remaining` iterations from contour `contid`. -/
def updateContours (env : Collaborators) (T : Transform) :
    Nat → Nat → FunctionalBase → UpdateLocals → Except Fault (FunctionalBase × UpdateLocals)
  | 0, _, f, loc => .ok (f, loc)
  | remaining + 1, contid, f, loc =>
    match f.m_Priors[contid]?, f.m_CurrentContours[contid]? with
    | some prior, some current =>
      match updatePoints f T prior.points 0 (current.points, loc) with
      | .error e => .error e
      | .ok (curPoints, loc1) =>
        let moved : ContourType := { current with points := curPoints }
        if contid < f.m_Gradients.length then
          updateContours env T remaining (contid + 1)
            { f with
              m_CurrentContours := f.m_CurrentContours.set contid moved
              m_Gradients := f.m_Gradients.set contid (env.CopyShape moved) } loc1
        else .error .outOfRange
    | _, _ => .error .outOfRange

/-- Embedding of `FunctionalBase::UpdateContour` together with its locals at exit. -/
def UpdateContourLocals (env : Collaborators) (f : FunctionalBase) :
    Except Fault (FunctionalBase × UpdateLocals) :=
  match f.m_Transform with
  | none => .error .nullPointer
  | some T =>
    match updateContours env T f.m_NumberOfContours 0 f ⟨0, 0, []⟩ with
    | .error e => .error e
    | .ok (f1, loc) =>
      .ok ({ f1 with
        m_RegionsUpdated := decide (loc.changed = 0)
        m_EnergyUpdated := decide (loc.changed = 0) }, loc)

/-- Embedding of `FunctionalBase::UpdateContour`. -/
def UpdateContour (env : Collaborators) (f : FunctionalBase) : Except Fault FunctionalBase :=
  match UpdateContourLocals env f with
  | .error e => .error e
  | .ok (f1, _) => .ok f1

/-- Candidate position of a node: the prior position `ci` plus the displacement of the off-grid
sample `gpid`. -/
def candidatePosition (T : Transform) (gpid : Nat) (ci : PointType) : PointType :=
  fun i => ci i + T.m_OffGridValue gpid i

/-- Position held by a node of the current contour after the node loop visited it: the point
left by `CheckExtent` on the candidate when the displacement exceeds the threshold, the position
`current` it had otherwise. -/
def committedPosition (f : FunctionalBase) (T : Transform) (gpid : Nat)
    (ci current : PointType) : PointType :=
  if exceedsThreshold (T.m_OffGridValue gpid) then
    match CheckExtent f (candidatePosition T gpid ci) with
    | .ok (_, p) => p
    | .error _ => current
  else current

/-- Positions held by the nodes of a current contour after the node loop, the first node having
the global index `gpid`. -/
def commitList (f : FunctionalBase) (T : Transform) :
    Nat → List PointType → List PointType → List PointType
  | gpid, ci :: rest, current :: others =>
    committedPosition f T gpid ci current :: commitList f T (gpid + 1) rest others
  | _, _, others => others

/-- Whether the sample `gpid` of prior position `ci` is displaced to a candidate that
`CheckExtent` finds off the image domain. -/
def movedOutside (f : FunctionalBase) (T : Transform) (gpid : Nat) (ci : PointType) : Bool :=
  exceedsThreshold (T.m_OffGridValue gpid) &&
    match CheckExtent f (candidatePosition T gpid ci) with
    | .ok (isInside, _) => !isInside
    | .error _ => false

/-- Global indices, in order, of the nodes of a prior that are displaced off the image domain,
the first node having the global index `gpid`. -/
def outsideIds (f : FunctionalBase) (T : Transform) : Nat → List PointType → List Nat
  | _, [] => []
  | gpid, ci :: rest =>
    (if movedOutside f T gpid ci then [gpid] else []) ++ outsideIds f T (gpid + 1) rest

/-- Number of samples among `gpid, ..., gpid + count - 1` whose displacement exceeds the
threshold. -/
def movedCount (T : Transform) (gpid count : Nat) : Nat :=
  ((List.range' gpid count).filter fun g => exceedsThreshold (T.m_OffGridValue g)).length

/-- The nodes of a list of priors in the order of the global index. -/
def priorNodes : List ContourType → List PointType
  | [] => []
  | prior :: rest => prior.points ++ priorNodes rest

/-- Global index of the first node of contour `contid`: the node count of the priors before
it. -/
def firstGlobalId (priors : List ContourType) (contid : Nat) : Nat :=
  (priorNodes (priors.take contid)).length

/-- The contours are in place as `Initialize` leaves them: every contour has its prior, its
current contour and its gradient mesh, and a current contour has as many nodes as its prior. -/
def ContoursAligned (f : FunctionalBase) : Prop :=
  f.m_NumberOfContours ≤ f.m_Priors.length ∧
  f.m_NumberOfContours ≤ f.m_CurrentContours.length ∧
  f.m_NumberOfContours ≤ f.m_Gradients.length ∧
  ∀ (c : Nat) (prior cur : ContourType), c < f.m_NumberOfContours →
    f.m_Priors[c]? = some prior → f.m_CurrentContours[c]? = some cur →
    prior.points.length = cur.points.length

/-- Number of nodes of the contours of the functional, the range of the global index. -/
def totalNodes (f : FunctionalBase) : Nat :=
  (priorNodes (f.m_Priors.take f.m_NumberOfContours)).length

/-- The index axes of the image run along the physical axes: the direction matrix and its
inverse are diagonal. -/
def AxisAligned (img : ReferenceImage) : Prop :=
  (∀ i j, i ≠ j → img.direction i j = 0 ∧ img.inverseDirection i j = 0) ∧
  ∀ i, img.inverseDirection i i * img.direction i i = 1

/-- The image has a pixel grid: on every axis the spacing is not null and there is at least one
pixel, the size being a value of `itk::SizeValueType`. -/
def HasPixelGrid (img : ReferenceImage) : Prop :=
  (∀ i, img.spacing i ≠ 0) ∧ ∀ i, 1 ≤ img.size i ∧ img.size i < SizeValueModulus

/-- The cached geometry that `CheckExtent` reads is the one `SetReferenceImage` stores. -/
def GeometryCached (f : FunctionalBase) (img : ReferenceImage) : Prop :=
  f.m_FirstPixelCenter = img.origin ∧
  f.m_LastPixelCenter =
    img.TransformContinuousIndexToPhysicalPoint (fun dim => (img.size dim : ℚ) - 1) ∧
  f.m_ReferenceSize = img.size

/-- The point `CheckExtent` leaves for a candidate that is off the domain: every axis whose
continuous index is below 0 or above `size - 1` (in the unsigned arithmetic of the size) is moved
to the first or to the last pixel centre. -/
def clampedPosition (f : FunctionalBase) (img : ReferenceImage) (p : PointType) : PointType :=
  fun i =>
    if (img.TransformPhysicalPointToContinuousIndex p).2 i < 0 then f.m_FirstPixelCenter i
    else if (img.TransformPhysicalPointToContinuousIndex p).2 i >
        (((f.m_ReferenceSize i + SizeValueModulus - 1) % SizeValueModulus : Nat) : ℚ) then
      f.m_LastPixelCenter i
    else p i

/-! ## Energy evaluator -/

/-- Embedding of `FunctionalBase::GetCurrentRegion`. -/
def GetCurrentRegion (env : Collaborators) (fuel : Nat) (f : FunctionalBase) (idx : Nat) :
    Except Fault (ROIType × FunctionalBase) :=
  match (if !f.m_RegionsUpdated then ComputeCurrentRegions env fuel f else .ok f) with
  | .error e => .error e
  | .ok f1 =>
    match f1.m_CurrentROIs[idx]? with
    | none => .error .outOfRange
    | some roi => .ok (roi, f1)

/-- Number of pixels of a raster of size `m_ReferenceSize`. -/
def referencePixelCount (f : FunctionalBase) : Nat := ∏ i, f.m_ReferenceSize i

/-- Output `tpm` of the resample filter of `GetCurrentMap` on a region raster: one value per
reference pixel. -/
def resampledMap (env : Collaborators) (f : FunctionalBase) (roi : ROIType) :
    ProbabilityMapType :=
  (List.range (referencePixelCount f)).map (env.ResampleROI roi)

/-- Embedding of `FunctionalBase::GetCurrentMap`: the region raster `idx` resampled at reference
resolution and copied into the cached map `idx`, which is allocated first when it is null. The
copy runs over the whole of both rasters, which have the reference size. -/
def GetCurrentMap (env : Collaborators) (fuel : Nat) (f : FunctionalBase) (idx : Nat) :
    Except Fault (ProbabilityMapType × FunctionalBase) :=
  match (if !f.m_RegionsUpdated then ComputeCurrentRegions env fuel f else .ok f) with
  | .error e => .error e
  | .ok f1 =>
    match f1.m_CurrentMaps[idx]? with
    | none => .error .outOfRange
    | some slot =>
      let allocated : ProbabilityMapType :=
        match slot with
        | none => List.replicate (referencePixelCount f1) 0
        | some map => map
      match f1.m_CurrentROIs[idx]? with
      | none => .error .outOfRange
      | some roi =>
        let tpm := resampledMap env f1 roi
        if allocated.length = tpm.length then
          .ok (tpm, { f1 with m_CurrentMaps := f1.m_CurrentMaps.set idx (some tpm) })
        else .error .outOfRange

/-- The loop `normalizer *= GetCurrentMap(0)->GetSpacing()[i]` of `GetValue`; a cached map
carries the reference spacing. -/
def normalizerLoop (env : Collaborators) (fuel : Nat) :
    List (Fin Dimension) → ℚ → FunctionalBase → Except Fault (ℚ × FunctionalBase)
  | [], normalizer, f => .ok (normalizer, f)
  | i :: rest, normalizer, f =>
    match GetCurrentMap env fuel f 0 with
    | .error e => .error e
    | .ok (_, f1) => normalizerLoop env fuel rest (normalizer * f1.m_ReferenceSpacing i) f1

/-- The pixel loop of `GetValue` for region `roi`: `value` is `m_Value`, `i` the pixel offset
into the map buffer (walked as a list) and into the reference buffer. -/
def energyLoop (env : Collaborators) (refBuffer : List ReferencePixelType) (roi : Nat) :
    List ℚ → Nat → MeasureType → Except Fault MeasureType
  | [], _, value => .ok value
  | w :: rest, i, value =>
    if 0 < w then
      match refBuffer[i]? with
      | none => .error .outOfRange
      | some val =>
        energyLoop env refBuffer roi rest (i + 1)
          (value + ((w * env.GetEnergyOfSample val roi : ℚ) : MeasureType))
    else energyLoop env refBuffer roi rest (i + 1) value

/-- The region loop of `GetValue`, `remaining` iterations from region `roi`. -/
def regionEnergyLoop (env : Collaborators) (fuel : Nat) :
    Nat → Nat → FunctionalBase → Except Fault FunctionalBase
  | 0, _, f => .ok f
  | remaining + 1, roi, f =>
    match GetCurrentMap env fuel f roi with
    | .error e => .error e
    | .ok (roipm, f1) =>
      match f1.m_ReferenceImage with
      | none => .error .nullPointer
      | some img =>
        match energyLoop env img.buffer roi roipm 0 f1.m_Value with
        | .error e => .error e
        | .ok value =>
          regionEnergyLoop env fuel remaining (roi + 1) { f1 with m_Value := value }

/-- Embedding of `FunctionalBase::GetValue`. -/
def GetValue (env : Collaborators) (fuel : Nat) (f : FunctionalBase) :
    Except Fault (MeasureType × FunctionalBase) :=
  if !f.m_EnergyUpdated then
    match normalizerLoop env fuel (List.finRange Dimension) 1 { f with m_Value := 0 } with
    | .error e => .error e
    | .ok (normalizer, f1) =>
      match regionEnergyLoop env fuel f1.m_ROIs.length 0 f1 with
      | .error e => .error e
      | .ok f2 =>
        let f3 : FunctionalBase :=
          { f2 with
            m_Value := ((normalizer : ℚ) : MeasureType) * f2.m_Value
            m_EnergyUpdated := true }
        .ok (f3.m_Value, f3)
  else .ok (f.m_Value, f)

/-- Membership weight of reference pixel `i` in the cached probability map of region `r`. -/
def probabilityWeight (f : FunctionalBase) (r i : Nat) : ℚ :=
  ((f.m_CurrentMaps.getD r none).getD []).getD i 0

/-- Value of the reference image at pixel offset `i`. -/
def referenceSample (f : FunctionalBase) (i : Nat) : ReferencePixelType :=
  match f.m_ReferenceImage with
  | some img => img.buffer.getD i []
  | none => []

/-- The same sum restricted by the test of the pixel loop, `w > 0.0`. -/
def energyOverPositiveWeights (env : Collaborators) (f : FunctionalBase) : ℚ :=
  (∏ i, f.m_ReferenceSpacing i) *
    ∑ r ∈ Finset.range f.m_ROIs.length, ∑ i ∈ Finset.range (referencePixelCount f),
      if 0 < probabilityWeight f r i then
        probabilityWeight f r i * env.GetEnergyOfSample (referenceSample f i) r
      else 0

/-- Every allocated probability map has the reference size. -/
def SlotsFit (f : FunctionalBase) : Prop :=
  ∀ (j : Nat) (map : ProbabilityMapType),
    f.m_CurrentMaps[j]? = some (some map) → map.length = referencePixelCount f

/-! ## Construction and initialization -/

/-- The effect of `std::vector::resize(n)`: truncates, or pads with `fill`. -/
def resize {α : Type} (l : List α) (n : Nat) (fill : α) : List α :=
  l.take n ++ List.replicate (n - l.length) fill

/-- Embedding of `FunctionalBase::AddShapePrior`; the result is the returned contour index and
the new state. A raster slot added by `resize` holds a null pointer, here the empty raster. -/
def AddShapePrior (f : FunctionalBase) (prior : ContourType) : Nat × FunctionalBase :=
  let contours := f.m_NumberOfContours + 1
  let f1 : FunctionalBase :=
    { f with
      m_Priors := f.m_Priors ++ [prior]
      m_NumberOfPoints := f.m_NumberOfPoints + prior.points.length
      m_NumberOfContours := contours
      m_NumberOfRegions := f.m_NumberOfRegions + 1
      m_ROIs := resize f.m_ROIs (contours + 1) []
      m_CurrentROIs := resize f.m_CurrentROIs (contours + 1) []
      m_CurrentMaps := resize f.m_CurrentMaps (contours + 1) none }
  (f1.m_NumberOfContours - 1, f1)

/-- Embedding of `FunctionalBase::ParseSettings`. -/
def ParseSettings (f : FunctionalBase) : FunctionalBase :=
  let f1 : FunctionalBase :=
    match f.m_Settings.functionalScale with
    | some v => { f with m_Scale := v }
    | none => f
  let f2 : FunctionalBase :=
    match f1.m_Settings.smoothing with
    | some v => { f1 with m_Sigma := fun _ => v }
    | none => f1
  let f3 : FunctionalBase :=
    match f2.m_Settings.smoothAuto with
    | some v => { f2 with m_ApplySmoothing := v, m_Sigma := fun _ => 0 }
    | none => f2
  match f3.m_Settings.decileThreshold with
  | some v => { f3 with m_DecileThreshold := v }
  | none => f3

/-- Embedding of `FunctionalBase::InitializeSamplingGrid`. The label raster is allocated with
one cell per grid sample; its content is not initialized, zeros stand for it. -/
def InitializeSamplingGrid (f : FunctionalBase) : FunctionalBase :=
  let exp_size : Fin Dimension → Nat := fun i => f.m_ReferenceSize i * f.m_SamplingFactor
  let step : VectorType := fun i => (f.m_End i - f.m_Origin i) / (exp_size i : ℚ)
  let grid : SamplingGrid :=
    { origin := fun i => f.m_Origin i + 1 / 2 * step i
      spacing := fun i => |step i|
      size := exp_size }
  { f with
    m_ReferenceSamplingGrid := some grid
    m_CurrentRegions := some (List.replicate (∏ i, exp_size i) 0) }

/-- Modelled from the spec: `AddOffGridPos` of the deformation model, which is not among the
sources, registers one off-grid sample, so that `GetNumberOfSamples` counts one more. -/
def Transform.AddOffGridPos (T : Transform) (p : PointType) : Transform :=
  { T with m_OffGridPos := T.m_OffGridPos ++ [p], m_NumberOfSamples := T.m_NumberOfSamples + 1 }

/-- The first loop of `InitializeCurrentContours`: copies of every prior are pushed onto the
current contours and onto the gradient meshes. -/
def copyContours (env : Collaborators) :
    Nat → Nat → FunctionalBase → Except Fault FunctionalBase
  | 0, _, f => .ok f
  | remaining + 1, contid, f =>
    match f.m_Priors[contid]? with
    | none => .error .outOfRange
    | some prior =>
      copyContours env remaining (contid + 1)
        { f with
          m_CurrentContours := f.m_CurrentContours ++ [prior]
          m_Gradients := f.m_Gradients ++ [env.CopyShape prior] }

/-- The second loop of `InitializeCurrentContours`: every node of every current contour is
registered with the deformation model. -/
def registerPoints (f : FunctionalBase) : Nat → Nat → Transform → Except Fault Transform
  | 0, _, T => .ok T
  | remaining + 1, contid, T =>
    match f.m_CurrentContours[contid]? with
    | none => .error .outOfRange
    | some contour =>
      registerPoints f remaining (contid + 1) (contour.points.foldl Transform.AddOffGridPos T)

/-- Embedding of `FunctionalBase::InitializeCurrentContours`. The result is the state the call
leaves behind and the fault it raised, if any. -/
def InitializeCurrentContours (env : Collaborators) (f : FunctionalBase) :
    FunctionalBase × Option Fault :=
  match copyContours env f.m_NumberOfContours 0 f with
  | .error e => (f, some e)
  | .ok f1 =>
    match f1.m_Transform with
    | none => (f1, some .nullPointer)
    | some T =>
      match registerPoints f1 f1.m_NumberOfContours 0 T with
      | .error e => (f1, some e)
      | .ok T1 =>
        let f2 : FunctionalBase := { f1 with m_Transform := some T1 }
        if f2.m_NumberOfPoints ≠ T1.m_NumberOfSamples then (f2, some .sampleMismatch)
        else (f2, none)

/-- Number of nodes that `InitializeCurrentContours` registers with the deformation model: the
nodes of the first `m_NumberOfContours` current contours once the copies of the priors are
pushed. On a functional that was never initialized these are the nodes of the priors. -/
def registeredNodes (f : FunctionalBase) : Nat :=
  (priorNodes ((f.m_CurrentContours ++ f.m_Priors.take f.m_NumberOfContours).take
    f.m_NumberOfContours)).length

/-! ## Nested-topology resolver -/

/-- The node loop of `ComputeOuterRegions` for one contour: the label raster is sampled at
`ci + ni` and at `ci - ni`, and the second sample is stored in `outerVect[pid]`. -/
def outerOfNodes (env : Collaborators) (regions : ROIType) (normals : Nat → VectorType) :
    List PointType → Nat → List Nat → List Nat
  | [], _, outerVect => outerVect
  | ci :: rest, pid, outerVect =>
    let ni := normals pid
    let outer := env.InterpolateROI regions (fun i => ci i - ni i)
    outerOfNodes env regions normals rest (pid + 1) (outerVect.set pid outer)

/-- The contour loop of `ComputeOuterRegions` when there are more than two regions; `outerVect`
is declared outside the loop and resized, not cleared, for each contour. -/
def outerLoop (env : Collaborators) (regions : ROIType) :
    Nat → Nat → List Nat → FunctionalBase → Except Fault FunctionalBase
  | 0, _, _, f => .ok f
  | remaining + 1, contid, outerVect, f =>
    match f.m_CurrentContours[contid]? with
    | none => .error .outOfRange
    | some contour =>
      let resized := resize outerVect contour.points.length 0
      let filled := outerOfNodes env regions (env.ComputeNormals contour) contour.points 0 resized
      outerLoop env regions remaining (contid + 1) filled
        { f with m_OuterList := f.m_OuterList ++ [filled] }

/-- Embedding of `FunctionalBase::ComputeOuterRegions`. -/
def ComputeOuterRegions (env : Collaborators) (f : FunctionalBase) :
    Except Fault FunctionalBase :=
  if f.m_NumberOfRegions > 2 then
    match f.m_CurrentRegions with
    | none => .error .nullPointer
    | some regions => outerLoop env regions f.m_NumberOfContours 0 [] f
  else
    match f.m_CurrentContours[0]? with
    | none => .error .outOfRange
    | some contour =>
      let outerVect := List.replicate contour.points.length 1
      .ok { f with m_OuterList := f.m_OuterList ++ [outerVect] }

/-- The part of `Initialize` from `ParseSettings` to the allocation of the derivative rasters,
which are zero filled and sized as the coefficient images. -/
def allocateDerivative (f : FunctionalBase) (T : Transform) : FunctionalBase :=
  { ParseSettings f with
    m_NumberOfNodes := T.coefficientPixels 0
    m_Derivative := fun i => some (List.replicate (T.coefficientPixels i) 0) }

/-- The smoothing block of `Initialize`: when smoothing is requested and `m_Sigma` is null on
every axis, sigma is derived from the spacing of the coefficient grid; the smoothed image
replaces the reference image. The filter runs on the reference image, which must be set. -/
def smoothReference (env : Collaborators) (f : FunctionalBase) (T : Transform) :
    Except Fault FunctionalBase :=
  if f.m_ApplySmoothing then
    let f1 : FunctionalBase :=
      if f.m_Sigma = (fun _ => 0) then
        { f with m_Sigma := fun i => 40 / 100 * T.coefficientSpacing i }
      else f
    match f1.m_ReferenceImage with
    | none => .error .nullPointer
    | some img => .ok (SetReferenceImage f1 (env.Smooth img f1.m_Sigma))
  else .ok f

/-- The part of `Initialize` after `InitializeCurrentContours`: sampling grid, region rasters,
copy of the current rasters into `m_ROIs`, outer regions. The result is the state left behind
and the fault raised, if any; after a fault the state is the one before the failing step. -/
def finishInitialize (env : Collaborators) (fuel : Nat) (f : FunctionalBase) :
    FunctionalBase × Option Fault :=
  let f1 :=
    match f.m_ReferenceSamplingGrid with
    | none => InitializeSamplingGrid f
    | some _ => f
  match ComputeCurrentRegions env fuel f1 with
  | .error e => (f1, some e)
  | .ok f2 =>
    if f2.m_CurrentROIs.length < f2.m_ROIs.length then (f2, some .outOfRange)
    else
      let f3 : FunctionalBase := { f2 with m_ROIs := f2.m_CurrentROIs.take f2.m_ROIs.length }
      match ComputeOuterRegions env f3 with
      | .error e => (f3, some e)
      | .ok f4 => (f4, none)

/-- Embedding of `FunctionalBase::Initialize`. The result is the state the call leaves behind and
the fault it raised, if any. -/
def Initialize (env : Collaborators) (fuel : Nat) (f : FunctionalBase) :
    FunctionalBase × Option Fault :=
  match f.m_Transform with
  | none => (f, some .noTransform)
  | some T =>
    match smoothReference env (allocateDerivative f T) T with
    | .error e => (allocateDerivative f T, some e)
    | .ok f1 =>
      match InitializeCurrentContours env f1 with
      | (f2, some e) => (f2, some e)
      | (f2, none) => finishInitialize env fuel f2

/-! ## Gradient computer -/

/-- Noise floor `MIN_GRADIENT`. -/
def MIN_GRADIENT : ℚ := 1 / 10 ^ 5

/-- The loop over the point ids of a polygon in `ComputePointArea`: `pt[k] = GetPoint(id)`. The
array `pt` has three slots; a point id that is not in the mesh reads as the origin. -/
def loadPolygon (mesh : ContourType) :
    List Nat → Nat → (Nat → PointType) → Except Fault (Nat → PointType)
  | [], _, pt => .ok pt
  | id :: rest, k, pt =>
    if k < 3 then
      loadPolygon mesh rest (k + 1) (Function.update pt k (mesh.points.getD id (fun _ => 0)))
    else .error .outOfRange

/-- The walk of `ComputePointArea` around a node: one step per edge of the `Onext` ring, with
the left face of the edge. `pt` is declared outside the loop and keeps its content. -/
def areaLoop (env : Collaborators) (mesh : ContourType) :
    List (Option Nat) → (Nat → PointType) → ℚ → Except Fault ℚ
  | [], _, totalArea => .ok totalArea
  | none :: rest, pt, totalArea => areaLoop env mesh rest pt totalArea
  | some cell_id :: rest, pt, totalArea =>
    match mesh.cells[cell_id]? with
    | none => .error .nullPointer
    | some poly =>
      match loadPolygon mesh poly 0 pt with
      | .error e => .error e
      | .ok pt1 =>
        areaLoop env mesh rest pt1 (totalArea + env.ComputeArea (pt1 0) (pt1 1) (pt1 2))

/-- Embedding of `FunctionalBase::ComputePointArea`. A node without an edge has an empty ring and
`FindEdge` returns null. -/
def ComputePointArea (env : Collaborators) (iId : Nat) (mesh : ContourType) : Except Fault ℚ :=
  match mesh.ring iId with
  | [] => .error .nullPointer
  | ring =>
    match areaLoop env mesh ring (fun _ _ => 0) 0 with
    | .error e => .error e
    | .ok totalArea => .ok |totalArea * (33 / 100)|

/-- Modelled from the spec: the declaration of `GradientSample` is in the class header, which
is not among the sources. The fields are those of the node gradient sample of the data model,
raw gradient, area weight, normal, local node id, global node id and region id, in the order of
the arguments at the call site `GradientSample( gi, wi, ni, pid, cpid, contid )`; the local id
is the one used to index the gradient mesh, the global id the row of the sparse vector field. -/
structure GradientSample where
  grad : ℚ
  w : ℚ
  normal : VectorType
  cid : Nat
  gid : Nat
  sid : Nat

/-- Locals of the node loop of `ComputeDerivative`. -/
structure GradientLocals where
  sample : List GradientSample
  totalArea : ℚ
  gradSum : ℚ
  cpid : Nat

/-- The node loop of `ComputeDerivative` for contour `contid`: raw gradient, area weight and
normal of every node of the mesh of normals, which has the points and cells of the current
contour. -/
def sampleNodes (env : Collaborators) (f : FunctionalBase) (contid : Nat) (normals : ContourType) :
    List PointType → Nat → GradientLocals → Except Fault GradientLocals
  | [], _, loc => .ok loc
  | ci_prime :: rest, pid, loc =>
    match (f.m_OuterList[contid]?).bind (fun outerVect => outerVect[pid]?) with
    | none => .error .outOfRange
    | some outer_contid =>
      if contid ≠ outer_contid then
        match ComputePointArea env pid normals with
        | .error e => .error e
        | .ok wi =>
          let ni := env.ComputeNormals normals pid
          let gi := env.GetEnergyAtPoint ci_prime outer_contid - env.GetEnergyAtPoint ci_prime contid
          let gi := if |gi| < MIN_GRADIENT then 0 else gi
          sampleNodes env f contid normals rest (pid + 1)
            { sample := loc.sample ++ [⟨gi, wi, ni, pid, loc.cpid, contid⟩]
              totalArea := loc.totalArea + wi
              gradSum := loc.gradSum + gi
              cpid := loc.cpid + 1 }
      else
        sampleNodes env f contid normals rest (pid + 1)
          { loc with
            sample := loc.sample ++ [⟨0, 0, fun _ => 0, pid, loc.cpid, contid⟩]
            cpid := loc.cpid + 1 }

/-- The matrix of the given shape without stored entries. -/
def WeightsMatrix.zero (rows cols : Nat) : WeightsMatrix := ⟨rows, cols, fun _ _ => 0⟩

/-- Stores `v` at `(r, c)` (`vnl_sparse_matrix::put`). -/
def WeightsMatrix.put (m : WeightsMatrix) (r c : Nat) (v : ℚ) : Except Fault WeightsMatrix :=
  if r < m.rows ∧ c < m.cols then
    .ok { m with get := fun i j => if i = r ∧ j = c then v else m.get i j }
  else .error .outOfRange

/-- Transposed matrix (`vnl_sparse_matrix::transpose`). -/
def WeightsMatrix.transpose (m : WeightsMatrix) : WeightsMatrix :=
  ⟨m.cols, m.rows, fun i j => m.get j i⟩

/-- Product into `result` (`vnl_sparse_matrix::mult`): nothing is written when the product has
no row or no column; the shapes of the factors are not compared. -/
def WeightsMatrix.mult (a b result : WeightsMatrix) : WeightsMatrix :=
  if a.rows = 0 ∨ b.cols = 0 then result
  else ⟨a.rows, b.cols, fun r c => ∑ k ∈ Finset.range a.cols, a.get r k * b.get k c⟩

/-- The loop over `dim` in the second pass of `ComputeDerivative`: a component of `ni` is stored
when it exceeds the noise floor. -/
def putComponents (gid : Nat) (ni : VectorType) :
    List (Fin Dimension) → WeightsMatrix → Except Fault WeightsMatrix
  | [], gradVector => .ok gradVector
  | dim :: rest, gradVector =>
    if ni dim > MIN_GRADIENT then
      match gradVector.put gid dim (ni dim) with
      | .error e => .error e
      | .ok stored => putComponents gid ni rest stored
    else putComponents gid ni rest gradVector

/-- The second pass of `ComputeDerivative` over the samples of one contour: scaling, projection
on the normal, storage in the sparse vector field and in the gradient mesh of the contour. -/
def projectSamples (scaler : ℚ) :
    List GradientSample → WeightsMatrix × ShapeGradientType →
      Except Fault (WeightsMatrix × ShapeGradientType)
  | [], st => .ok st
  | s :: rest, (gradVector, gradmesh) =>
    if s.w > 0 then
      let gradient := scaler * s.grad * s.w
      let ni : VectorType := fun dim => gradient * s.normal dim
      match putComponents s.gid ni (List.finRange Dimension) gradVector with
      | .error e => .error e
      | .ok stored =>
        projectSamples scaler rest
          (stored, { gradmesh with pointData := Function.update gradmesh.pointData s.cid gradient })
    else
      projectSamples scaler rest
        (gradVector, { gradmesh with pointData := Function.update gradmesh.pointData s.cid 0 })

/-- The contour loop of `ComputeDerivative`, `remaining` iterations from contour `contid`;
`cpid` is the running global node index. -/
def gradientLoop (env : Collaborators) :
    Nat → Nat → Nat → WeightsMatrix → FunctionalBase →
      Except Fault (WeightsMatrix × FunctionalBase)
  | 0, _, _, gradVector, f => .ok (gradVector, f)
  | remaining + 1, contid, cpid, gradVector, f =>
    match f.m_CurrentContours[contid]? with
    | none => .error .outOfRange
    | some normals =>
      match sampleNodes env f contid normals normals.points 0 ⟨[], 0, 0, cpid⟩ with
      | .error e => .error e
      | .ok loc =>
        let scaler := f.m_Scale / loc.totalArea
        match f.m_Gradients[contid]? with
        | none => .error .outOfRange
        | some gradmesh =>
          match projectSamples scaler loc.sample (gradVector, gradmesh) with
          | .error e => .error e
          | .ok (stored, written) =>
            gradientLoop env remaining (contid + 1) loc.cpid stored
              { f with m_Gradients := f.m_Gradients.set contid written }

/-- The final loop of `ComputeDerivative`: the rows of `derivative` are copied into the zero
filled derivative rasters, cell `r` of raster `c` receiving entry `(r, c)`. -/
def scatterDerivative (f : FunctionalBase) (derivative : WeightsMatrix)
    (buff : Fin Dimension → List ℚ) : Except Fault (Fin Dimension → List ℚ) :=
  if f.m_NumberOfNodes ≤ derivative.rows ∧ ∀ i, f.m_NumberOfNodes ≤ (buff i).length then
    .ok fun i => (List.range (buff i).length).map fun r =>
      if r < f.m_NumberOfNodes then derivative.get r i else (buff i).getD r 0
  else .error .outOfRange

/-- Embedding of `FunctionalBase::ComputeDerivative`. -/
def ComputeDerivative (env : Collaborators) (f : FunctionalBase) : Except Fault FunctionalBase :=
  match UpdateContour env f with
  | .error e => .error e
  | .ok f1 =>
    if ∃ i, f1.m_Derivative i = none then .error .nullPointer
    else
      let buff : Fin Dimension → List ℚ := fun i =>
        List.replicate ((f1.m_Derivative i).getD []).length 0
      match f1.m_Transform with
      | none => .error .nullPointer
      | some T =>
        let phi := T.m_Phi.transpose
        let gradVector := WeightsMatrix.zero f1.m_NumberOfPoints Dimension
        let derivative := WeightsMatrix.zero f1.m_NumberOfNodes Dimension
        match gradientLoop env f1.m_NumberOfContours 0 0 gradVector f1 with
        | .error e => .error e
        | .ok (stored, f2) =>
          match scatterDerivative f2 (phi.mult stored derivative) buff with
          | .error e => .error e
          | .ok written => .ok { f2 with m_Derivative := fun i => some (written i) }

/-! ## Concrete inputs -/

/-- A mesh of one triangle. -/
def triangleMesh : ContourType where
  points := [![0, 0, 0], ![1, 0, 0], ![0, 1, 0]]
  cells := [[0, 1, 2]]
  ring := fun _ => [some 0]

/-- Collaborators with 8-bit region pixels; the binarizer marks the first cells of the grid, as
many as the mesh has nodes, and the resampler reads the raster cell of the same offset. -/
def byteEnv : Collaborators where
  roiPixelMax := 255
  BinarizeMesh := fun contour pix => if pix < contour.points.length then 1 else 0
  ResampleROI := fun roi i => (roi.getD i 0 : ℚ)
  GetEnergyOfSample := fun val roi => val.sum * (roi + 1)
  GetEnergyAtPoint := fun p roi => p 0 * (roi + 1)
  ComputeNormals := fun _ _ => ![0, 0, 1]
  ComputeArea := fun _ _ _ => 1 / 2
  InterpolateROI := fun roi _ => roi.getD 0 0
  Smooth := fun img _ => img
  CopyShape := fun contour => ⟨contour.points, fun _ => 0⟩

/-- A freshly constructed functional, without any contour, whose label raster has two cells. -/
def noContourFunctional : FunctionalBase :=
  { FunctionalBase.New with m_CurrentRegions := some [0, 0] }

/-- A functional with one contour (`triangleMesh`) added by `AddShapePrior`, its current contour
in place and a label raster of four cells. -/
def oneContourFunctional : FunctionalBase :=
  { (AddShapePrior FunctionalBase.New triangleMesh).2 with
    m_CurrentContours := [triangleMesh]
    m_CurrentRegions := some [0, 0, 0, 0] }

/-- A reference image of 2 x 2 x 1 pixels with unit spacing and identity direction. -/
def smallImage : ReferenceImage where
  buffer := [[2], [3], [5], [7]]
  origin := ![0, 0, 0]
  spacing := ![1, 1, 1]
  size := ![2, 2, 1]
  direction := fun i j => if i = j then 1 else 0
  inverseDirection := fun i j => if i = j then 1 else 0

/-- A functional on `smallImage` with one contour, a label raster of four cells, stale regions
and stale energy. -/
def staleFunctional : FunctionalBase :=
  { (AddShapePrior (SetReferenceImage FunctionalBase.New smallImage) triangleMesh).2 with
    m_CurrentContours := [triangleMesh]
    m_CurrentRegions := some [0, 0, 0, 0] }

/-- A functional whose energy is marked up to date, with the cached value 5. -/
def cachedFunctional : FunctionalBase :=
  { staleFunctional with m_EnergyUpdated := true, m_Value := ((5 : ℚ) : MeasureType) }

/-- A deformation model with three registered samples and no displacement. -/
def restingTransform : Transform where
  m_NumberOfSamples := 3
  m_OffGridPos := triangleMesh.points
  m_OffGridValue := fun _ _ => 0
  m_Phi := WeightsMatrix.zero 3 1
  coefficientPixels := fun _ => 1
  coefficientSpacing := fun _ => 1

/-- The functional `staleFunctional` (both flags false) with its gradient mesh and the resting
deformation model. -/
def restingFunctional : FunctionalBase :=
  { staleFunctional with
    m_Transform := some restingTransform
    m_Gradients := [byteEnv.CopyShape triangleMesh] }

/-- A deformation model that displaces the first sample by `(1/4, 0, 0)`, the second by
`(2, 0, 0)` and leaves the others in place. -/
def movingTransform : Transform :=
  { restingTransform with
    m_OffGridValue := fun gpid =>
      if gpid = 0 then ![1 / 4, 0, 0] else if gpid = 1 then ![2, 0, 0] else ![0, 0, 0] }

/-- The functional `restingFunctional` with the moving deformation model. -/
def movingFunctional : FunctionalBase :=
  { restingFunctional with m_Transform := some movingTransform }

/-- A reference image of 4 x 2 x 1 pixels whose index axes are turned by a quarter turn about
the third physical axis: index `(i, j, k)` is at the physical point `(-j, i, k)`. -/
def turnedImage : ReferenceImage where
  buffer := List.replicate 8 [0]
  origin := ![0, 0, 0]
  spacing := ![1, 1, 1]
  size := ![4, 2, 1]
  direction := ![![0, -1, 0], ![1, 0, 0], ![0, 0, 1]]
  inverseDirection := ![![0, 1, 0], ![-1, 0, 0], ![0, 0, 1]]

/-- A mesh of one node, at the last pixel centre of `turnedImage`. -/
def cornerMesh : ContourType where
  points := [![-1, 3, 0]]
  cells := []
  ring := fun _ => []

/-- A deformation model that displaces every sample by `(0, 2, 0)`. -/
def pushingTransform : Transform :=
  { restingTransform with
    m_NumberOfSamples := 1
    m_OffGridPos := cornerMesh.points
    m_OffGridValue := fun _ => ![0, 2, 0] }

/-- A functional on `turnedImage` with the contour `cornerMesh` and the pushing deformation
model. -/
def turnedFunctional : FunctionalBase :=
  { (AddShapePrior (SetReferenceImage FunctionalBase.New turnedImage) cornerMesh).2 with
    m_CurrentContours := [cornerMesh]
    m_Gradients := [byteEnv.CopyShape cornerMesh]
    m_Transform := some pushingTransform }

/-- A deformation model with four registered samples, one more than `triangleMesh` has nodes,
no displacement, and a basis matrix with one row per sample and one control node: weight 1 for
the first three samples, no entry for the fourth. -/
def extraSampleTransform : Transform where
  m_NumberOfSamples := 4
  m_OffGridPos := triangleMesh.points ++ [![9, 9, 9]]
  m_OffGridValue := fun _ _ => 0
  m_Phi := ⟨4, 1, fun r c => if r < 3 ∧ c = 0 then 1 else 0⟩
  coefficientPixels := fun _ => 1
  coefficientSpacing := fun _ => 1

/-- A functional with one contour of three nodes, initialized for one control node with the
background as outer region of every node, whose deformation model holds four samples. -/
def mismatchedFunctional : FunctionalBase :=
  { restingFunctional with
    m_Transform := some extraSampleTransform
    m_NumberOfNodes := 1
    m_Derivative := fun _ => some [0]
    m_OuterList := [[1, 1, 1]] }

/-! ## Call sequences -/

/-- A sequence of `AddShapePrior` calls, one per prior in order: the contour indices that the
calls returned and the state after the last call. -/
def addShapePriors : FunctionalBase → List ContourType → List Nat × FunctionalBase
  | f, [] => ([], f)
  | f, prior :: rest =>
    let called := AddShapePrior f prior
    let others := addShapePriors called.2 rest
    (called.1 :: others.1, others.2)

/-! ## Node gradients in closed form -/

/-- Outer-region id held for node `pid` of contour `contid`, `m_OuterList[contid][pid]`. -/
def outerRegion (outerList : List (List Nat)) (contid pid : Nat) : Nat :=
  (outerList.getD contid []).getD pid 0

/-- Area weight of node `pid` of a mesh as `ComputePointArea` returns it. -/
def pointArea (env : Collaborators) (mesh : ContourType) (pid : Nat) : ℚ :=
  match ComputePointArea env pid mesh with
  | .ok w => w
  | .error _ => 0

/-- Raw gradient at a node of contour `contid` whose outer region is `outer`: the energy at the
point under the outer region minus the energy under the inner region `contid`, set to 0 when its
magnitude is below the noise floor. -/
def rawGradient (env : Collaborators) (contid outer : Nat) (p : PointType) : ℚ :=
  if |env.GetEnergyAtPoint p outer - env.GetEnergyAtPoint p contid| < MIN_GRADIENT then 0
  else env.GetEnergyAtPoint p outer - env.GetEnergyAtPoint p contid

/-- The record that the node loop of `ComputeDerivative` pushes for node `pid` of contour
`contid`, at position `ci` and with global index `cpid`. -/
def nodeSample (env : Collaborators) (outerList : List (List Nat)) (contid : Nat)
    (normals : ContourType) (pid cpid : Nat) (ci : PointType) : GradientSample :=
  if contid ≠ outerRegion outerList contid pid then
    { grad := rawGradient env contid (outerRegion outerList contid pid) ci
      w := pointArea env normals pid
      normal := env.ComputeNormals normals pid
      cid := pid
      gid := cpid
      sid := contid }
  else ⟨0, 0, fun _ => 0, pid, cpid, contid⟩

/-- The records of the nodes `pid, pid + 1, ...` of contour `contid`, at the listed positions,
the first one having the global index `cpid`. -/
def nodeSamples (env : Collaborators) (outerList : List (List Nat)) (contid : Nat)
    (normals : ContourType) : List PointType → Nat → Nat → List GradientSample
  | [], _, _ => []
  | ci :: rest, pid, cpid =>
    nodeSample env outerList contid normals pid cpid ci ::
      nodeSamples env outerList contid normals rest (pid + 1) (cpid + 1)

/-- Total boundary area of contour `contid`: the sum of the area weights of its records. -/
def contourArea (env : Collaborators) (outerList : List (List Nat)) (contid : Nat)
    (contour : ContourType) : ℚ :=
  ((nodeSamples env outerList contid contour contour.points 0 0).map fun s => s.w).sum

/-- Scaled gradient of a record: `(scale / totalArea) * grad * w`. -/
def scaledGradient (scale totalArea : ℚ) (s : GradientSample) : ℚ :=
  scale / totalArea * s.grad * s.w

/-- Node gradient that the second pass of `ComputeDerivative` writes into the gradient mesh for
a record. -/
def heldGradient (scale totalArea : ℚ) (s : GradientSample) : ℚ :=
  if s.w > 0 then scaledGradient scale totalArea s else 0

/-- Entry of the sparse vector field in the row of a record and column `dim`, on a matrix
without earlier entry in that row. -/
def fieldEntry (scale totalArea : ℚ) (s : GradientSample) (dim : Fin Dimension) : ℚ :=
  if s.w > 0 ∧ scaledGradient scale totalArea s * s.normal dim > MIN_GRADIENT then
    scaledGradient scale totalArea s * s.normal dim
  else 0

/-- The fan of node `pid` is well formed for `ComputePointArea`: the node has an edge, and each
left face met on the ring is a cell of the mesh with at most three points. -/
def FanWellFormed (mesh : ContourType) (pid : Nat) : Prop :=
  mesh.ring pid ≠ [] ∧
    ∀ face, some face ∈ mesh.ring pid → ∃ poly, mesh.cells[face]? = some poly ∧ poly.length ≤ 3

/-- Derivative raster of dimension `i` in closed form: cell `r` of a control node holds the
`(r, i)` entry of the product of the transposed basis matrix by the sparse vector field `G`,
the sum over the rows `k` of `phi` of `phi(k, r) * G(k, i)`; a cell beyond the control nodes
holds 0. The raster has the size of the raster allocated by `Initialize`. -/
def derivativeRaster (f : FunctionalBase) (T : Transform) (G : WeightsMatrix)
    (i : Fin Dimension) : List ℚ :=
  (List.range ((f.m_Derivative i).getD []).length).map fun r =>
    if r < f.m_NumberOfNodes then ∑ k ∈ Finset.range T.m_Phi.rows, T.m_Phi.get k r * G.get k i
    else 0

/-- The functional is ready for a gradient pass, as `Initialize` leaves it: the derivative
rasters are allocated with a cell per control node, the basis matrix has a column per control
node, the sparse vector field has a row per node of the contours, and every contour has its
vector of outer regions and well-formed fans. -/
def GradientReady (f : FunctionalBase) (T : Transform) : Prop :=
  (∀ i, ∃ buf, f.m_Derivative i = some buf ∧ f.m_NumberOfNodes ≤ buf.length) ∧
  f.m_NumberOfNodes ≤ T.m_Phi.cols ∧
  totalNodes f ≤ f.m_NumberOfPoints ∧
  ∀ c contour, c < f.m_NumberOfContours → f.m_CurrentContours[c]? = some contour →
    ∃ outerVect, f.m_OuterList[c]? = some outerVect ∧
      contour.points.length ≤ outerVect.length ∧
      ∀ pid, pid < contour.points.length → FanWellFormed contour pid

/-! ## Concrete inputs of the gradient computer -/

/-- Collaborators of `byteEnv` with a region-energy model that returns 0 for every sample, point
and region. -/
def flatEnv : Collaborators :=
  { byteEnv with
    GetEnergyOfSample := fun _ _ => 0
    GetEnergyAtPoint := fun _ _ => 0 }

/-- A deformation model with three registered samples, no displacement and one control node: the
basis matrix has a row per sample and one column, every weight being 1. -/
def weightedTransform : Transform :=
  { restingTransform with m_Phi := ⟨3, 1, fun _ _ => 1⟩ }

/-- A functional with one contour (`triangleMesh`) as `Initialize` leaves it for one control
node: derivative rasters of one cell, and the background as outer region of the three nodes. -/
def readyFunctional : FunctionalBase :=
  { restingFunctional with
    m_Transform := some weightedTransform
    m_NumberOfNodes := 1
    m_Derivative := fun _ => some [0]
    m_OuterList := [[1, 1, 1]] }

/-- The functional `readyFunctional` with the global gradient scale `1e-5`. -/
def faintFunctional : FunctionalBase :=
  { readyFunctional with m_Scale := 1 / 100000 }

/-- Collaborators of `byteEnv` with a normal estimator that returns `(0, 0, -1)` at every
node. -/
def inwardEnv : Collaborators :=
  { byteEnv with ComputeNormals := fun _ _ => ![0, 0, -1] }

/-- Product of two matrices as linear algebra defines it: it exists when the first factor has as
many columns as the second has rows, and its `(r, c)` entry is the sum over `k` of
`a(r, k) * b(k, c)`. -/
def matrixProduct (a b : WeightsMatrix) : Option WeightsMatrix :=
  if a.cols = b.rows then
    some ⟨a.rows, b.cols, fun r c => ∑ k ∈ Finset.range a.cols, a.get r k * b.get k c⟩
  else none

/-- A deformation model with three registered samples, no displacement and one control node,
whose basis matrix has a row per control node and a column per sample, every weight being 1. -/
def rowsAsNodesTransform : Transform :=
  { restingTransform with m_Phi := ⟨1, 3, fun _ _ => 1⟩ }

/-- The functional `readyFunctional` with the deformation model `rowsAsNodesTransform`. -/
def rowsAsNodesFunctional : FunctionalBase :=
  { readyFunctional with m_Transform := some rowsAsNodesTransform }

/-- A deformation model with six registered samples, the nodes of two contours, no displacement
and one control node; the basis matrix has a row per sample. -/
def sixSampleTransform : Transform :=
  { restingTransform with
    m_NumberOfSamples := 6
    m_OffGridPos := triangleMesh.points ++ triangleMesh.points
    m_Phi := ⟨6, 1, fun _ _ => 1⟩ }

/-- A functional with two contours, hence three regions, before `ComputeOuterRegions`: the label
raster is the one `ComputeCurrentRegions` computes with `byteEnv`, in which the first contour
claims the first three cells and the background the fourth. -/
def nestedFunctional : FunctionalBase :=
  { (AddShapePrior
      (AddShapePrior (SetReferenceImage FunctionalBase.New smallImage) triangleMesh).2
      triangleMesh).2 with
    m_CurrentContours := [triangleMesh, triangleMesh]
    m_Gradients := [byteEnv.CopyShape triangleMesh, byteEnv.CopyShape triangleMesh]
    m_CurrentRegions := some [0, 0, 0, 2]
    m_Transform := some sixSampleTransform
    m_NumberOfNodes := 1
    m_Derivative := fun _ => some [0] }

/-- A deformation model for one control node, before any sample is registered with it; it
interpolates no displacement. -/
def blankTransform : Transform :=
  { restingTransform with
    m_NumberOfSamples := 0
    m_OffGridPos := []
    m_Phi := ⟨3, 1, fun _ _ => 1⟩ }

/-- A functional that is configured and not yet initialized: constructed, given the reference
image `smallImage`, one shape prior (`triangleMesh`) and the deformation model. -/
def configuredFunctional : FunctionalBase :=
  { (AddShapePrior (SetReferenceImage FunctionalBase.New smallImage) triangleMesh).2 with
    m_Transform := some blankTransform }

/-! ## Theorems -/

theorem tempROI_eq_map (env : Collaborators) (f : FunctionalBase) (nPix idx : Nat)
    (hc : f.m_CurrentROIs.length - 1 ≤ f.m_CurrentContours.length) :
    tempROI env f nPix idx = .ok ((List.range nPix).map (maskValue env f idx)) := by
  unfold tempROI
  by_cases h : idx < f.m_CurrentROIs.length - 1
  · have hlt : idx < f.m_CurrentContours.length := by omega
    have hm : maskValue env f idx = env.BinarizeMesh f.m_CurrentContours[idx] := by
      funext pix
      simp [maskValue, h, List.getElem?_eq_getElem hlt]
    simp [h, List.getElem?_eq_getElem hlt, hm]
  · have hm : maskValue env f idx = fun _ => 1 := by
      funext pix
      simp [maskValue, h]
    simp only [h, if_false, hm]
    congr 1
    apply List.ext_getElem <;> simp

theorem maskValue_set (env : Collaborators) (f : FunctionalBase) (rois : List ROIType)
    (h : rois.length = f.m_CurrentROIs.length) (idx pix : Nat) :
    maskValue env { f with m_CurrentROIs := rois } idx pix = maskValue env f idx pix := by
  simp [maskValue, h]

theorem zip_getElem?_some {α β : Type} (l₁ : List α) (l₂ : List β) (p : Nat) (a : α) (b : β)
    (ha : l₁[p]? = some a) (hb : l₂[p]? = some b) : (List.zip l₁ l₂)[p]? = some (a, b) :=
  List.getElem?_zip_eq_some.mpr ⟨ha, hb⟩

theorem claimCells_fst_getElem? (u idx : Nat) (regs roi : ROIType) (p r m : Nat)
    (hr : regs[p]? = some r) (hm : roi[p]? = some m) :
    (claimCells u idx regs roi).1[p]? = some (claimPixel u idx (r, m)).1 := by
  simp [claimCells, List.unzip_fst, List.getElem?_map, zip_getElem?_some _ _ _ _ _ hr hm]

theorem claimCells_snd_getElem? (u idx : Nat) (regs roi : ROIType) (p r m : Nat)
    (hr : regs[p]? = some r) (hm : roi[p]? = some m) :
    (claimCells u idx regs roi).2[p]? = some (claimPixel u idx (r, m)).2 := by
  simp [claimCells, List.unzip_snd, List.getElem?_map, zip_getElem?_some _ _ _ _ _ hr hm]

theorem claimCells_length (u idx : Nat) (regs roi : ROIType) (h : regs.length = roi.length) :
    (claimCells u idx regs roi).1.length = regs.length ∧
      (claimCells u idx regs roi).2.length = regs.length := by
  simp [claimCells, List.unzip_fst, List.unzip_snd, h]

theorem find?_range'_bounds (q : Nat → Bool) (s k j : Nat)
    (h : (List.range' s k).find? q = some j) : s ≤ j ∧ j < s + k ∧ q j = true := by
  have hm := List.mem_of_find?_eq_some h
  have hq := List.find?_some h
  rw [List.mem_range'_1] at hm
  exact ⟨hm.1, hm.2, hq⟩

theorem regionsLoop_spec (env : Collaborators) (nPix : Nat) (k : Nat) :
    ∀ (idx : Nat) (regs : ROIType) (f : FunctionalBase) (fuel : Nat),
      idx + k = f.m_CurrentROIs.length →
      f.m_CurrentROIs.length ≤ env.roiPixelMax →
      f.m_CurrentROIs.length - 1 ≤ f.m_CurrentContours.length →
      regs.length = nPix → k < fuel →
      ∃ regs' rois',
        regionsLoop env nPix regs fuel idx f = .ok (regs', { f with m_CurrentROIs := rois' }) ∧
        regs'.length = nPix ∧ rois'.length = f.m_CurrentROIs.length ∧
        (∀ j, j < idx → rois'[j]? = f.m_CurrentROIs[j]?) ∧
        ∀ p r, regs[p]? = some r →
          regs'[p]? = some (if r = env.roiPixelMax then
              ((List.range' idx k).find?
                (fun j => decide (maskValue env f j p = 1))).getD env.roiPixelMax
            else r) ∧
          ∀ j, idx ≤ j → j < f.m_CurrentROIs.length →
            (rois'[j]?.bind (fun roi => roi[p]?)) = some (if r = env.roiPixelMax ∧
              (List.range' idx k).find? (fun j => decide (maskValue env f j p = 1)) = some j
              then 1 else 0) := by
  induction k with
  | zero =>
    intro idx regs f fuel hk hmax hc hlen hfuel
    obtain ⟨fuel, rfl⟩ : ∃ m, fuel = m + 1 := ⟨fuel - 1, by omega⟩
    refine ⟨regs, f.m_CurrentROIs, ?_, hlen, rfl, fun _ _ => rfl, ?_⟩
    · have : ¬ idx < f.m_CurrentROIs.length := by omega
      simp [regionsLoop, this]
    · intro p r hr
      refine ⟨by rw [hr]; by_cases h : r = env.roiPixelMax <;> simp [h], ?_⟩
      intro j h1 h2
      omega
  | succ k ih =>
    intro idx regs f fuel hk hmax hc hlen hfuel
    obtain ⟨fuel, rfl⟩ : ∃ m, fuel = m + 1 := ⟨fuel - 1, by omega⟩
    have hidx : idx < f.m_CurrentROIs.length := by omega
    have hmod : (idx + 1) % (env.roiPixelMax + 1) = idx + 1 := Nat.mod_eq_of_lt (by omega)
    have hne : idx ≠ env.roiPixelMax := by omega
    let roi : ROIType := (List.range nPix).map (maskValue env f idx)
    let f1 : FunctionalBase :=
      { f with m_CurrentROIs :=
          f.m_CurrentROIs.set idx (claimCells env.roiPixelMax idx regs roi).2 }
    have hroilen : regs.length = roi.length := by simp [roi, hlen]
    have hcl := claimCells_length env.roiPixelMax idx regs roi hroilen
    have hf1len : f1.m_CurrentROIs.length = f.m_CurrentROIs.length := by simp [f1]
    have hmask : ∀ j p, maskValue env f1 j p = maskValue env f j p := fun j p =>
      maskValue_set env f _ (by simp) j p
    obtain ⟨regs', rois', hrun, hl1, hl2, hkeep, hpix⟩ :=
      ih (idx + 1) (claimCells env.roiPixelMax idx regs roi).1 f1 fuel
        (by rw [hf1len]; omega) (by rw [hf1len]; exact hmax) (by rw [hf1len]; exact hc)
        (by rw [hcl.1, hlen]) (by omega)
    refine ⟨regs', rois', ?_, hl1, by rw [hl2, hf1len], ?_, ?_⟩
    · rw [regionsLoop]
      simp only [hidx, if_true, tempROI_eq_map env f nPix idx hc, hmod]
      exact hrun
    · intro j hj
      rw [hkeep j (by omega)]
      simp only [f1]
      rw [List.getElem?_set_ne (by omega)]
    · intro p r hr
      have hp : p < nPix := by
        rw [← hlen]
        exact (List.getElem?_eq_some.mp hr).1
      have hm : roi[p]? = some (maskValue env f idx p) := by
        simp [roi, List.getElem?_map, List.getElem?_range hp]
      have h1 := claimCells_fst_getElem? env.roiPixelMax idx regs roi p r _ hr hm
      have h2 := claimCells_snd_getElem? env.roiPixelMax idx regs roi p r _ hr hm
      obtain ⟨hreg, hroi⟩ := hpix p _ h1
      simp only [hmask] at hreg hroi
      have hfind : ∀ j, (List.range' (idx + 1) k).find?
          (fun j => decide (maskValue env f j p = 1)) = some j → idx + 1 ≤ j := fun j hj =>
        (find?_range'_bounds _ _ _ _ hj).1
      constructor
      · rw [hreg, List.range'_succ, List.find?_cons]
        by_cases hr1 : r = env.roiPixelMax <;> by_cases hm1 : maskValue env f idx p = 1 <;>
          simp [claimPixel, hr1, hm1, hne]
      · intro j hj1 hj2
        rcases Nat.eq_or_lt_of_le hj1 with rfl | hlt
        · rw [hkeep idx (by omega)]
          simp only [f1]
          rw [List.getElem?_set_self hidx]
          simp only [Option.some_bind, h2, List.range'_succ, List.find?_cons]
          by_cases hr1 : r = env.roiPixelMax <;> by_cases hm1 : maskValue env f idx p = 1 <;>
            simp [claimPixel, hr1, hm1]
        · have hij : idx ≠ j := by omega
          rw [hroi j (by omega) (by rw [hf1len]; exact hj2), List.range'_succ, List.find?_cons]
          by_cases hr1 : r = env.roiPixelMax <;> by_cases hm1 : maskValue env f idx p = 1 <;>
            simp [claimPixel, hr1, hm1, hne, hij]

theorem find?_range'_least (q : Nat → Bool) (k : Nat) :
    ∀ (s i : Nat), (List.range' s k).find? q = some i → ∀ j, s ≤ j → j < i → q j = false := by
  induction k with
  | zero => intro s i h; simp at h
  | succ k ih =>
    intro s i h j hj1 hj2
    rw [List.range'_succ, List.find?_cons] at h
    cases hq : q s with
    | true =>
      rw [hq] at h
      simp only [Option.some.injEq] at h
      omega
    | false =>
      rw [hq] at h
      rcases Nat.eq_or_lt_of_le hj1 with rfl | hlt
      · exact hq
      · exact ih (s + 1) i h j hlt hj2

theorem find?_range'_exists (q : Nat → Bool) (s k x : Nat) (h1 : s ≤ x) (h2 : x < s + k)
    (hq : q x = true) : ∃ i, (List.range' s k).find? q = some i := by
  have : ((List.range' s k).find? q).isSome := by
    rw [List.find?_isSome]
    exact ⟨x, List.mem_range'_1.mpr ⟨h1, h2⟩, hq⟩
  exact Option.isSome_iff_exists.mp this

theorem maskValue_last (env : Collaborators) (f : FunctionalBase) (pix : Nat) :
    maskValue env f (f.m_CurrentROIs.length - 1) pix = 1 := by
  simp [maskValue]

/-- What `ComputeCurrentRegions` leaves in the label raster and in the stored rasters, cell by
cell, when there is at least one region and the region ids fit the pixel type. -/
theorem ComputeCurrentRegions_spec (env : Collaborators) (fuel : Nat) (f : FunctionalBase)
    (regions : ROIType) (hreg : f.m_CurrentRegions = some regions)
    (h1 : 1 ≤ f.m_CurrentROIs.length) (hmax : f.m_CurrentROIs.length ≤ env.roiPixelMax)
    (hc : f.m_CurrentROIs.length - 1 ≤ f.m_CurrentContours.length)
    (hfuel : f.m_CurrentROIs.length < fuel) :
    ∃ labels rois,
      ComputeCurrentRegions env fuel f = .ok { f with
        m_CurrentROIs := rois, m_CurrentRegions := some labels, m_RegionsUpdated := true } ∧
      labels.length = regions.length ∧ rois.length = f.m_CurrentROIs.length ∧
      ∀ pix, pix < regions.length → ∃ i,
        labels[pix]? = some i ∧ i < f.m_CurrentROIs.length ∧ maskValue env f i pix = 1 ∧
        (∀ j, j < i → maskValue env f j pix ≠ 1) ∧
        ∀ j, j < f.m_CurrentROIs.length →
          (rois[j]?.bind fun roi => roi[pix]?) = some (if j = i then 1 else 0) := by
  obtain ⟨labels, rois, hrun, hl1, hl2, -, hpix⟩ :=
    regionsLoop_spec env regions.length f.m_CurrentROIs.length 0
      (List.replicate regions.length env.roiPixelMax) f fuel (by omega) hmax hc (by simp) hfuel
  refine ⟨labels, rois, ?_, hl1, hl2, ?_⟩
  · simp only [ComputeCurrentRegions, hreg, hrun]
  · intro pix hp
    obtain ⟨hlab, hroi⟩ := hpix pix env.roiPixelMax (by simp [List.getElem?_replicate, hp])
    obtain ⟨i, hi⟩ := find?_range'_exists (fun j => decide (maskValue env f j pix = 1)) 0
      f.m_CurrentROIs.length (f.m_CurrentROIs.length - 1) (by omega) (by omega)
      (by simp [maskValue_last])
    obtain ⟨-, hi2, hi3⟩ := find?_range'_bounds _ _ _ _ hi
    have hi4 : i < f.m_CurrentROIs.length := by omega
    refine ⟨i, ?_, hi4, by simpa using hi3, ?_, ?_⟩
    · rw [hlab, hi]; simp
    · intro j hj
      have := find?_range'_least _ _ _ _ hi j (by omega) hj
      simpa using this
    · intro j hj
      rw [hroi j (by omega) hj, hi]
      by_cases hji : j = i
      · simp [hji]
      · have : i ≠ j := fun h => hji h.symm
        simp [hji, this]

theorem regionsLoop_wraps (env : Collaborators) (nPix : Nat) (fuel : Nat) :
    ∀ (idx : Nat) (regs : ROIType) (f : FunctionalBase),
      env.roiPixelMax < f.m_CurrentROIs.length → idx ≤ env.roiPixelMax →
      f.m_CurrentROIs.length - 1 ≤ f.m_CurrentContours.length →
      regionsLoop env nPix regs fuel idx f = .error .outOfFuel := by
  induction fuel with
  | zero => intro idx regs f _ _ _; rfl
  | succ fuel ih =>
    intro idx regs f hbig hidx hc
    have hlt : idx < f.m_CurrentROIs.length := by omega
    rw [regionsLoop]
    simp only [hlt, if_true, tempROI_eq_map env f nPix idx hc]
    apply ih
    · simpa using hbig
    · exact Nat.le_of_lt_succ (Nat.mod_lt _ (Nat.succ_pos _))
    · simpa using hc

/-- C1 (as amended). With at least one region raster (at least one `AddShapePrior` call) and a
region count that does not exceed the largest pixel value, `ComputeCurrentRegions` returns and
every cell of the label raster holds a region id below the number of regions, none the
unassigned sentinel. -/
theorem ComputeCurrentRegions_assigns_every_cell (env : Collaborators) (fuel : Nat)
    (f : FunctionalBase) (regions : ROIType) (hreg : f.m_CurrentRegions = some regions)
    (h1 : 1 ≤ f.m_CurrentROIs.length) (hR : f.m_NumberOfRegions = f.m_CurrentROIs.length)
    (hmax : f.m_NumberOfRegions ≤ env.roiPixelMax)
    (hc : f.m_NumberOfRegions - 1 ≤ f.m_CurrentContours.length)
    (hfuel : f.m_NumberOfRegions < fuel) :
    ∃ f' labels, ComputeCurrentRegions env fuel f = .ok f' ∧
      f'.m_CurrentRegions = some labels ∧ labels.length = regions.length ∧
      ∀ cell ∈ labels, cell < f.m_NumberOfRegions ∧ cell ≠ env.roiPixelMax := by
  rw [hR] at hmax hc hfuel
  obtain ⟨labels, rois, hrun, hl1, -, hpix⟩ :=
    ComputeCurrentRegions_spec env fuel f regions hreg h1 hmax hc hfuel
  refine ⟨_, labels, hrun, rfl, hl1, ?_⟩
  intro cell hcell
  obtain ⟨pix, hp, rfl⟩ := List.getElem_of_mem hcell
  obtain ⟨i, hi, hlt, -⟩ := hpix pix (by omega)
  rw [List.getElem?_eq_getElem hp] at hi
  simp only [Option.some.injEq] at hi
  have hne : i ≠ env.roiPixelMax := Nat.ne_of_lt (Nat.lt_of_lt_of_le hlt hmax)
  rw [hi, hR]
  exact ⟨hlt, hne⟩

/-- C1, witness: the amended statement on a functional with one contour. -/
theorem ComputeCurrentRegions_assigns_every_cell_witness :
    ∃ f' labels, ComputeCurrentRegions byteEnv 3 oneContourFunctional = .ok f' ∧
      f'.m_CurrentRegions = some labels ∧ labels.length = [0, 0, 0, 0].length ∧
      ∀ cell ∈ labels, cell < oneContourFunctional.m_NumberOfRegions ∧
        cell ≠ byteEnv.roiPixelMax :=
  ComputeCurrentRegions_assigns_every_cell byteEnv 3 oneContourFunctional [0, 0, 0, 0] rfl
    (by decide) (by decide) (by decide) (by decide) (by decide)

/-- C1, counterexample: on a functional without contour (one region, the background) the call
returns with both cells of the label raster still holding the unassigned sentinel. -/
theorem ComputeCurrentRegions_no_contour_unassigned :
    ∃ f', ComputeCurrentRegions byteEnv 1 noContourFunctional = .ok f' ∧
      f'.m_CurrentRegions = some [byteEnv.roiPixelMax, byteEnv.roiPixelMax] ∧
      noContourFunctional.m_NumberOfRegions = 1 ∧
      ¬ ∀ cell ∈ [byteEnv.roiPixelMax, byteEnv.roiPixelMax],
        cell < noContourFunctional.m_NumberOfRegions ∧ cell ≠ byteEnv.roiPixelMax :=
  ⟨_, rfl, rfl, rfl, by decide⟩

/-- C2. After `ComputeCurrentRegions` the label of every grid cell is the smallest region index
whose mask is 1 at that cell, the mask of the last region (the background) being all ones; so
where the masks of two regions overlap the cell never goes to the higher index. -/
theorem ComputeCurrentRegions_lowest_index_wins (env : Collaborators) (fuel : Nat)
    (f : FunctionalBase) (regions : ROIType) (hreg : f.m_CurrentRegions = some regions)
    (h1 : 1 ≤ f.m_CurrentROIs.length) (hmax : f.m_CurrentROIs.length ≤ env.roiPixelMax)
    (hc : f.m_CurrentROIs.length - 1 ≤ f.m_CurrentContours.length)
    (hfuel : f.m_CurrentROIs.length < fuel) :
    ∃ f' labels, ComputeCurrentRegions env fuel f = .ok f' ∧
      f'.m_CurrentRegions = some labels ∧ labels.length = regions.length ∧
      ∀ pix, pix < regions.length →
        maskValue env f (f.m_CurrentROIs.length - 1) pix = 1 ∧
        ∃ i, labels[pix]? = some i ∧ i < f.m_CurrentROIs.length ∧
          maskValue env f i pix = 1 ∧ (∀ j, j < i → maskValue env f j pix ≠ 1) ∧
          ∀ a b, a < b → maskValue env f a pix = 1 → maskValue env f b pix = 1 → i ≠ b := by
  obtain ⟨labels, rois, hrun, hl1, -, hpix⟩ :=
    ComputeCurrentRegions_spec env fuel f regions hreg h1 hmax hc hfuel
  refine ⟨_, labels, hrun, rfl, hl1, ?_⟩
  intro pix hp
  obtain ⟨i, hi, hlt, hone, hleast, -⟩ := hpix pix hp
  refine ⟨maskValue_last env f pix, i, hi, hlt, hone, hleast, ?_⟩
  intro a b hab ha _ hib
  exact hleast a (by rw [hib]; exact hab) ha

/-- C2, witness: one contour whose mask covers the first three of four cells. -/
theorem ComputeCurrentRegions_lowest_index_wins_witness :
    ∃ f' labels, ComputeCurrentRegions byteEnv 3 oneContourFunctional = .ok f' ∧
      f'.m_CurrentRegions = some labels ∧ labels.length = [0, 0, 0, 0].length ∧
      ∀ pix, pix < [0, 0, 0, 0].length →
        maskValue byteEnv oneContourFunctional
          (oneContourFunctional.m_CurrentROIs.length - 1) pix = 1 ∧
        ∃ i, labels[pix]? = some i ∧ i < oneContourFunctional.m_CurrentROIs.length ∧
          maskValue byteEnv oneContourFunctional i pix = 1 ∧
          (∀ j, j < i → maskValue byteEnv oneContourFunctional j pix ≠ 1) ∧
          ∀ a b, a < b → maskValue byteEnv oneContourFunctional a pix = 1 →
            maskValue byteEnv oneContourFunctional b pix = 1 → i ≠ b :=
  ComputeCurrentRegions_lowest_index_wins byteEnv 3 oneContourFunctional [0, 0, 0, 0] rfl
    (by decide) (by decide) (by decide) (by decide)

/-- C3. After `ComputeCurrentRegions` the stored rasters `m_CurrentROIs` partition the sampling
grid: at every cell the raster of exactly one region holds 1, every other raster holds 0, and
that region is the label of the cell. -/
theorem ComputeCurrentRegions_rasters_partition (env : Collaborators) (fuel : Nat)
    (f : FunctionalBase) (regions : ROIType) (hreg : f.m_CurrentRegions = some regions)
    (h1 : 1 ≤ f.m_CurrentROIs.length) (hmax : f.m_CurrentROIs.length ≤ env.roiPixelMax)
    (hc : f.m_CurrentROIs.length - 1 ≤ f.m_CurrentContours.length)
    (hfuel : f.m_CurrentROIs.length < fuel) :
    ∃ f' labels, ComputeCurrentRegions env fuel f = .ok f' ∧
      f'.m_CurrentRegions = some labels ∧ labels.length = regions.length ∧
      f'.m_CurrentROIs.length = f.m_CurrentROIs.length ∧
      ∀ pix, pix < regions.length →
        ∃ i, labels[pix]? = some i ∧ i < f.m_CurrentROIs.length ∧
          ∀ j, j < f.m_CurrentROIs.length →
            (f'.m_CurrentROIs[j]?.bind fun roi => roi[pix]?) = some (if j = i then 1 else 0) := by
  obtain ⟨labels, rois, hrun, hl1, hl2, hpix⟩ :=
    ComputeCurrentRegions_spec env fuel f regions hreg h1 hmax hc hfuel
  refine ⟨_, labels, hrun, rfl, hl1, hl2, ?_⟩
  intro pix hp
  obtain ⟨i, hi, hlt, -, -, hrois⟩ := hpix pix hp
  exact ⟨i, hi, hlt, hrois⟩

/-- C3, witness: the partition on a functional with one contour. -/
theorem ComputeCurrentRegions_rasters_partition_witness :
    ∃ f' labels, ComputeCurrentRegions byteEnv 3 oneContourFunctional = .ok f' ∧
      f'.m_CurrentRegions = some labels ∧ labels.length = [0, 0, 0, 0].length ∧
      f'.m_CurrentROIs.length = oneContourFunctional.m_CurrentROIs.length ∧
      ∀ pix, pix < [0, 0, 0, 0].length →
        ∃ i, labels[pix]? = some i ∧ i < oneContourFunctional.m_CurrentROIs.length ∧
          ∀ j, j < oneContourFunctional.m_CurrentROIs.length →
            (f'.m_CurrentROIs[j]?.bind fun roi => roi[pix]?) = some (if j = i then 1 else 0) :=
  ComputeCurrentRegions_rasters_partition byteEnv 3 oneContourFunctional [0, 0, 0, 0] rfl
    (by decide) (by decide) (by decide) (by decide)

/-! ### Energy evaluator -/

/-- Contribution of reference pixel `i` to the energy of region `roi` for the weight `w`. -/
theorem energyLoop_spec (env : Collaborators) (buf : List ReferencePixelType) (roi : Nat) :
    ∀ (ws : List ℚ) (i : Nat) (a : ℚ), i + ws.length ≤ buf.length →
      energyLoop env buf roi ws i ((a : ℚ) : MeasureType) =
        .ok (((a + ∑ j ∈ Finset.range ws.length,
          (if 0 < ws.getD j 0 then ws.getD j 0 * env.GetEnergyOfSample (buf.getD (i + j) []) roi
            else 0) : ℚ)) : MeasureType) := by
  intro ws
  induction ws with
  | nil => intro i a _; simp [energyLoop]
  | cons w rest ih =>
    intro i a hlen
    have hi : i < buf.length := by simp at hlen; omega
    have hrest : i + 1 + rest.length ≤ buf.length := by simp at hlen; omega
    rw [List.length_cons, Finset.sum_range_succ']
    have hshift : ∀ j, buf.getD (i + (j + 1)) [] = buf.getD (i + 1 + j) [] := fun j => by
      rw [Nat.add_assoc, Nat.add_comm 1 j]
    simp only [List.length_cons, List.getD_cons_succ, List.getD_cons_zero, hshift, Nat.add_zero]
    rw [energyLoop]
    by_cases hw : 0 < w
    · simp only [hw, if_true, List.getElem?_eq_getElem hi]
      rw [← WithTop.coe_add, ih (i + 1) _ hrest]
      congr 2
      rw [List.getD_eq_getElem _ _ hi]
      ring
    · simp only [hw, if_false]
      rw [ih (i + 1) a hrest]
      congr 2
      ring

theorem GetCurrentMap_updated (env : Collaborators) (fuel : Nat) (g : FunctionalBase)
    (idx : Nat) (roi : ROIType) (slot : Option ProbabilityMapType)
    (hupd : g.m_RegionsUpdated = true) (hroi : g.m_CurrentROIs[idx]? = some roi)
    (hslot : g.m_CurrentMaps[idx]? = some slot)
    (hfit : ∀ map, slot = some map → map.length = referencePixelCount g) :
    GetCurrentMap env fuel g idx =
      .ok (resampledMap env g roi,
        { g with m_CurrentMaps := g.m_CurrentMaps.set idx (some (resampledMap env g roi)) }) := by
  unfold GetCurrentMap
  simp only [hupd, Bool.not_true, Bool.false_eq_true, if_false, hslot, hroi]
  cases slot with
  | none => simp [resampledMap]
  | some map => simp [hfit map rfl, resampledMap]

theorem normalizerLoop_fixed (env : Collaborators) (fuel : Nat) (g : FunctionalBase)
    (m : ProbabilityMapType) (h : GetCurrentMap env fuel g 0 = .ok (m, g)) :
    ∀ (l : List (Fin Dimension)) (n : ℚ),
      normalizerLoop env fuel l n g = .ok (n * (l.map g.m_ReferenceSpacing).prod, g) := by
  intro l
  induction l with
  | nil => intro n; simp [normalizerLoop]
  | cons i rest ih =>
    intro n
    rw [normalizerLoop, h]
    simp only [ih, List.map_cons, List.prod_cons, mul_assoc]

theorem resampledMap_getD (env : Collaborators) (g : FunctionalBase) (roi : ROIType) (i : Nat)
    (hi : i < referencePixelCount g) : (resampledMap env g roi).getD i 0 = env.ResampleROI roi i := by
  simp [resampledMap, List.getD_eq_getElem?_getD, List.getElem?_map, List.getElem?_range hi]

theorem resampledMap_length (env : Collaborators) (g : FunctionalBase) (roi : ROIType) :
    (resampledMap env g roi).length = referencePixelCount g := by
  simp [resampledMap]

/-- Energy of one region as the pixel loop accumulates it. -/
theorem regionEnergyLoop_spec (env : Collaborators) (fuel : Nat) (img : ReferenceImage)
    (k : Nat) :
    ∀ (r : Nat) (g : FunctionalBase) (a : ℚ),
      g.m_RegionsUpdated = true → g.m_ReferenceImage = some img →
      g.m_Value = ((a : ℚ) : MeasureType) →
      r + k ≤ g.m_CurrentROIs.length → r + k ≤ g.m_CurrentMaps.length → SlotsFit g →
      referencePixelCount g ≤ img.buffer.length →
      ∃ maps,
        regionEnergyLoop env fuel k r g = .ok { g with
          m_CurrentMaps := maps
          m_Value := (((a + ∑ j ∈ Finset.range k, ∑ i ∈ Finset.range (referencePixelCount g),
            (if 0 < env.ResampleROI (g.m_CurrentROIs.getD (r + j) []) i then
              env.ResampleROI (g.m_CurrentROIs.getD (r + j) []) i *
                env.GetEnergyOfSample (img.buffer.getD i []) (r + j)
            else 0) : ℚ)) : MeasureType) } ∧
        maps.length = g.m_CurrentMaps.length ∧
        (∀ j, r ≤ j → j < r + k →
          maps[j]? = some (some (resampledMap env g (g.m_CurrentROIs.getD j [])))) ∧
        ∀ j, j < r → maps[j]? = g.m_CurrentMaps[j]? := by
  induction k with
  | zero =>
    intro r g a _ _ hval _ _ _ _
    refine ⟨g.m_CurrentMaps, ?_, rfl, fun j h1 h2 => by omega, fun _ _ => rfl⟩
    simp only [regionEnergyLoop, Finset.range_zero, Finset.sum_empty, add_zero, ← hval]
  | succ k ih =>
    intro r g a hupd himg hval hrois hmaps hfit hbuf
    have hr1 : r < g.m_CurrentROIs.length := by omega
    have hr2 : r < g.m_CurrentMaps.length := by omega
    have hroi : g.m_CurrentROIs[r]? = some (g.m_CurrentROIs.getD r []) := by
      rw [List.getD_eq_getElem _ _ hr1, List.getElem?_eq_getElem hr1]
    have hmap := GetCurrentMap_updated env fuel g r _ g.m_CurrentMaps[r] hupd hroi
      (List.getElem?_eq_getElem hr2)
      (fun map hm => hfit r map (by rw [List.getElem?_eq_getElem hr2, hm]))
    let tpm := resampledMap env g (g.m_CurrentROIs.getD r [])
    let a1 : ℚ := a + ∑ i ∈ Finset.range (referencePixelCount g),
      (if 0 < env.ResampleROI (g.m_CurrentROIs.getD r []) i then
        env.ResampleROI (g.m_CurrentROIs.getD r []) i *
          env.GetEnergyOfSample (img.buffer.getD i []) r
      else 0)
    let g2 : FunctionalBase :=
      { g with m_CurrentMaps := g.m_CurrentMaps.set r (some tpm), m_Value := ((a1 : ℚ) : MeasureType) }
    have henergy : energyLoop env img.buffer r tpm 0 ((a : ℚ) : MeasureType) =
        .ok ((a1 : ℚ) : MeasureType) := by
      rw [energyLoop_spec env img.buffer r tpm 0 a
        (by rw [resampledMap_length]; omega)]
      congr 3
      rw [resampledMap_length]
      apply Finset.sum_congr rfl
      intro i hi
      rw [Finset.mem_range] at hi
      simp only [tpm, resampledMap_getD env g _ i hi, Nat.zero_add]
    have hfit2 : SlotsFit g2 := by
      intro j map hj
      by_cases hjr : j = r
      · subst hjr
        simp only [g2, List.getElem?_set_self hr2, Option.some.injEq] at hj
        rw [← hj]
        exact resampledMap_length env g _
      · simp only [g2] at hj
        rw [List.getElem?_set_ne (fun h => hjr h.symm)] at hj
        exact hfit j map hj
    obtain ⟨maps, hrun, hlen, hset, hkeep⟩ := ih (r + 1) g2 a1 hupd himg rfl
      (by simp only [g2]; omega) (by simp only [g2, List.length_set]; omega) hfit2 hbuf
    refine ⟨maps, ?_, ?_, ?_, ?_⟩
    · have hstep : regionEnergyLoop env fuel (k + 1) r g =
          regionEnergyLoop env fuel k (r + 1) g2 := by
        rw [regionEnergyLoop, hmap]
        simp only [himg, hval, henergy, g2, tpm]
      rw [hstep, hrun]
      have hsum : ∀ j, r + 1 + j = r + (j + 1) := fun j => by omega
      have hval2 : a1 + ∑ j ∈ Finset.range k, ∑ i ∈ Finset.range (referencePixelCount g),
          (if 0 < env.ResampleROI (g.m_CurrentROIs.getD (r + 1 + j) []) i then
            env.ResampleROI (g.m_CurrentROIs.getD (r + 1 + j) []) i *
              env.GetEnergyOfSample (img.buffer.getD i []) (r + 1 + j)
          else 0) =
          a + ∑ j ∈ Finset.range (k + 1), ∑ i ∈ Finset.range (referencePixelCount g),
          (if 0 < env.ResampleROI (g.m_CurrentROIs.getD (r + j) []) i then
            env.ResampleROI (g.m_CurrentROIs.getD (r + j) []) i *
              env.GetEnergyOfSample (img.buffer.getD i []) (r + j)
          else 0) := by
        simp only [a1, Finset.sum_range_succ', Nat.add_zero, hsum]
        ring
      have hcount : referencePixelCount g2 = referencePixelCount g := rfl
      have hsame : g2.m_CurrentROIs = g.m_CurrentROIs := rfl
      rw [hcount, hsame, hval2]
    · simpa [g2] using hlen
    · intro j hj1 hj2
      rcases Nat.eq_or_lt_of_le hj1 with rfl | hlt
      · rw [hkeep r (by omega)]
        simp only [g2, List.getElem?_set_self hr2, tpm]
      · exact hset j (by omega) (by omega)
    · intro j hj
      rw [hkeep j (by omega)]
      simp only [g2]
      rw [List.getElem?_set_ne (by omega)]

theorem refreshRegions_spec (env : Collaborators) (fuel : Nat) (f : FunctionalBase)
    (hreg : f.m_RegionsUpdated = true ∨
      ((∃ regions, f.m_CurrentRegions = some regions) ∧ 1 ≤ f.m_CurrentROIs.length ∧
        f.m_CurrentROIs.length ≤ env.roiPixelMax ∧
        f.m_CurrentROIs.length - 1 ≤ f.m_CurrentContours.length ∧
        f.m_CurrentROIs.length < fuel)) :
    ∃ rois regions,
      (if !f.m_RegionsUpdated then ComputeCurrentRegions env fuel f else .ok f) =
        .ok { f with m_CurrentROIs := rois, m_CurrentRegions := regions, m_RegionsUpdated := true } ∧
      rois.length = f.m_CurrentROIs.length ∧
      (f.m_RegionsUpdated = true → rois = f.m_CurrentROIs) := by
  by_cases hupd : f.m_RegionsUpdated = true
  · refine ⟨f.m_CurrentROIs, f.m_CurrentRegions, ?_, rfl, fun _ => rfl⟩
    simp only [hupd, Bool.not_true, Bool.false_eq_true, if_false]
    congr 1
    cases f
    simp only at hupd
    subst hupd
    rfl
  · rcases hreg with h | ⟨⟨regions, hr⟩, h1, hmax, hc, hfuel⟩
    · exact absurd h hupd
    · obtain ⟨labels, rois, hrun, -, hlen, -⟩ :=
        ComputeCurrentRegions_spec env fuel f regions hr h1 hmax hc hfuel
      refine ⟨rois, some labels, ?_, hlen, fun h => absurd h hupd⟩
      simp only [Bool.not_eq_true] at hupd
      simp only [hupd, Bool.not_false, if_true, hrun]

theorem GetCurrentMap_refresh (env : Collaborators) (fuel : Nat) (f g : FunctionalBase)
    (idx : Nat)
    (h : (if !f.m_RegionsUpdated then ComputeCurrentRegions env fuel f else .ok f) = .ok g)
    (hg : g.m_RegionsUpdated = true) :
    GetCurrentMap env fuel f idx = GetCurrentMap env fuel g idx := by
  unfold GetCurrentMap
  rw [h]
  simp only [hg, Bool.not_true, Bool.false_eq_true, if_false]

theorem finRange_Dimension : List.finRange Dimension = [0, 1, 2] := by rfl

/-- What `GetValue` computes when the energy is stale: the state it leaves, and the value as the
sum over the pixels that pass the test `w > 0.0` of the pixel loop. -/
theorem GetValue_spec (env : Collaborators) (fuel : Nat) (f : FunctionalBase)
    (img : ReferenceImage) (hflag : f.m_EnergyUpdated = false)
    (himg : f.m_ReferenceImage = some img) (h1 : 1 ≤ f.m_ROIs.length)
    (hrois : f.m_CurrentROIs.length = f.m_ROIs.length)
    (hmaps : f.m_CurrentMaps.length = f.m_ROIs.length) (hfit : SlotsFit f)
    (hbuf : referencePixelCount f ≤ img.buffer.length)
    (hreg : f.m_RegionsUpdated = true ∨
      ((∃ regions, f.m_CurrentRegions = some regions) ∧
        f.m_CurrentROIs.length ≤ env.roiPixelMax ∧
        f.m_CurrentROIs.length - 1 ≤ f.m_CurrentContours.length ∧
        f.m_CurrentROIs.length < fuel)) :
    ∃ f', GetValue env fuel f = .ok (((energyOverPositiveWeights env f' : ℚ) : MeasureType), f') ∧
      f'.m_EnergyUpdated = true ∧ f'.m_RegionsUpdated = true ∧
      f'.m_Value = ((energyOverPositiveWeights env f' : ℚ) : MeasureType) ∧
      f'.m_ROIs = f.m_ROIs ∧ f'.m_ReferenceImage = some img ∧
      referencePixelCount f' = referencePixelCount f ∧
      (f.m_RegionsUpdated = true → f'.m_CurrentROIs = f.m_CurrentROIs) ∧
      ∀ r, r < f.m_ROIs.length →
        f'.m_CurrentMaps[r]? = some (some (resampledMap env f' (f'.m_CurrentROIs.getD r []))) := by
  let f0 : FunctionalBase := { f with m_Value := 0 }
  obtain ⟨rois, regions, hrefresh, hlen, hsame⟩ := refreshRegions_spec env fuel f0
    (by
      rcases hreg with h | ⟨hr, hmax, hc, hfuel⟩
      · exact Or.inl h
      · exact Or.inr ⟨hr, by simp only [f0]; omega, hmax, hc, hfuel⟩)
  let g : FunctionalBase :=
    { f0 with m_CurrentROIs := rois, m_CurrentRegions := regions, m_RegionsUpdated := true }
  have hlen' : rois.length = f.m_ROIs.length := by rw [hlen]; exact hrois
  let tpm0 := resampledMap env g (rois.getD 0 [])
  let g1 : FunctionalBase := { g with m_CurrentMaps := g.m_CurrentMaps.set 0 (some tpm0) }
  have h0r : 0 < rois.length := by omega
  have h0m : 0 < f.m_CurrentMaps.length := by omega
  have hroi0 : g.m_CurrentROIs[0]? = some (rois.getD 0 []) := by
    simp only [g, List.getD_eq_getElem _ _ h0r, List.getElem?_eq_getElem h0r]
  have hfirst : GetCurrentMap env fuel f0 0 = .ok (tpm0, g1) := by
    rw [GetCurrentMap_refresh env fuel f0 g 0 hrefresh rfl]
    exact GetCurrentMap_updated env fuel g 0 _ f.m_CurrentMaps[0] rfl hroi0
      (List.getElem?_eq_getElem h0m)
      (fun map hm => hfit 0 map (by rw [List.getElem?_eq_getElem h0m, hm]))
  have hfit1 : SlotsFit g1 := by
    intro j map hj
    by_cases hj0 : j = 0
    · subst hj0
      simp only [g1, g, f0, List.getElem?_set_self h0m, Option.some.injEq] at hj
      rw [← hj]
      exact resampledMap_length env g _
    · simp only [g1, g, f0] at hj
      rw [List.getElem?_set_ne (fun h => hj0 h.symm)] at hj
      exact hfit j map hj
  have hagain : GetCurrentMap env fuel g1 0 = .ok (tpm0, g1) := by
    have h := GetCurrentMap_updated env fuel g1 0 (rois.getD 0 []) (some tpm0) rfl hroi0
      (by simp only [g1, g, f0, List.getElem?_set_self h0m])
      (fun map hm => by
        simp only [Option.some.injEq] at hm
        rw [← hm]
        exact resampledMap_length env g _)
    rw [h]
    simp only [g1, List.set_set]
    rfl
  have hnorm : normalizerLoop env fuel (List.finRange Dimension) 1 f0 =
      .ok (∏ i, f.m_ReferenceSpacing i, g1) := by
    rw [finRange_Dimension, normalizerLoop, hfirst]
    simp only [normalizerLoop_fixed env fuel g1 tpm0 hagain]
    congr 2
    simp only [Fin.prod_univ_three, List.map_cons, List.map_nil, List.prod_cons, List.prod_nil]
    show 1 * f.m_ReferenceSpacing 0 * (f.m_ReferenceSpacing 1 * (f.m_ReferenceSpacing 2 * 1)) = _
    ring
  obtain ⟨maps, hloop, hmlen, hset, -⟩ := regionEnergyLoop_spec env fuel img f.m_ROIs.length 0
    g1 0 rfl himg (by simp only [g1, g, f0]; rfl) (by simp only [g1, g, f0]; omega)
    (by simp only [g1, g, f0, List.length_set]; omega) hfit1 hbuf
  simp only [Nat.zero_add, zero_add] at hloop hset
  have hweight : ∀ r i, r < f.m_ROIs.length → i < referencePixelCount f →
      ((maps.getD r none).getD []).getD i 0 = env.ResampleROI (rois.getD r []) i := by
    intro r i hr hi
    have hr' : r < maps.length := by
      rw [hmlen]; simp only [g1, g, f0, List.length_set]; omega
    have := hset r (Nat.zero_le r) hr
    rw [List.getElem?_eq_getElem hr'] at this
    simp only [Option.some.injEq] at this
    rw [List.getD_eq_getElem _ _ hr', this]
    exact resampledMap_getD env g1 _ i hi
  let total : ℚ := ∑ r ∈ Finset.range f.m_ROIs.length,
    ∑ i ∈ Finset.range (referencePixelCount g1),
      (if 0 < env.ResampleROI (g1.m_CurrentROIs.getD r []) i then
        env.ResampleROI (g1.m_CurrentROIs.getD r []) i *
          env.GetEnergyOfSample (img.buffer.getD i []) r
      else 0)
  let f3 : FunctionalBase :=
    { g1 with
      m_CurrentMaps := maps
      m_Value := ((∏ i, f.m_ReferenceSpacing i : ℚ) : MeasureType) * ((total : ℚ) : MeasureType)
      m_EnergyUpdated := true }
  have hvalue : f3.m_Value = ((energyOverPositiveWeights env f3 : ℚ) : MeasureType) := by
    simp only [f3, ← WithTop.coe_mul, energyOverPositiveWeights, referenceSample,
      probabilityWeight, himg, total]
    congr 2
    apply Finset.sum_congr rfl
    intro r hr
    apply Finset.sum_congr rfl
    intro i hi
    rw [Finset.mem_range] at hr hi
    have hw := hweight r i hr hi
    simp only [referencePixelCount] at hi hw ⊢
    rw [hw]
  refine ⟨f3, ?_, rfl, rfl, hvalue, rfl, himg, rfl, hsame, ?_⟩
  · rw [← hvalue]
    unfold GetValue
    rw [if_pos (by rw [hflag]; rfl), hnorm]
    have hR : g1.m_ROIs.length = f.m_ROIs.length := rfl
    simp only [hR, hloop]
  · intro r hr
    exact hset r (Nat.zero_le r) hr

theorem GetValue_marks_updated (env : Collaborators) (fuel : Nat) (g g1 : FunctionalBase)
    (v : MeasureType) (h : GetValue env fuel g = .ok (v, g1)) :
    g1.m_EnergyUpdated = true ∧ g1.m_Value = v := by
  unfold GetValue at h
  split at h
  · split at h
    · exact absurd h (by simp)
    · split at h
      · exact absurd h (by simp)
      · simp only [Except.ok.injEq, Prod.mk.injEq] at h
        obtain ⟨hv, hg⟩ := h
        subst hg
        exact ⟨rfl, hv⟩
  · rename_i hflag
    simp only [Except.ok.injEq, Prod.mk.injEq] at h
    obtain ⟨hv, hg⟩ := h
    subst hg
    exact ⟨by simpa using hflag, hv⟩

/-- C4. When the energy-updated flag is true `GetValue` returns the stored `m_Value` and leaves
the state as it was, whatever the region-energy model and the other collaborators are (they are
not evaluated); and after any `GetValue` that returned, a second `GetValue` returns the same
scalar and the same state, again whatever the collaborators are. -/
theorem GetValue_returns_cached_value (env env' : Collaborators) (fuel fuel' : Nat)
    (f : FunctionalBase) (hflag : f.m_EnergyUpdated = true) :
    GetValue env fuel f = .ok (f.m_Value, f) ∧
      GetValue env' fuel' f = GetValue env fuel f ∧
      ∀ (g g1 : FunctionalBase) (v : MeasureType), GetValue env fuel g = .ok (v, g1) →
        g1.m_EnergyUpdated = true ∧ GetValue env' fuel' g1 = .ok (v, g1) := by
  have hcached : ∀ (e : Collaborators) (n : Nat) (s : FunctionalBase),
      s.m_EnergyUpdated = true → GetValue e n s = .ok (s.m_Value, s) := by
    intro e n s hs
    unfold GetValue
    rw [if_neg (by rw [hs]; simp)]
  refine ⟨hcached env fuel f hflag, ?_, ?_⟩
  · rw [hcached env fuel f hflag, hcached env' fuel' f hflag]
  · intro g g1 v hrun
    obtain ⟨hup, hval⟩ := GetValue_marks_updated env fuel g g1 v hrun
    refine ⟨hup, ?_⟩
    rw [hcached env' fuel' g1 hup, hval]

/-- C4, witness: a functional whose cached value is 5. -/
theorem GetValue_returns_cached_value_witness :
    cachedFunctional.m_EnergyUpdated = true ∧
      GetValue byteEnv 0 cachedFunctional = .ok (cachedFunctional.m_Value, cachedFunctional) ∧
      GetValue byteEnv 7 cachedFunctional = GetValue byteEnv 0 cachedFunctional ∧
      ∀ (g g1 : FunctionalBase) (v : MeasureType), GetValue byteEnv 0 g = .ok (v, g1) →
        g1.m_EnergyUpdated = true ∧ GetValue byteEnv 7 g1 = .ok (v, g1) :=
  ⟨rfl, GetValue_returns_cached_value byteEnv byteEnv 0 7 cachedFunctional rfl⟩

theorem staleFunctional_pixelCount : referencePixelCount staleFunctional = 4 := by
  simp [referencePixelCount, staleFunctional, AddShapePrior, SetReferenceImage, smallImage,
    Fin.prod_univ_three]

theorem CheckExtent_ok (f : FunctionalBase) (img : ReferenceImage)
    (himg : f.m_ReferenceImage = some img) (p : PointType) :
    ∃ r, CheckExtent f p = .ok r := by
  unfold CheckExtent
  rw [himg]
  simp only
  split <;> exact ⟨_, rfl⟩

theorem movedCount_succ (T : Transform) (gpid count : Nat) :
    movedCount T gpid (count + 1) =
      (if exceedsThreshold (T.m_OffGridValue gpid) then 1 else 0) +
        movedCount T (gpid + 1) count := by
  unfold movedCount
  rw [List.range'_succ, List.filter_cons]
  split <;> simp [Nat.add_comm]

theorem updatePoints_spec (f : FunctionalBase) (T : Transform) (img : ReferenceImage)
    (himg : f.m_ReferenceImage = some img) :
    ∀ (pts pre rest : List PointType) (loc : UpdateLocals), pts.length = rest.length →
      updatePoints f T pts pre.length (pre ++ rest, loc) =
        .ok (pre ++ commitList f T loc.gpid pts rest,
          { changed := loc.changed + movedCount T loc.gpid pts.length
            gpid := loc.gpid + pts.length
            invalid := loc.invalid ++ outsideIds f T loc.gpid pts }) := by
  intro pts
  induction pts with
  | nil =>
    intro pre rest loc hlen
    cases rest with
    | nil => simp [updatePoints, commitList, movedCount, outsideIds]
    | cons c cs => simp at hlen
  | cons ci ps ih =>
    intro pre rest loc hlen
    cases rest with
    | nil => simp at hlen
    | cons c cs =>
      have hlen' : ps.length = cs.length := by simpa using hlen
      obtain ⟨⟨inside, p⟩, hce⟩ := CheckExtent_ok f img himg (candidatePosition T loc.gpid ci)
      have hce' : CheckExtent f (fun i => ci i + T.m_OffGridValue loc.gpid i) =
          .ok (inside, p) := hce
      have hset : ∀ q : PointType, (pre ++ c :: cs).set pre.length q = (pre ++ [q]) ++ cs := by
        intro q
        simp
      rw [updatePoints]
      by_cases hex : exceedsThreshold (T.m_OffGridValue loc.gpid) = true
      · simp only [hex, if_true, hce', hset]
        have := ih (pre ++ [p]) cs
          { changed := loc.changed + 1
            gpid := loc.gpid + 1
            invalid := if inside = true then loc.invalid else loc.invalid ++ [loc.gpid] } hlen'
        simp only [List.length_append, List.length_singleton] at this
        rw [this]
        simp only [commitList, committedPosition, hex, if_true, hce, movedCount_succ,
          outsideIds, movedOutside, List.length_cons, List.append_assoc, List.singleton_append,
          Bool.true_and]
        congr 2
        cases inside <;> simp <;> omega
      · simp only [hex, if_false, Bool.false_eq_true]
        have hq : pre ++ c :: cs = (pre ++ [c]) ++ cs := by simp
        rw [hq]
        have := ih (pre ++ [c]) cs { loc with gpid := loc.gpid + 1 } hlen'
        simp only [List.length_append, List.length_singleton] at this
        rw [this]
        simp only [commitList, committedPosition, hex, if_false, Bool.false_eq_true,
          movedCount_succ, outsideIds, movedOutside, List.length_cons, List.append_assoc,
          List.singleton_append, Bool.false_and, List.nil_append, Nat.zero_add]
        congr 2
        simp
        omega

theorem movedCount_add (T : Transform) (gpid a b : Nat) :
    movedCount T gpid (a + b) = movedCount T gpid a + movedCount T (gpid + a) b := by
  induction a generalizing gpid with
  | zero => simp [movedCount]
  | succ a ih =>
    rw [Nat.add_right_comm, movedCount_succ, movedCount_succ, ih (gpid + 1)]
    have : gpid + 1 + a = gpid + (a + 1) := by omega
    rw [this]
    omega

theorem outsideIds_append (f : FunctionalBase) (T : Transform) (xs ys : List PointType) :
    ∀ gpid, outsideIds f T gpid (xs ++ ys) =
      outsideIds f T gpid xs ++ outsideIds f T (gpid + xs.length) ys := by
  induction xs with
  | nil => intro gpid; simp [outsideIds]
  | cons x xs ih =>
    intro gpid
    have h := ih (gpid + 1)
    have hlen : gpid + 1 + xs.length = gpid + (xs.length + 1) := by omega
    rw [hlen] at h
    show outsideIds f T gpid (x :: (xs ++ ys)) = _
    simp only [outsideIds, h, List.length_cons, List.append_assoc]

theorem commitList_congr (f g : FunctionalBase) (T : Transform)
    (h : ∀ p, CheckExtent g p = CheckExtent f p) :
    ∀ (pts cur : List PointType) (gpid : Nat),
      commitList g T gpid pts cur = commitList f T gpid pts cur := by
  intro pts
  induction pts with
  | nil => intro cur gpid; simp [commitList]
  | cons ci ps ih =>
    intro cur gpid
    cases cur with
    | nil => simp [commitList]
    | cons c cs => simp [commitList, committedPosition, h, ih]

theorem outsideIds_congr (f g : FunctionalBase) (T : Transform)
    (h : ∀ p, CheckExtent g p = CheckExtent f p) :
    ∀ (pts : List PointType) (gpid : Nat), outsideIds g T gpid pts = outsideIds f T gpid pts := by
  intro pts
  induction pts with
  | nil => intro gpid; simp [outsideIds]
  | cons ci ps ih => intro gpid; simp [outsideIds, movedOutside, h, ih]

theorem commitList_length (f : FunctionalBase) (T : Transform) :
    ∀ (pts cur : List PointType) (gpid : Nat), (commitList f T gpid pts cur).length = cur.length := by
  intro pts
  induction pts with
  | nil => intro cur gpid; simp [commitList]
  | cons ci ps ih =>
    intro cur gpid
    cases cur with
    | nil => simp [commitList]
    | cons c cs => simp [commitList, ih]

theorem firstGlobalId_succ (priors : List ContourType) (contid : Nat) (prior : ContourType)
    (h : priors[contid]? = some prior) :
    firstGlobalId priors (contid + 1) = firstGlobalId priors contid + prior.points.length := by
  unfold firstGlobalId
  induction priors generalizing contid with
  | nil => simp at h
  | cons p ps ih =>
    cases contid with
    | zero =>
      simp only [List.getElem?_cons_zero, Option.some.injEq] at h
      subst h
      simp [priorNodes]
    | succ n =>
      simp only [List.getElem?_cons_succ] at h
      simp only [List.take_succ_cons, priorNodes, List.length_append, ih n h]
      omega

theorem priorNodes_drop_take (priors : List ContourType) (contid k : Nat) (prior : ContourType)
    (h : priors[contid]? = some prior) :
    priorNodes ((priors.drop contid).take (k + 1)) =
      prior.points ++ priorNodes ((priors.drop (contid + 1)).take k) := by
  have hlt : contid < priors.length := (List.getElem?_eq_some.mp h).1
  have hget : priors[contid] = prior := by
    rw [List.getElem?_eq_getElem hlt] at h
    exact Option.some.inj h
  rw [List.drop_eq_getElem_cons hlt, List.take_succ_cons, priorNodes, hget]

/-- What the contour loop of `UpdateContour` leaves: contours and gradient meshes outside the
range untouched, inside the range the committed positions, and the locals. -/
theorem updateContours_spec (env : Collaborators) (T : Transform) (img : ReferenceImage)
    (k : Nat) :
    ∀ (contid : Nat) (f : FunctionalBase) (loc : UpdateLocals),
      f.m_ReferenceImage = some img →
      loc.gpid = firstGlobalId f.m_Priors contid →
      contid + k ≤ f.m_Priors.length → contid + k ≤ f.m_CurrentContours.length →
      contid + k ≤ f.m_Gradients.length →
      (∀ c prior cur, contid ≤ c → c < contid + k → f.m_Priors[c]? = some prior →
        f.m_CurrentContours[c]? = some cur → prior.points.length = cur.points.length) →
      ∃ cc gg,
        updateContours env T k contid f loc =
          .ok ({ f with m_CurrentContours := cc, m_Gradients := gg },
            { changed := loc.changed +
                movedCount T loc.gpid (priorNodes ((f.m_Priors.drop contid).take k)).length
              gpid := firstGlobalId f.m_Priors (contid + k)
              invalid := loc.invalid ++
                outsideIds f T loc.gpid (priorNodes ((f.m_Priors.drop contid).take k)) }) ∧
        cc.length = f.m_CurrentContours.length ∧ gg.length = f.m_Gradients.length ∧
        (∀ c, c < contid ∨ contid + k ≤ c →
          cc[c]? = f.m_CurrentContours[c]? ∧ gg[c]? = f.m_Gradients[c]?) ∧
        ∀ c, contid ≤ c → c < contid + k → ∃ prior cur,
          f.m_Priors[c]? = some prior ∧ f.m_CurrentContours[c]? = some cur ∧
          cc[c]? = some { cur with
            points := commitList f T (firstGlobalId f.m_Priors c) prior.points cur.points } ∧
          gg[c]? = some (env.CopyShape { cur with
            points := commitList f T (firstGlobalId f.m_Priors c) prior.points cur.points }) := by
  induction k with
  | zero =>
    intro contid f loc _ hg _ _ _ _
    refine ⟨f.m_CurrentContours, f.m_Gradients, ?_, rfl, rfl, fun _ _ => ⟨rfl, rfl⟩,
      fun c h1 h2 => by omega⟩
    simp only [updateContours, List.take_zero, priorNodes, List.length_nil, movedCount,
      List.range'_zero, List.filter_nil, outsideIds, Nat.add_zero, List.append_nil, ← hg]
  | succ k ih =>
    intro contid f loc himg hg hp hc hgr hshape
    have hp' : contid < f.m_Priors.length := by omega
    have hc' : contid < f.m_CurrentContours.length := by omega
    have hgr' : contid < f.m_Gradients.length := by omega
    have hprior : f.m_Priors[contid]? = some f.m_Priors[contid] := List.getElem?_eq_getElem hp'
    have hcur : f.m_CurrentContours[contid]? = some f.m_CurrentContours[contid] :=
      List.getElem?_eq_getElem hc'
    have hlen := hshape contid _ _ (Nat.le_refl _) (by omega) hprior hcur
    have hpts := updatePoints_spec f T img himg f.m_Priors[contid].points []
      f.m_CurrentContours[contid].points loc hlen
    simp only [List.length_nil, List.nil_append] at hpts
    let moved : ContourType :=
      { f.m_CurrentContours[contid] with
        points := commitList f T loc.gpid f.m_Priors[contid].points
          f.m_CurrentContours[contid].points }
    let f1 : FunctionalBase :=
      { f with
        m_CurrentContours := f.m_CurrentContours.set contid moved
        m_Gradients := f.m_Gradients.set contid (env.CopyShape moved) }
    let loc1 : UpdateLocals :=
      { changed := loc.changed + movedCount T loc.gpid f.m_Priors[contid].points.length
        gpid := loc.gpid + f.m_Priors[contid].points.length
        invalid := loc.invalid ++ outsideIds f T loc.gpid f.m_Priors[contid].points }
    have hcheck : ∀ p, CheckExtent f1 p = CheckExtent f p := fun _ => rfl
    have hstep : updateContours env T (k + 1) contid f loc =
        updateContours env T k (contid + 1) f1 loc1 := by
      rw [updateContours]
      simp only [hprior, hcur, hpts, hgr', if_true]
    obtain ⟨cc, gg, hrun, hl1, hl2, hout, hin⟩ := ih (contid + 1) f1 loc1 himg
      (by simp only [loc1, f1]; rw [firstGlobalId_succ _ _ _ hprior, hg])
      (by simp only [f1]; omega) (by simp only [f1, List.length_set]; omega)
      (by simp only [f1, List.length_set]; omega)
      (by
        intro c prior cur h1 h2 h3 h4
        simp only [f1] at h3 h4
        rw [List.getElem?_set_ne (by omega)] at h4
        exact hshape c prior cur (by omega) (by omega) h3 h4)
    refine ⟨cc, gg, ?_, ?_, ?_, ?_, ?_⟩
    · rw [hstep, hrun]
      congr 2
      have hnodes := priorNodes_drop_take f.m_Priors contid k _ hprior
      have hids := outsideIds_congr f f1 T hcheck
      have hidx : contid + 1 + k = contid + (k + 1) := by omega
      simp only [loc1, f1, hnodes, List.length_append, movedCount_add, outsideIds_append, hids,
        List.append_assoc, Nat.add_assoc, hidx]
    · simpa [f1] using hl1
    · simpa [f1] using hl2
    · intro c hcase
      have h := hout c (by omega)
      simp only [f1] at h
      rw [List.getElem?_set_ne (by omega), List.getElem?_set_ne (by omega)] at h
      exact h
    · intro c h1 h2
      rcases Nat.eq_or_lt_of_le h1 with rfl | hlt
      · have h := hout contid (Or.inl (Nat.lt_succ_self _))
        simp only [f1, List.getElem?_set_self hc', List.getElem?_set_self hgr'] at h
        refine ⟨_, _, hprior, hcur, ?_, ?_⟩
        · rw [h.1, ← hg]
        · rw [h.2, ← hg]
      · obtain ⟨prior, cur, hp1, hp2, hp3, hp4⟩ := hin c (by omega) (by omega)
        simp only [f1] at hp1 hp2
        rw [List.getElem?_set_ne (by omega)] at hp2
        have hcl := commitList_congr f f1 T hcheck
        rw [hcl] at hp3 hp4
        exact ⟨prior, cur, hp1, hp2, hp3, hp4⟩

theorem UpdateContourLocals_spec (env : Collaborators) (f : FunctionalBase) (T : Transform)
    (img : ReferenceImage) (hT : f.m_Transform = some T) (himg : f.m_ReferenceImage = some img)
    (hal : ContoursAligned f) :
    ∃ cc gg,
      UpdateContourLocals env f =
        .ok ({ f with
            m_CurrentContours := cc
            m_Gradients := gg
            m_RegionsUpdated := decide (movedCount T 0 (totalNodes f) = 0)
            m_EnergyUpdated := decide (movedCount T 0 (totalNodes f) = 0) },
          { changed := movedCount T 0 (totalNodes f)
            gpid := totalNodes f
            invalid := outsideIds f T 0 (priorNodes (f.m_Priors.take f.m_NumberOfContours)) }) ∧
      cc.length = f.m_CurrentContours.length ∧ gg.length = f.m_Gradients.length ∧
      (∀ c, f.m_NumberOfContours ≤ c →
        cc[c]? = f.m_CurrentContours[c]? ∧ gg[c]? = f.m_Gradients[c]?) ∧
      ∀ c, c < f.m_NumberOfContours → ∃ prior cur,
        f.m_Priors[c]? = some prior ∧ f.m_CurrentContours[c]? = some cur ∧
        cc[c]? = some { cur with
          points := commitList f T (firstGlobalId f.m_Priors c) prior.points cur.points } ∧
        gg[c]? = some (env.CopyShape { cur with
          points := commitList f T (firstGlobalId f.m_Priors c) prior.points cur.points }) := by
  obtain ⟨h1, h2, h3, h4⟩ := hal
  obtain ⟨cc, gg, hrun, hl1, hl2, hout, hin⟩ :=
    updateContours_spec env T img f.m_NumberOfContours 0 f ⟨0, 0, []⟩ himg
      (by simp [firstGlobalId, priorNodes]) (by omega) (by omega) (by omega)
      (fun c prior cur _ hc hp hq => h4 c prior cur (by omega) hp hq)
  simp only [Nat.zero_add, List.drop_zero, List.nil_append] at hrun hout hin
  refine ⟨cc, gg, ?_, hl1, hl2, fun c hc => hout c (Or.inr hc), fun c hc => hin c (Nat.zero_le c) hc⟩
  unfold UpdateContourLocals
  rw [hT]
  simp only [hrun, totalNodes, firstGlobalId, hT]

theorem movedCount_eq_zero_iff (T : Transform) (gpid count : Nat) :
    movedCount T gpid count = 0 ↔
      ∀ g, gpid ≤ g → g < gpid + count → exceedsThreshold (T.m_OffGridValue g) = false := by
  unfold movedCount
  rw [List.length_eq_zero, List.filter_eq_nil_iff]
  constructor
  · intro h g h1 h2
    have := h g (List.mem_range'_1.mpr ⟨h1, h2⟩)
    simpa using this
  · intro h g hg
    rw [List.mem_range'_1] at hg
    simp [h g hg.1 hg.2]

/-- C6. After `UpdateContour` the regions-updated flag and the energy-updated flag both equal
`changed == 0`, where `changed` counts the nodes, over all contours, whose displacement has a
norm above 1e-8: if some node is displaced both flags are false, and if no node is displaced
`changed` is 0 and both flags are true. -/
theorem UpdateContour_flags_from_changed (env : Collaborators) (f : FunctionalBase)
    (T : Transform) (img : ReferenceImage) (hT : f.m_Transform = some T)
    (himg : f.m_ReferenceImage = some img) (hal : ContoursAligned f) :
    ∃ f' loc, UpdateContourLocals env f = .ok (f', loc) ∧ UpdateContour env f = .ok f' ∧
      loc.changed = movedCount T 0 (totalNodes f) ∧
      f'.m_RegionsUpdated = decide (loc.changed = 0) ∧
      f'.m_EnergyUpdated = decide (loc.changed = 0) ∧
      ((∃ gpid, gpid < totalNodes f ∧ exceedsThreshold (T.m_OffGridValue gpid) = true) →
        f'.m_RegionsUpdated = false ∧ f'.m_EnergyUpdated = false) ∧
      ((∀ gpid, gpid < totalNodes f → exceedsThreshold (T.m_OffGridValue gpid) = false) →
        loc.changed = 0 ∧ f'.m_RegionsUpdated = true ∧ f'.m_EnergyUpdated = true) := by
  obtain ⟨cc, gg, hrun, -⟩ := UpdateContourLocals_spec env f T img hT himg hal
  refine ⟨_, _, hrun, ?_, rfl, rfl, rfl, ?_, ?_⟩
  · unfold UpdateContour
    rw [hrun]
  · rintro ⟨gpid, hlt, hex⟩
    have hne : movedCount T 0 (totalNodes f) ≠ 0 := by
      intro h0
      have := (movedCount_eq_zero_iff T 0 _).mp h0 gpid (Nat.zero_le _) (by omega)
      rw [hex] at this
      exact absurd this (by simp)
    simp [hne]
  · intro hall
    have h0 : movedCount T 0 (totalNodes f) = 0 :=
      (movedCount_eq_zero_iff T 0 _).mpr (fun g _ hg => hall g (by omega))
    simp [h0]

theorem priorNodes_append (a b : List ContourType) :
    priorNodes (a ++ b) = priorNodes a ++ priorNodes b := by
  induction a with
  | nil => simp [priorNodes]
  | cons x xs ih => simp [priorNodes, ih]

theorem firstGlobalId_mono (priors : List ContourType) (c n : Nat) (h : c ≤ n) :
    firstGlobalId priors c ≤ firstGlobalId priors n := by
  obtain ⟨d, rfl⟩ := Nat.exists_eq_add_of_le h
  unfold firstGlobalId
  rw [List.take_add, priorNodes_append, List.length_append]
  omega

theorem commitList_of_still (f : FunctionalBase) (T : Transform) :
    ∀ (pts cur : List PointType) (gpid : Nat),
      (∀ g, gpid ≤ g → g < gpid + pts.length → exceedsThreshold (T.m_OffGridValue g) = false) →
      commitList f T gpid pts cur = cur := by
  intro pts
  induction pts with
  | nil => intro cur gpid _; simp [commitList]
  | cons ci ps ih =>
    intro cur gpid h
    cases cur with
    | nil => simp [commitList]
    | cons c cs =>
      have h0 := h gpid (Nat.le_refl _) (by simp)
      have hrest := ih cs (gpid + 1) (fun g h1 h2 => h g (by omega) (by simp; omega))
      simp [commitList, committedPosition, h0, hrest]

/-- The call of `UpdateContour` when no displacement exceeds the threshold: only the gradient
meshes are refreshed and both flags are set. -/
theorem UpdateContour_still (env : Collaborators) (f : FunctionalBase) (T : Transform)
    (img : ReferenceImage) (hT : f.m_Transform = some T) (himg : f.m_ReferenceImage = some img)
    (hal : ContoursAligned f)
    (hstill : ∀ gpid, gpid < totalNodes f → exceedsThreshold (T.m_OffGridValue gpid) = false) :
    ∃ gg, UpdateContour env f =
        .ok { f with m_Gradients := gg, m_RegionsUpdated := true, m_EnergyUpdated := true } ∧
      gg.length = f.m_Gradients.length ∧
      (∀ c, f.m_NumberOfContours ≤ c → gg[c]? = f.m_Gradients[c]?) ∧
      ∀ c, c < f.m_NumberOfContours → ∃ cur,
        f.m_CurrentContours[c]? = some cur ∧ gg[c]? = some (env.CopyShape cur) := by
  obtain ⟨cc, gg, hrun, hl1, hl2, hout, hin⟩ := UpdateContourLocals_spec env f T img hT himg hal
  have h0 : movedCount T 0 (totalNodes f) = 0 :=
    (movedCount_eq_zero_iff T 0 _).mpr (fun g _ hg => hstill g (by omega))
  have hkeep : ∀ c prior cur, c < f.m_NumberOfContours → f.m_Priors[c]? = some prior →
      commitList f T (firstGlobalId f.m_Priors c) prior.points cur = cur := by
    intro c prior cur hc hp
    apply commitList_of_still
    intro g h1 h2
    apply hstill
    have hs := firstGlobalId_succ f.m_Priors c prior hp
    have hm := firstGlobalId_mono f.m_Priors (c + 1) f.m_NumberOfContours (by omega)
    unfold totalNodes
    unfold firstGlobalId at hs hm h2
    omega
  have hcc : cc = f.m_CurrentContours := by
    apply List.ext_getElem?
    intro c
    by_cases hc : c < f.m_NumberOfContours
    · obtain ⟨prior, cur, hp, hq, hr, -⟩ := hin c hc
      rw [hr, hq, hkeep c prior cur.points hc hp]
    · exact (hout c (by omega)).1
  refine ⟨gg, ?_, hl2, fun c hc => (hout c hc).2, ?_⟩
  · unfold UpdateContour
    rw [hrun]
    simp only [h0, decide_True, hcc]
  · intro c hc
    obtain ⟨prior, cur, hp, hq, -, hr⟩ := hin c hc
    refine ⟨cur, hq, ?_⟩
    rw [hr, hkeep c prior cur.points hc hp]

/-- The call of `UpdateContour` when no node is displaced by more than 1e-8: every current
contour, hence every node position, is as it was, both flags are assigned true, and a second
call returns the same state. -/
theorem UpdateContour_without_movement (env : Collaborators) (f : FunctionalBase)
    (T : Transform) (img : ReferenceImage) (hT : f.m_Transform = some T)
    (himg : f.m_ReferenceImage = some img) (hal : ContoursAligned f)
    (hstill : ∀ gpid, gpid < totalNodes f → exceedsThreshold (T.m_OffGridValue gpid) = false) :
    ∃ f', UpdateContour env f = .ok f' ∧
      f'.m_CurrentContours = f.m_CurrentContours ∧
      f'.m_RegionsUpdated = true ∧ f'.m_EnergyUpdated = true ∧
      (f.m_RegionsUpdated = true → f'.m_RegionsUpdated = f.m_RegionsUpdated) ∧
      (f.m_EnergyUpdated = true → f'.m_EnergyUpdated = f.m_EnergyUpdated) ∧
      UpdateContour env f' = .ok f' := by
  obtain ⟨gg, hrun, hlen, hout, hin⟩ := UpdateContour_still env f T img hT himg hal hstill
  let f' : FunctionalBase :=
    { f with m_Gradients := gg, m_RegionsUpdated := true, m_EnergyUpdated := true }
  have hal' : ContoursAligned f' := by
    obtain ⟨h1, h2, h3, h4⟩ := hal
    exact ⟨h1, h2, by simp only [f']; omega, h4⟩
  obtain ⟨gg2, hrun2, hlen2, hout2, hin2⟩ :=
    UpdateContour_still env f' T img hT himg hal' hstill
  have hgg : gg2 = gg := by
    apply List.ext_getElem?
    intro c
    by_cases hc : c < f.m_NumberOfContours
    · obtain ⟨cur, hq, hr⟩ := hin c hc
      obtain ⟨cur2, hq2, hr2⟩ := hin2 c hc
      have : cur2 = cur := by
        have h : f'.m_CurrentContours[c]? = f.m_CurrentContours[c]? := rfl
        rw [h, hq] at hq2
        exact (Option.some.inj hq2).symm
      rw [hr, hr2, this]
    · exact hout2 c (by simp only [f']; omega)
  refine ⟨f', hrun, rfl, rfl, rfl, fun h => h.symm, fun h => h.symm, ?_⟩
  rw [hrun2, hgg]

theorem restingFunctional_aligned : ContoursAligned restingFunctional := by
  refine ⟨by decide, by decide, by decide, ?_⟩
  intro c prior cur hc hp hq
  have hc0 : c = 0 := by
    have : restingFunctional.m_NumberOfContours = 1 := rfl
    omega
  subst hc0
  have h1 : restingFunctional.m_Priors = [triangleMesh] := rfl
  have h2 : restingFunctional.m_CurrentContours = [triangleMesh] := rfl
  rw [h1] at hp
  rw [h2] at hq
  simp only [List.getElem?_cons_zero, Option.some.injEq] at hp hq
  rw [← hp, ← hq]

theorem movingFunctional_aligned : ContoursAligned movingFunctional :=
  restingFunctional_aligned

theorem restingTransform_still (gpid : Nat) :
    exceedsThreshold (restingTransform.m_OffGridValue gpid) = false := by
  simp [exceedsThreshold, normSq, restingTransform]

/-- C6, witness: a contour of three nodes of which two are displaced. -/
theorem UpdateContour_flags_from_changed_witness :
    ∃ f' loc, UpdateContourLocals byteEnv movingFunctional = .ok (f', loc) ∧
      UpdateContour byteEnv movingFunctional = .ok f' ∧
      loc.changed = movedCount movingTransform 0 (totalNodes movingFunctional) ∧
      f'.m_RegionsUpdated = decide (loc.changed = 0) ∧
      f'.m_EnergyUpdated = decide (loc.changed = 0) ∧
      ((∃ gpid, gpid < totalNodes movingFunctional ∧
          exceedsThreshold (movingTransform.m_OffGridValue gpid) = true) →
        f'.m_RegionsUpdated = false ∧ f'.m_EnergyUpdated = false) ∧
      ((∀ gpid, gpid < totalNodes movingFunctional →
          exceedsThreshold (movingTransform.m_OffGridValue gpid) = false) →
        loc.changed = 0 ∧ f'.m_RegionsUpdated = true ∧ f'.m_EnergyUpdated = true) :=
  UpdateContour_flags_from_changed byteEnv movingFunctional movingTransform smallImage rfl rfl
    movingFunctional_aligned

/-- C7, the code at the failing input: no node of `restingFunctional` is displaced, and before
the call both flags are false and the stored value is the infinity of the constructor.
`UpdateContour` leaves every node position, the label raster and the stored value as they were,
and a second call changes nothing further; but it returns with both flags true, so the flags do
not keep the values they had, although neither the regions nor the energy were recomputed. -/
theorem UpdateContour_still_sets_flags :
    (∀ gpid, exceedsThreshold (restingTransform.m_OffGridValue gpid) = false) ∧
      restingFunctional.m_RegionsUpdated = false ∧ restingFunctional.m_EnergyUpdated = false ∧
      restingFunctional.m_Value = ⊤ ∧
      ∃ f', UpdateContour byteEnv restingFunctional = .ok f' ∧
        f'.m_CurrentContours = restingFunctional.m_CurrentContours ∧
        f'.m_CurrentRegions = restingFunctional.m_CurrentRegions ∧
        f'.m_CurrentROIs = restingFunctional.m_CurrentROIs ∧
        f'.m_Value = ⊤ ∧
        f'.m_RegionsUpdated = true ∧ f'.m_EnergyUpdated = true ∧
        f'.m_RegionsUpdated ≠ restingFunctional.m_RegionsUpdated ∧
        f'.m_EnergyUpdated ≠ restingFunctional.m_EnergyUpdated ∧
        UpdateContour byteEnv f' = .ok f' := by
  refine ⟨restingTransform_still, rfl, rfl, rfl, ?_⟩
  obtain ⟨gg, hrun, -⟩ := UpdateContour_still byteEnv restingFunctional restingTransform
    smallImage rfl rfl restingFunctional_aligned (fun gpid _ => restingTransform_still gpid)
  obtain ⟨f', hrun', -, -, -, -, -, hagain⟩ :=
    UpdateContour_without_movement byteEnv restingFunctional restingTransform smallImage rfl rfl
      restingFunctional_aligned (fun gpid _ => restingTransform_still gpid)
  have hf : f' = { restingFunctional with
      m_Gradients := gg, m_RegionsUpdated := true, m_EnergyUpdated := true } := by
    rw [hrun] at hrun'
    exact (Except.ok.inj hrun').symm
  subst hf
  exact ⟨_, hrun, rfl, rfl, rfl, rfl, rfl, rfl,
    (show true ≠ restingFunctional.m_RegionsUpdated by decide),
    (show true ≠ restingFunctional.m_EnergyUpdated by decide), hagain⟩

theorem CheckExtent_eq (f : FunctionalBase) (img : ReferenceImage)
    (himg : f.m_ReferenceImage = some img) (p : PointType) :
    CheckExtent f p =
      .ok ((img.TransformPhysicalPointToContinuousIndex p).1,
        if (img.TransformPhysicalPointToContinuousIndex p).1 = true then p
        else clampedPosition f img p) := by
  unfold CheckExtent
  rw [himg]
  cases h : (img.TransformPhysicalPointToContinuousIndex p).1 with
  | false =>
    simp only [h, Bool.not_false, if_true, Bool.false_eq_true, if_false]
    rfl
  | true => simp only [h, Bool.not_true, Bool.false_eq_true, if_false, if_true]

theorem index_of_aligned (img : ReferenceImage) (haxis : AxisAligned img) (p : PointType)
    (i : Fin Dimension) :
    (img.TransformPhysicalPointToContinuousIndex p).2 i =
      img.inverseDirection i i * (p i - img.origin i) / img.spacing i := by
  unfold ReferenceImage.TransformPhysicalPointToContinuousIndex
  simp only
  rw [Finset.sum_eq_single i]
  · intro j _ hj
    rw [(haxis.1 i j (fun h => hj h.symm)).2, zero_mul]
  · intro h
    exact absurd (Finset.mem_univ i) h

theorem point_of_aligned (img : ReferenceImage) (haxis : AxisAligned img) (idx : ContinuousIndex)
    (i : Fin Dimension) :
    img.TransformContinuousIndexToPhysicalPoint idx i =
      img.origin i + img.direction i i * img.spacing i * idx i := by
  unfold ReferenceImage.TransformContinuousIndexToPhysicalPoint
  rw [Finset.sum_eq_single i]
  · intro j _ hj
    rw [(haxis.1 i j (fun h => hj h.symm)).1, zero_mul, zero_mul]
  · intro h
    exact absurd (Finset.mem_univ i) h

/-- The unsigned `size - 1` of an axis that has a pixel is the index of its last pixel. -/
theorem lastIndex_of_grid (img : ReferenceImage) (hgrid : HasPixelGrid img) (i : Fin Dimension) :
    (((img.size i + SizeValueModulus - 1) % SizeValueModulus : Nat) : ℚ) =
      (img.size i : ℚ) - 1 := by
  obtain ⟨hone, hmax⟩ := hgrid.2 i
  have hsum : img.size i + SizeValueModulus - 1 = (img.size i - 1) + SizeValueModulus := by
    omega
  rw [hsum, Nat.add_mod_right, Nat.mod_eq_of_lt (by omega), Nat.cast_sub hone]
  simp

/-- On an axis-aligned pixel grid the clamped point has every index between 0 and `size - 1`. -/
theorem clampedPosition_index (f : FunctionalBase) (img : ReferenceImage)
    (hgeo : GeometryCached f img) (haxis : AxisAligned img) (hgrid : HasPixelGrid img)
    (p : PointType) (i : Fin Dimension) :
    0 ≤ (img.TransformPhysicalPointToContinuousIndex (clampedPosition f img p)).2 i ∧
      (img.TransformPhysicalPointToContinuousIndex (clampedPosition f img p)).2 i ≤
        (img.size i : ℚ) - 1 := by
  obtain ⟨hfirst, hlast, hsize⟩ := hgeo
  have hsp := hgrid.1 i
  have hsz := lastIndex_of_grid img hgrid i
  have hsz1 : (1 : ℚ) ≤ (img.size i : ℚ) := by exact_mod_cast (hgrid.2 i).1
  rw [index_of_aligned img haxis (clampedPosition f img p) i]
  unfold clampedPosition
  rw [hfirst, hlast, hsize, hsz, point_of_aligned img haxis]
  by_cases h1 : (img.TransformPhysicalPointToContinuousIndex p).2 i < 0
  · simp only [h1, if_true, sub_self, mul_zero, zero_div]
    exact ⟨le_refl _, by linarith⟩
  · by_cases h2 : (img.TransformPhysicalPointToContinuousIndex p).2 i > (img.size i : ℚ) - 1
    · simp only [h1, h2, if_true, if_false, add_sub_cancel_left]
      have : img.inverseDirection i i * (img.direction i i * img.spacing i *
          ((img.size i : ℚ) - 1)) / img.spacing i = (img.size i : ℚ) - 1 := by
        rw [← mul_assoc, ← mul_assoc, haxis.2 i, one_mul]
        field_simp
      rw [this]
      exact ⟨by linarith, le_refl _⟩
    · simp only [h1, h2, if_false]
      rw [← index_of_aligned img haxis p i]
      exact ⟨not_lt.mp h1, not_lt.mp h2⟩

/-- On an axis-aligned pixel grid the point left by `CheckExtent` is in the image domain. -/
theorem CheckExtent_within_domain (f : FunctionalBase) (img : ReferenceImage)
    (hgeo : GeometryCached f img) (haxis : AxisAligned img) (hgrid : HasPixelGrid img)
    (p : PointType) :
    (img.TransformPhysicalPointToContinuousIndex
      (if (img.TransformPhysicalPointToContinuousIndex p).1 = true then p
        else clampedPosition f img p)).1 = true := by
  by_cases h : (img.TransformPhysicalPointToContinuousIndex p).1 = true
  · rw [if_pos h]
    exact h
  · rw [if_neg h]
    have hidx := clampedPosition_index f img hgeo haxis hgrid p
    unfold ReferenceImage.TransformPhysicalPointToContinuousIndex at hidx ⊢
    simp only [decide_eq_true_eq] at hidx ⊢
    intro i
    obtain ⟨h1, h2⟩ := hidx i
    exact ⟨by linarith, by linarith⟩

theorem commitList_getElem? (f : FunctionalBase) (T : Transform) :
    ∀ (pts cur : List PointType) (gpid pid : Nat) (ci c : PointType),
      pts[pid]? = some ci → cur[pid]? = some c →
      (commitList f T gpid pts cur)[pid]? = some (committedPosition f T (gpid + pid) ci c) := by
  intro pts
  induction pts with
  | nil => intro cur gpid pid ci c h; simp at h
  | cons x xs ih =>
    intro cur gpid pid ci c h1 h2
    cases cur with
    | nil => simp at h2
    | cons y ys =>
      cases pid with
      | zero =>
        simp only [List.getElem?_cons_zero, Option.some.injEq] at h1 h2
        subst h1 h2
        simp [commitList]
      | succ n =>
        simp only [List.getElem?_cons_succ] at h1 h2
        have := ih ys (gpid + 1) n ci c h1 h2
        have hidx : gpid + 1 + n = gpid + (n + 1) := by omega
        rw [hidx] at this
        simp only [commitList, List.getElem?_cons_succ, this]

theorem outsideIds_eq_filter (f : FunctionalBase) (T : Transform) :
    ∀ (pts : List PointType) (gpid : Nat),
      outsideIds f T gpid pts =
        (List.range' gpid pts.length).filter fun id =>
          movedOutside f T id (pts.getD (id - gpid) (fun _ => 0)) := by
  intro pts
  induction pts with
  | nil => intro gpid; simp [outsideIds]
  | cons x xs ih =>
    intro gpid
    have htail : (List.range' (gpid + 1) xs.length).filter (fun id =>
        movedOutside f T id (xs.getD (id - (gpid + 1)) (fun _ => 0))) =
        (List.range' (gpid + 1) xs.length).filter (fun id =>
          movedOutside f T id ((x :: xs).getD (id - gpid) (fun _ => 0))) := by
      apply List.filter_congr
      intro id hid
      rw [List.mem_range'_1] at hid
      have : id - gpid = (id - (gpid + 1)) + 1 := by omega
      rw [this, List.getD_cons_succ]
    rw [outsideIds, ih (gpid + 1), htail, List.length_cons, List.range'_succ, List.filter_cons]
    simp only [Nat.sub_self, List.getD_cons_zero]
    split <;> simp

theorem priorNodes_getElem? (priors : List ContourType) (n c pid : Nat) (prior : ContourType)
    (ci : PointType) (hc : c < n) (hp : priors[c]? = some prior)
    (hpid : prior.points[pid]? = some ci) :
    (priorNodes (priors.take n))[firstGlobalId priors c + pid]? = some ci := by
  obtain ⟨d, rfl⟩ := Nat.exists_eq_add_of_lt hc
  have hsplit : priors.take (c + d + 1) = priors.take c ++ (priors.drop c).take (d + 1) := by
    rw [Nat.add_assoc, List.take_add]
  rw [hsplit, priorNodes_append, priorNodes_drop_take priors c d prior hp]
  unfold firstGlobalId
  rw [List.getElem?_append_right (by omega), Nat.add_sub_cancel_left,
    List.getElem?_append_left (List.getElem?_eq_some.mp hpid).1]
  exact hpid

theorem firstGlobalId_add_lt (f : FunctionalBase) (c pid : Nat) (prior : ContourType)
    (hc : c < f.m_NumberOfContours) (hp : f.m_Priors[c]? = some prior)
    (hpid : pid < prior.points.length) :
    firstGlobalId f.m_Priors c + pid < totalNodes f := by
  have hs := firstGlobalId_succ f.m_Priors c prior hp
  have hm := firstGlobalId_mono f.m_Priors (c + 1) f.m_NumberOfContours (by omega)
  unfold totalNodes
  unfold firstGlobalId at hs hm ⊢
  omega

/-- C8 (as amended). On every reference image, for every node whose displacement exceeds 1e-8
`UpdateContour` commits the prior position plus the displacement when `CheckExtent` finds it
inside the domain, and otherwise that candidate with every axis whose index is out of the
pixel-centre range moved to the first or last pixel centre, the global index of the node being
recorded as invalid exactly in that case; the recorded invalid nodes are exactly the nodes whose
candidate was outside, so the counts agree. When the image has a pixel grid whose index axes run
along the physical axes, the committed position is in the image domain. -/
theorem UpdateContour_commits_within_domain (env : Collaborators) (f : FunctionalBase)
    (T : Transform) (img : ReferenceImage) (hT : f.m_Transform = some T)
    (himg : f.m_ReferenceImage = some img) (hal : ContoursAligned f)
    (hgeo : GeometryCached f img) :
    ∃ f' loc, UpdateContourLocals env f = .ok (f', loc) ∧ UpdateContour env f = .ok f' ∧
      loc.invalid = (List.range (totalNodes f)).filter (fun gpid =>
        movedOutside f T gpid
          ((priorNodes (f.m_Priors.take f.m_NumberOfContours)).getD gpid (fun _ => 0))) ∧
      ∀ (c pid : Nat) (prior : ContourType) (ci : PointType), c < f.m_NumberOfContours →
        f.m_Priors[c]? = some prior → prior.points[pid]? = some ci →
        exceedsThreshold (T.m_OffGridValue (firstGlobalId f.m_Priors c + pid)) = true →
        ∃ (current : ContourType) (committed : PointType),
          f'.m_CurrentContours[c]? = some current ∧ current.points[pid]? = some committed ∧
          CheckExtent f (candidatePosition T (firstGlobalId f.m_Priors c + pid) ci) =
            .ok ((img.TransformPhysicalPointToContinuousIndex
              (candidatePosition T (firstGlobalId f.m_Priors c + pid) ci)).1, committed) ∧
          committed =
            (if (img.TransformPhysicalPointToContinuousIndex
                (candidatePosition T (firstGlobalId f.m_Priors c + pid) ci)).1 = true then
              candidatePosition T (firstGlobalId f.m_Priors c + pid) ci
            else clampedPosition f img
              (candidatePosition T (firstGlobalId f.m_Priors c + pid) ci)) ∧
          (firstGlobalId f.m_Priors c + pid ∈ loc.invalid ↔
            (img.TransformPhysicalPointToContinuousIndex
              (candidatePosition T (firstGlobalId f.m_Priors c + pid) ci)).1 = false) ∧
          (AxisAligned img → HasPixelGrid img →
            (img.TransformPhysicalPointToContinuousIndex committed).1 = true) := by
  obtain ⟨cc, gg, hrun, -, -, -, hin⟩ := UpdateContourLocals_spec env f T img hT himg hal
  have hinvalid : outsideIds f T 0 (priorNodes (f.m_Priors.take f.m_NumberOfContours)) =
      (List.range (totalNodes f)).filter (fun gpid =>
        movedOutside f T gpid
          ((priorNodes (f.m_Priors.take f.m_NumberOfContours)).getD gpid (fun _ => 0))) := by
    rw [outsideIds_eq_filter, List.range_eq_range']
    rfl
  refine ⟨_, _, hrun, ?_, hinvalid, ?_⟩
  · unfold UpdateContour
    rw [hrun]
  · intro c pid prior ci hc hp hpid hex
    obtain ⟨prior', cur, hp', hq, hr, -⟩ := hin c hc
    have hpp : prior' = prior := by
      rw [hp] at hp'
      exact (Option.some.inj hp').symm
    subst hpp
    have hlen := hal.2.2.2 c prior' cur hc hp hq
    have hpidlt : pid < prior'.points.length := (List.getElem?_eq_some.mp hpid).1
    obtain ⟨held, hcur⟩ : ∃ held, cur.points[pid]? = some held :=
      ⟨_, List.getElem?_eq_getElem (by omega)⟩
    have hce := CheckExtent_eq f img himg
      (candidatePosition T (firstGlobalId f.m_Priors c + pid) ci)
    have hcommit := commitList_getElem? f T prior'.points cur.points
      (firstGlobalId f.m_Priors c) pid ci _ hpid hcur
    simp only [committedPosition, hex, if_true, hce] at hcommit
    refine ⟨_, _, hr, hcommit, hce, rfl, ?_,
      fun haxis hgrid => CheckExtent_within_domain f img hgeo haxis hgrid _⟩
    rw [hinvalid, List.mem_filter, List.mem_range]
    have hnode := priorNodes_getElem? f.m_Priors f.m_NumberOfContours c pid prior' ci hc hp hpid
    have hlt := firstGlobalId_add_lt f c pid prior' hc hp hpidlt
    have hget : (priorNodes (f.m_Priors.take f.m_NumberOfContours)).getD
        (firstGlobalId f.m_Priors c + pid) (fun _ => 0) = ci := by
      rw [List.getD_eq_getElem?_getD, hnode]
      rfl
    rw [hget]
    simp only [movedOutside, hex, hce, Bool.true_and, Bool.not_eq_true', hlt, true_and]

theorem smallImage_axisAligned : AxisAligned smallImage := by
  refine ⟨?_, ?_⟩
  · intro i j h
    simp [smallImage, h]
  · intro i
    simp [smallImage]

theorem smallImage_pixelGrid : HasPixelGrid smallImage := by
  refine ⟨?_, ?_⟩
  · intro i
    fin_cases i <;> simp [smallImage]
  · intro i
    fin_cases i <;> simp [smallImage, SizeValueModulus]

theorem movingFunctional_geometry : GeometryCached movingFunctional smallImage :=
  ⟨rfl, rfl, rfl⟩

theorem turnedFunctional_aligned : ContoursAligned turnedFunctional := by
  refine ⟨by decide, by decide, by decide, ?_⟩
  intro c prior cur hc hp hq
  have hc0 : c = 0 := by
    have : turnedFunctional.m_NumberOfContours = 1 := rfl
    omega
  subst hc0
  have h1 : turnedFunctional.m_Priors = [cornerMesh] := rfl
  have h2 : turnedFunctional.m_CurrentContours = [cornerMesh] := rfl
  rw [h1] at hp
  rw [h2] at hq
  simp only [List.getElem?_cons_zero, Option.some.injEq] at hp hq
  rw [← hp, ← hq]

theorem pushing_exceeds (gpid : Nat) :
    exceedsThreshold (pushingTransform.m_OffGridValue gpid) = true := by
  simp [exceedsThreshold, normSq, pushingTransform, Fin.sum_univ_three]
  norm_num

theorem turned_candidate :
    candidatePosition pushingTransform 0 ![-1, 3, 0] = ![-1, 5, 0] := by
  funext i
  fin_cases i <;> simp [candidatePosition, pushingTransform]
  norm_num

theorem turned_index (i : Fin Dimension) :
    (turnedImage.TransformPhysicalPointToContinuousIndex ![-1, 5, 0]).2 i =
      (![5, 1, 0] : ContinuousIndex) i := by
  fin_cases i <;>
    simp [ReferenceImage.TransformPhysicalPointToContinuousIndex, turnedImage,
      Fin.sum_univ_three]

theorem turned_outside :
    (turnedImage.TransformPhysicalPointToContinuousIndex ![-1, 5, 0]).1 = false := by
  have h := turned_index 0
  unfold ReferenceImage.TransformPhysicalPointToContinuousIndex at h ⊢
  simp only [decide_eq_false_iff_not, not_forall]
  refine ⟨0, ?_⟩
  simp only at h
  rw [h]
  simp [turnedImage]
  norm_num

theorem turned_clamped :
    clampedPosition turnedFunctional turnedImage ![-1, 5, 0] = ![-1, 5, 0] := by
  funext i
  unfold clampedPosition
  rw [turned_index i]
  fin_cases i
  · simp [turnedFunctional, AddShapePrior, SetReferenceImage, turnedImage,
      ReferenceImage.TransformContinuousIndexToPhysicalPoint, Fin.sum_univ_three]
    norm_num
  · simp [turnedFunctional, AddShapePrior, SetReferenceImage, turnedImage, SizeValueModulus,
      ReferenceImage.TransformContinuousIndexToPhysicalPoint, Fin.sum_univ_three]
  · simp [turnedFunctional, AddShapePrior, SetReferenceImage, turnedImage, SizeValueModulus,
      ReferenceImage.TransformContinuousIndexToPhysicalPoint, Fin.sum_univ_three]

/-- C8, witness: on `smallImage`, a pixel grid along the physical axes, every displaced node of
`movingFunctional` is committed as the rule says and inside the domain. -/
theorem UpdateContour_commits_within_domain_witness :
    ∃ f' loc, UpdateContourLocals byteEnv movingFunctional = .ok (f', loc) ∧
      UpdateContour byteEnv movingFunctional = .ok f' ∧
      loc.invalid = (List.range (totalNodes movingFunctional)).filter (fun gpid =>
        movedOutside movingFunctional movingTransform gpid
          ((priorNodes (movingFunctional.m_Priors.take
            movingFunctional.m_NumberOfContours)).getD gpid (fun _ => 0))) ∧
      ∀ (c pid : Nat) (prior : ContourType) (ci : PointType),
        c < movingFunctional.m_NumberOfContours →
        movingFunctional.m_Priors[c]? = some prior → prior.points[pid]? = some ci →
        exceedsThreshold (movingTransform.m_OffGridValue
          (firstGlobalId movingFunctional.m_Priors c + pid)) = true →
        ∃ (current : ContourType) (committed : PointType),
          f'.m_CurrentContours[c]? = some current ∧ current.points[pid]? = some committed ∧
          CheckExtent movingFunctional (candidatePosition movingTransform
              (firstGlobalId movingFunctional.m_Priors c + pid) ci) =
            .ok ((smallImage.TransformPhysicalPointToContinuousIndex
              (candidatePosition movingTransform
                (firstGlobalId movingFunctional.m_Priors c + pid) ci)).1, committed) ∧
          committed =
            (if (smallImage.TransformPhysicalPointToContinuousIndex
                (candidatePosition movingTransform
                  (firstGlobalId movingFunctional.m_Priors c + pid) ci)).1 = true then
              candidatePosition movingTransform
                (firstGlobalId movingFunctional.m_Priors c + pid) ci
            else clampedPosition movingFunctional smallImage
              (candidatePosition movingTransform
                (firstGlobalId movingFunctional.m_Priors c + pid) ci)) ∧
          (firstGlobalId movingFunctional.m_Priors c + pid ∈ loc.invalid ↔
            (smallImage.TransformPhysicalPointToContinuousIndex
              (candidatePosition movingTransform
                (firstGlobalId movingFunctional.m_Priors c + pid) ci)).1 = false) ∧
          (smallImage.TransformPhysicalPointToContinuousIndex committed).1 = true := by
  obtain ⟨f', loc, h1, h2, h3, h4⟩ :=
    UpdateContour_commits_within_domain byteEnv movingFunctional movingTransform smallImage
      rfl rfl movingFunctional_aligned movingFunctional_geometry
  refine ⟨f', loc, h1, h2, h3, ?_⟩
  intro c pid prior ci hc hp hpid hex
  obtain ⟨current, committed, k1, k2, k3, k4, k5, k6⟩ := h4 c pid prior ci hc hp hpid hex
  exact ⟨current, committed, k1, k2, k3, k4, k5,
    k6 smallImage_axisAligned smallImage_pixelGrid⟩

/-- C8, counterexample: on `turnedImage`, whose index axes do not run along the physical axes,
the node of `cornerMesh` is displaced by more than 1e-8 to a candidate off the domain, and the
position that `UpdateContour` commits is still off the domain. -/
theorem UpdateContour_turned_commits_outside :
    exceedsThreshold (pushingTransform.m_OffGridValue 0) = true ∧
      ∃ (f' : FunctionalBase) (current : ContourType) (committed : PointType),
        UpdateContour byteEnv turnedFunctional = .ok f' ∧
        f'.m_CurrentContours[0]? = some current ∧ current.points[0]? = some committed ∧
        committed = ![-1, 5, 0] ∧
        (turnedImage.TransformPhysicalPointToContinuousIndex committed).1 = false := by
  refine ⟨pushing_exceeds 0, ?_⟩
  obtain ⟨cc, gg, hrun, -, -, -, hin⟩ := UpdateContourLocals_spec byteEnv turnedFunctional
    pushingTransform turnedImage rfl rfl turnedFunctional_aligned
  obtain ⟨prior, cur, hp, hq, hr, -⟩ := hin 0 (by decide)
  have hp0 : turnedFunctional.m_Priors[0]? = some cornerMesh := rfl
  have hq0 : turnedFunctional.m_CurrentContours[0]? = some cornerMesh := rfl
  rw [hp0] at hp
  rw [hq0] at hq
  obtain rfl := Option.some.inj hp
  obtain rfl := Option.some.inj hq
  have hfirst : firstGlobalId turnedFunctional.m_Priors 0 = 0 := rfl
  have hpts : cornerMesh.points = [![-1, 3, 0]] := rfl
  have hce := CheckExtent_eq turnedFunctional turnedImage rfl ![-1, 5, 0]
  rw [if_neg (by rw [turned_outside]; simp), turned_clamped] at hce
  have hcommit : commitList turnedFunctional pushingTransform 0 [![-1, 3, 0]] [![-1, 3, 0]] =
      [![-1, 5, 0]] := by
    simp only [commitList, committedPosition, pushing_exceeds, if_true, turned_candidate, hce]
  rw [hfirst, hpts, hcommit] at hr
  obtain ⟨f', hf, hcc⟩ : ∃ f', UpdateContour byteEnv turnedFunctional = .ok f' ∧
      f'.m_CurrentContours = cc := ⟨_, by unfold UpdateContour; rw [hrun], rfl⟩
  exact ⟨f', { cornerMesh with points := [![-1, 5, 0]] }, ![-1, 5, 0], hf,
    by rw [hcc]; exact hr, rfl, rfl, turned_outside⟩

/-! ### Initialization -/

theorem tempROI_error (env : Collaborators) (f : FunctionalBase) (nPix idx : Nat) (e : Fault)
    (h : tempROI env f nPix idx = .error e) : e.isException = false := by
  unfold tempROI at h
  split at h
  · split at h
    · exact absurd h (by simp)
    · simp only [Except.error.injEq] at h
      subst h
      rfl
  · exact absurd h (by simp)

theorem regionsLoop_error (env : Collaborators) (nPix : Nat) (fuel : Nat) :
    ∀ (regs : ROIType) (idx : Nat) (f : FunctionalBase) (e : Fault),
      regionsLoop env nPix regs fuel idx f = .error e → e.isException = false := by
  induction fuel with
  | zero =>
    intro regs idx f e h
    simp only [regionsLoop, Except.error.injEq] at h
    subst h
    rfl
  | succ fuel ih =>
    intro regs idx f e h
    rw [regionsLoop] at h
    split at h
    · split at h
      · rename_i e1 he
        simp only [Except.error.injEq] at h
        subst h
        exact tempROI_error env f nPix idx _ he
      · exact ih _ _ _ e h
    · exact absurd h (by simp)

theorem ComputeCurrentRegions_error (env : Collaborators) (fuel : Nat) (f : FunctionalBase)
    (e : Fault) (h : ComputeCurrentRegions env fuel f = .error e) : e.isException = false := by
  unfold ComputeCurrentRegions at h
  split at h
  · simp only [Except.error.injEq] at h
    subst h
    rfl
  · rename_i regions hreg
    cases hrun : regionsLoop env regions.length
        (List.replicate regions.length env.roiPixelMax) fuel 0 f with
    | error e1 =>
      simp only [hrun, Except.error.injEq] at h
      subst h
      exact regionsLoop_error env _ fuel _ _ _ _ hrun
    | ok r =>
      simp only [hrun] at h
      exact absurd h (by simp)

theorem outerLoop_error (env : Collaborators) (regions : ROIType) (k : Nat) :
    ∀ (contid : Nat) (outerVect : List Nat) (f : FunctionalBase) (e : Fault),
      outerLoop env regions k contid outerVect f = .error e → e.isException = false := by
  induction k with
  | zero => intro contid outerVect f e h; simp [outerLoop] at h
  | succ k ih =>
    intro contid outerVect f e h
    rw [outerLoop] at h
    split at h
    · simp only [Except.error.injEq] at h
      subst h
      rfl
    · exact ih _ _ _ e h

theorem ComputeOuterRegions_error (env : Collaborators) (f : FunctionalBase) (e : Fault)
    (h : ComputeOuterRegions env f = .error e) : e.isException = false := by
  unfold ComputeOuterRegions at h
  split at h
  · split at h
    · simp only [Except.error.injEq] at h
      subst h
      rfl
    · exact outerLoop_error env _ _ _ _ _ e h
  · split at h
    · simp only [Except.error.injEq] at h
      subst h
      rfl
    · exact absurd h (by simp)

theorem finishInitialize_fault (env : Collaborators) (fuel : Nat) (f : FunctionalBase)
    (e : Fault) (h : (finishInitialize env fuel f).2 = some e) : e.isException = false := by
  unfold finishInitialize at h
  simp only at h
  split at h
  · rename_i e1 he
    simp only [Option.some.injEq] at h
    subst h
    exact ComputeCurrentRegions_error env fuel _ _ he
  · split at h
    · simp only [Option.some.injEq] at h
      subst h
      rfl
    · split at h
      · rename_i e1 he
        simp only [Option.some.injEq] at h
        subst h
        exact ComputeOuterRegions_error env _ _ he
      · exact absurd h (by simp)

/-- The fields that decide the sample check of `InitializeCurrentContours`. -/
theorem ParseSettings_keeps (f : FunctionalBase) :
    (ParseSettings f).m_Transform = f.m_Transform ∧
      (ParseSettings f).m_Priors = f.m_Priors ∧
      (ParseSettings f).m_NumberOfContours = f.m_NumberOfContours ∧
      (ParseSettings f).m_NumberOfPoints = f.m_NumberOfPoints ∧
      (ParseSettings f).m_CurrentContours = f.m_CurrentContours ∧
      (ParseSettings f).m_ReferenceImage = f.m_ReferenceImage := by
  rcases hs : f.m_Settings with ⟨a, b, c, d⟩
  cases a <;> cases b <;> cases c <;> cases d <;> simp [ParseSettings, hs]

theorem allocateDerivative_keeps (f : FunctionalBase) (T : Transform) :
    (allocateDerivative f T).m_Transform = f.m_Transform ∧
      (allocateDerivative f T).m_Priors = f.m_Priors ∧
      (allocateDerivative f T).m_NumberOfContours = f.m_NumberOfContours ∧
      (allocateDerivative f T).m_NumberOfPoints = f.m_NumberOfPoints ∧
      (allocateDerivative f T).m_CurrentContours = f.m_CurrentContours ∧
      (allocateDerivative f T).m_ReferenceImage = f.m_ReferenceImage :=
  ParseSettings_keeps f

theorem smoothReference_keeps (env : Collaborators) (g : FunctionalBase) (T : Transform)
    (himg : g.m_ReferenceImage ≠ none) :
    ∃ g1, smoothReference env g T = .ok g1 ∧ g1.m_Transform = g.m_Transform ∧
      g1.m_Priors = g.m_Priors ∧ g1.m_NumberOfContours = g.m_NumberOfContours ∧
      g1.m_NumberOfPoints = g.m_NumberOfPoints ∧
      g1.m_CurrentContours = g.m_CurrentContours := by
  obtain ⟨img, hi⟩ := Option.ne_none_iff_exists'.mp himg
  unfold smoothReference
  by_cases hs : g.m_ApplySmoothing = true
  · by_cases hz : g.m_Sigma = (fun _ => 0)
    · simp only [hs, if_true, hz, hi]
      exact ⟨_, rfl, rfl, rfl, rfl, rfl, rfl⟩
    · simp only [hs, if_true, hz, if_false, hi]
      exact ⟨_, rfl, rfl, rfl, rfl, rfl, rfl⟩
  · simp only [hs, if_false, Bool.false_eq_true]
    exact ⟨_, rfl, rfl, rfl, rfl, rfl, rfl⟩

theorem copyContours_spec (env : Collaborators) (k : Nat) :
    ∀ (contid : Nat) (g : FunctionalBase), contid + k ≤ g.m_Priors.length →
      copyContours env k contid g = .ok { g with
        m_CurrentContours := g.m_CurrentContours ++ (g.m_Priors.drop contid).take k
        m_Gradients := g.m_Gradients ++ ((g.m_Priors.drop contid).take k).map env.CopyShape } := by
  induction k with
  | zero => intro contid g _; simp [copyContours]
  | succ k ih =>
    intro contid g h
    have hlt : contid < g.m_Priors.length := by omega
    rw [copyContours]
    simp only [List.getElem?_eq_getElem hlt]
    rw [ih (contid + 1) _ (by simpa using (by omega : contid + 1 + k ≤ g.m_Priors.length))]
    simp only [List.drop_eq_getElem_cons hlt, List.take_succ_cons, List.map_cons,
      List.append_assoc, List.singleton_append]

theorem foldl_AddOffGridPos_samples (pts : List PointType) :
    ∀ T : Transform, (pts.foldl Transform.AddOffGridPos T).m_NumberOfSamples =
      T.m_NumberOfSamples + pts.length := by
  induction pts with
  | nil => intro T; simp
  | cons p ps ih =>
    intro T
    simp only [List.foldl_cons, ih, Transform.AddOffGridPos, List.length_cons]
    omega

theorem registerPoints_spec (g : FunctionalBase) (k : Nat) :
    ∀ (contid : Nat) (T : Transform), contid + k ≤ g.m_CurrentContours.length →
      ∃ T1, registerPoints g k contid T = .ok T1 ∧
        T1.m_NumberOfSamples = T.m_NumberOfSamples +
          (priorNodes ((g.m_CurrentContours.drop contid).take k)).length := by
  induction k with
  | zero => intro contid T _; exact ⟨T, rfl, by simp [priorNodes]⟩
  | succ k ih =>
    intro contid T h
    have hlt : contid < g.m_CurrentContours.length := by omega
    have hget : g.m_CurrentContours[contid]? = some g.m_CurrentContours[contid] :=
      List.getElem?_eq_getElem hlt
    obtain ⟨T1, hrun, hcount⟩ := ih (contid + 1)
      (g.m_CurrentContours[contid].points.foldl Transform.AddOffGridPos T) (by omega)
    refine ⟨T1, ?_, ?_⟩
    · rw [registerPoints]
      simp only [hget, hrun]
    · rw [hcount, foldl_AddOffGridPos_samples,
        priorNodes_drop_take g.m_CurrentContours contid k _ hget, List.length_append]
      omega

theorem InitializeCurrentContours_spec (env : Collaborators) (g : FunctionalBase)
    (T : Transform) (hT : g.m_Transform = some T)
    (hpri : g.m_NumberOfContours ≤ g.m_Priors.length) :
    ∃ f2, InitializeCurrentContours env g =
      (f2, if g.m_NumberOfPoints ≠ T.m_NumberOfSamples + registeredNodes g
        then some .sampleMismatch else none) := by
  let f1 : FunctionalBase :=
    { g with
      m_CurrentContours := g.m_CurrentContours ++ (g.m_Priors.drop 0).take g.m_NumberOfContours
      m_Gradients := g.m_Gradients ++
        ((g.m_Priors.drop 0).take g.m_NumberOfContours).map env.CopyShape }
  have hcopy : copyContours env g.m_NumberOfContours 0 g = .ok f1 :=
    copyContours_spec env g.m_NumberOfContours 0 g (by omega)
  obtain ⟨T1, hreg, hcount⟩ := registerPoints_spec f1 g.m_NumberOfContours 0 T (by
    simp only [f1, List.drop_zero, List.length_append, List.length_take]
    omega)
  have hT1 : f1.m_Transform = some T := hT
  have hn : f1.m_NumberOfContours = g.m_NumberOfContours := rfl
  have hcount' : T1.m_NumberOfSamples = T.m_NumberOfSamples + registeredNodes g := by
    rw [hcount]
    simp only [f1, List.drop_zero, registeredNodes]
  unfold InitializeCurrentContours
  rw [hcopy]
  have hmatch : (match f1.m_Transform with
      | none => (f1, some Fault.nullPointer)
      | some T_1 =>
        match registerPoints f1 f1.m_NumberOfContours 0 T_1 with
        | Except.error e => (f1, some e)
        | Except.ok T1 =>
          if ({ f1 with m_Transform := some T1 } : FunctionalBase).m_NumberOfPoints ≠
              T1.m_NumberOfSamples then
            (({ f1 with m_Transform := some T1 } : FunctionalBase), some Fault.sampleMismatch)
          else (({ f1 with m_Transform := some T1 } : FunctionalBase), none)) =
      (if f1.m_NumberOfPoints ≠ T1.m_NumberOfSamples then
          (({ f1 with m_Transform := some T1 } : FunctionalBase), some Fault.sampleMismatch)
        else (({ f1 with m_Transform := some T1 } : FunctionalBase), none)) := by
    rw [hT1]
    simp only [hn, hreg]
  refine Eq.mpr ?_ (show ∃ f2, (if f1.m_NumberOfPoints ≠ T1.m_NumberOfSamples then
          (({ f1 with m_Transform := some T1 } : FunctionalBase), some Fault.sampleMismatch)
        else (({ f1 with m_Transform := some T1 } : FunctionalBase), none)) =
      (f2, if g.m_NumberOfPoints ≠ T.m_NumberOfSamples + registeredNodes g
        then some Fault.sampleMismatch else none) from ?_)
  · exact congrArg (fun x => ∃ f2, x = (f2, if g.m_NumberOfPoints ≠
      T.m_NumberOfSamples + registeredNodes g then some Fault.sampleMismatch else none)) hmatch
  rw [hcount']
  by_cases hm : g.m_NumberOfPoints = T.m_NumberOfSamples + registeredNodes g
  · have hm' : f1.m_NumberOfPoints = T.m_NumberOfSamples + registeredNodes g := hm
    rw [if_neg (fun h => h hm'), if_neg (fun h => h hm)]
    exact ⟨_, rfl⟩
  · have hm' : ¬ f1.m_NumberOfPoints = T.m_NumberOfSamples + registeredNodes g := hm
    rw [if_pos hm', if_pos hm]
    exact ⟨_, rfl⟩

/-- C9. `Initialize` raises one of its two exceptions if and only if no deformation model is
set or, once every contour node is registered with the deformation model, the number of
samples of the model differs from the number of off-grid points of the functional; when the
deformation model is missing the exception is the first and the state is left untouched, and in
the second case the exception is the sample mismatch. -/
theorem Initialize_fails_iff (env : Collaborators) (fuel : Nat) (f : FunctionalBase)
    (hpri : f.m_NumberOfContours ≤ f.m_Priors.length)
    (himg : f.m_ReferenceImage ≠ none) :
    ((∃ e, (Initialize env fuel f).2 = some e ∧ e.isException = true) ↔
      (f.m_Transform = none ∨ ∃ T, f.m_Transform = some T ∧
        f.m_NumberOfPoints ≠ T.m_NumberOfSamples + registeredNodes f)) ∧
    (f.m_Transform = none → Initialize env fuel f = (f, some .noTransform)) ∧
    ∀ T, f.m_Transform = some T →
      f.m_NumberOfPoints ≠ T.m_NumberOfSamples + registeredNodes f →
      (Initialize env fuel f).2 = some .sampleMismatch := by
  have hnone : f.m_Transform = none → Initialize env fuel f = (f, some .noTransform) := by
    intro h
    unfold Initialize
    rw [h]
  have hsome : ∀ T, f.m_Transform = some T →
      ((∃ e, (Initialize env fuel f).2 = some e ∧ e.isException = true) ↔
        f.m_NumberOfPoints ≠ T.m_NumberOfSamples + registeredNodes f) ∧
      (f.m_NumberOfPoints ≠ T.m_NumberOfSamples + registeredNodes f →
        (Initialize env fuel f).2 = some .sampleMismatch) := by
    intro T hT
    obtain ⟨k1, k2, k3, k4, k5, k6⟩ := allocateDerivative_keeps f T
    obtain ⟨g1, hsm, s1, s2, s3, s4, s5⟩ :=
      smoothReference_keeps env (allocateDerivative f T) T (by rw [k6]; exact himg)
    have hT1 : g1.m_Transform = some T := by rw [s1, k1, hT]
    obtain ⟨f2, hinit⟩ := InitializeCurrentContours_spec env g1 T hT1
      (by rw [s3, k3, s2, k2]; exact hpri)
    have hreg : registeredNodes g1 = registeredNodes f := by
      unfold registeredNodes
      rw [s5, k5, s2, k2, s3, k3]
    rw [s4, k4, hreg] at hinit
    have hrun : Initialize env fuel f =
        match InitializeCurrentContours env g1 with
        | (f2, some e) => (f2, some e)
        | (f2, none) => finishInitialize env fuel f2 := by
      unfold Initialize
      rw [hT]
      simp only [hsm]
    by_cases hm : f.m_NumberOfPoints = T.m_NumberOfSamples + registeredNodes f
    · simp only [hm, ne_eq, not_true_eq_false, if_false] at hinit
      rw [hrun, hinit]
      simp only [ne_eq, hm, not_true_eq_false, iff_false, not_exists, not_and,
        Bool.not_eq_true, false_implies, and_true]
      intro e he
      exact finishInitialize_fault env fuel f2 e he
    · simp only [hm, ne_eq, not_false_eq_true, if_true] at hinit
      rw [hrun, hinit]
      simp only [ne_eq, hm, not_false_eq_true, iff_true, forall_const, and_true]
      exact ⟨_, rfl, rfl⟩
  refine ⟨?_, hnone, fun T hT hm => (hsome T hT).2 hm⟩
  cases hT : f.m_Transform with
  | none =>
    rw [hnone hT]
    simp only [true_or, iff_true]
    exact ⟨_, rfl, rfl⟩
  | some T =>
    rw [(hsome T hT).1]
    simp only [false_or, Option.some.injEq, exists_eq_left', reduceCtorEq]

/-! ### Gradient computer: faults -/

theorem CheckExtent_error (f : FunctionalBase) (p : PointType) (e : Fault)
    (h : CheckExtent f p = .error e) : e.isException = false := by
  unfold CheckExtent at h
  split at h
  · simp only [Except.error.injEq] at h
    subst h
    rfl
  · simp only at h
    split at h <;> exact absurd h (by simp)

theorem updatePoints_error (f : FunctionalBase) (T : Transform) :
    ∀ (pts : List PointType) (pid : Nat) (st : List PointType × UpdateLocals) (e : Fault),
      updatePoints f T pts pid st = .error e → e.isException = false := by
  intro pts
  induction pts with
  | nil => intro pid st e h; simp [updatePoints] at h
  | cons ci rest ih =>
    intro pid st e h
    obtain ⟨cur, loc⟩ := st
    rw [updatePoints] at h
    split at h
    · split at h
      · rename_i e1 he
        simp only [Except.error.injEq] at h
        subst h
        exact CheckExtent_error f _ _ he
      · exact ih _ _ e h
    · exact ih _ _ e h

theorem updateContours_error (env : Collaborators) (T : Transform) (k : Nat) :
    ∀ (contid : Nat) (f : FunctionalBase) (loc : UpdateLocals) (e : Fault),
      updateContours env T k contid f loc = .error e → e.isException = false := by
  induction k with
  | zero => intro contid f loc e h; simp [updateContours] at h
  | succ k ih =>
    intro contid f loc e h
    rw [updateContours] at h
    split at h
    · split at h
      · rename_i e1 he
        simp only [Except.error.injEq] at h
        subst h
        exact updatePoints_error f T _ _ _ _ he
      · simp only at h
        split at h
        · exact ih _ _ _ e h
        · simp only [Except.error.injEq] at h
          subst h
          rfl
    · simp only [Except.error.injEq] at h
      subst h
      rfl

theorem UpdateContour_error (env : Collaborators) (f : FunctionalBase) (e : Fault)
    (h : UpdateContour env f = .error e) : e.isException = false := by
  unfold UpdateContour UpdateContourLocals at h
  split at h
  · rename_i e1 he
    simp only [Except.error.injEq] at h
    subst h
    split at he
    · simp only [Except.error.injEq] at he
      subst he
      rfl
    · split at he
      · rename_i e2 he2
        simp only [Except.error.injEq] at he
        subst he
        exact updateContours_error env _ _ _ _ _ _ he2
      · exact absurd he (by simp)
  · exact absurd h (by simp)

theorem loadPolygon_error (mesh : ContourType) :
    ∀ (ids : List Nat) (k : Nat) (pt : Nat → PointType) (e : Fault),
      loadPolygon mesh ids k pt = .error e → e.isException = false := by
  intro ids
  induction ids with
  | nil => intro k pt e h; simp [loadPolygon] at h
  | cons id rest ih =>
    intro k pt e h
    rw [loadPolygon] at h
    split at h
    · exact ih _ _ e h
    · simp only [Except.error.injEq] at h
      subst h
      rfl

theorem areaLoop_error (env : Collaborators) (mesh : ContourType) :
    ∀ (ring : List (Option Nat)) (pt : Nat → PointType) (a : ℚ) (e : Fault),
      areaLoop env mesh ring pt a = .error e → e.isException = false := by
  intro ring
  induction ring with
  | nil => intro pt a e h; simp [areaLoop] at h
  | cons face rest ih =>
    intro pt a e h
    cases face with
    | none =>
      rw [areaLoop] at h
      exact ih _ _ e h
    | some cell_id =>
      rw [areaLoop] at h
      split at h
      · simp only [Except.error.injEq] at h
        subst h
        rfl
      · split at h
        · rename_i e1 he
          simp only [Except.error.injEq] at h
          subst h
          exact loadPolygon_error mesh _ _ _ _ he
        · exact ih _ _ e h

theorem ComputePointArea_error (env : Collaborators) (iId : Nat) (mesh : ContourType)
    (e : Fault) (h : ComputePointArea env iId mesh = .error e) : e.isException = false := by
  unfold ComputePointArea at h
  split at h
  · simp only [Except.error.injEq] at h
    subst h
    rfl
  · split at h
    · rename_i e1 he
      simp only [Except.error.injEq] at h
      subst h
      exact areaLoop_error env mesh _ _ _ _ he
    · exact absurd h (by simp)

theorem sampleNodes_error (env : Collaborators) (f : FunctionalBase) (contid : Nat)
    (normals : ContourType) :
    ∀ (pts : List PointType) (pid : Nat) (loc : GradientLocals) (e : Fault),
      sampleNodes env f contid normals pts pid loc = .error e → e.isException = false := by
  intro pts
  induction pts with
  | nil => intro pid loc e h; simp [sampleNodes] at h
  | cons ci rest ih =>
    intro pid loc e h
    rw [sampleNodes] at h
    split at h
    · simp only [Except.error.injEq] at h
      subst h
      rfl
    · split at h
      · split at h
        · rename_i e1 he
          simp only [Except.error.injEq] at h
          subst h
          exact ComputePointArea_error env _ _ _ he
        · exact ih _ _ e h
      · exact ih _ _ e h

theorem put_error (m : WeightsMatrix) (r c : Nat) (v : ℚ) (e : Fault)
    (h : m.put r c v = .error e) : e.isException = false := by
  unfold WeightsMatrix.put at h
  split at h
  · exact absurd h (by simp)
  · simp only [Except.error.injEq] at h
    subst h
    rfl

theorem putComponents_error (gid : Nat) (ni : VectorType) :
    ∀ (dims : List (Fin Dimension)) (m : WeightsMatrix) (e : Fault),
      putComponents gid ni dims m = .error e → e.isException = false := by
  intro dims
  induction dims with
  | nil => intro m e h; simp [putComponents] at h
  | cons dim rest ih =>
    intro m e h
    rw [putComponents] at h
    split at h
    · split at h
      · rename_i e1 he
        simp only [Except.error.injEq] at h
        subst h
        exact put_error _ _ _ _ _ he
      · exact ih _ e h
    · exact ih _ e h

theorem projectSamples_error (scaler : ℚ) :
    ∀ (samples : List GradientSample) (st : WeightsMatrix × ShapeGradientType) (e : Fault),
      projectSamples scaler samples st = .error e → e.isException = false := by
  intro samples
  induction samples with
  | nil => intro st e h; simp [projectSamples] at h
  | cons s rest ih =>
    intro st e h
    obtain ⟨gradVector, gradmesh⟩ := st
    rw [projectSamples] at h
    split at h
    · dsimp only at h
      split at h
      · rename_i e1 he
        simp only [Except.error.injEq] at h
        subst h
        exact putComponents_error _ _ _ _ _ he
      · exact ih _ e h
    · exact ih _ e h

theorem gradientLoop_error (env : Collaborators) (k : Nat) :
    ∀ (contid cpid : Nat) (gradVector : WeightsMatrix) (f : FunctionalBase) (e : Fault),
      gradientLoop env k contid cpid gradVector f = .error e → e.isException = false := by
  induction k with
  | zero => intro contid cpid gradVector f e h; simp [gradientLoop] at h
  | succ k ih =>
    intro contid cpid gradVector f e h
    rw [gradientLoop] at h
    split at h
    · simp only [Except.error.injEq] at h
      subst h
      rfl
    · split at h
      · rename_i e1 he
        simp only [Except.error.injEq] at h
        subst h
        exact sampleNodes_error env _ _ _ _ _ _ _ he
      · simp only at h
        split at h
        · simp only [Except.error.injEq] at h
          subst h
          rfl
        · split at h
          · rename_i e1 he
            simp only [Except.error.injEq] at h
            subst h
            exact projectSamples_error _ _ _ _ he
          · exact ih _ _ _ _ e h

theorem scatterDerivative_error (f : FunctionalBase) (derivative : WeightsMatrix)
    (buff : Fin Dimension → List ℚ) (e : Fault)
    (h : scatterDerivative f derivative buff = .error e) : e.isException = false := by
  unfold scatterDerivative at h
  split at h
  · exact absurd h (by simp)
  · simp only [Except.error.injEq] at h
    subst h
    rfl

theorem ComputeDerivative_error (env : Collaborators) (f : FunctionalBase) (e : Fault)
    (h : ComputeDerivative env f = .error e) : e.isException = false := by
  unfold ComputeDerivative at h
  split at h
  · rename_i e1 he
    simp only [Except.error.injEq] at h
    subst h
    exact UpdateContour_error env f _ he
  · split at h
    · simp only [Except.error.injEq] at h
      subst h
      rfl
    · simp only at h
      split at h
      · simp only [Except.error.injEq] at h
        subst h
        rfl
      · split at h
        · rename_i e1 he
          simp only [Except.error.injEq] at h
          subst h
          exact gradientLoop_error env _ _ _ _ _ _ he
        · split at h
          · rename_i e1 he
            simp only [Except.error.injEq] at h
            subst h
            exact scatterDerivative_error _ _ _ _ he
          · exact absurd h (by simp)

/-- C9, witness: a functional that was initialized once, so that its three nodes are already
registered with the deformation model. -/
theorem Initialize_fails_iff_witness :
    restingFunctional.m_NumberOfContours ≤ restingFunctional.m_Priors.length ∧
      restingFunctional.m_ReferenceImage ≠ none ∧
      ((∃ e, (Initialize byteEnv 5 restingFunctional).2 = some e ∧ e.isException = true) ↔
        (restingFunctional.m_Transform = none ∨ ∃ T, restingFunctional.m_Transform = some T ∧
          restingFunctional.m_NumberOfPoints ≠
            T.m_NumberOfSamples + registeredNodes restingFunctional)) ∧
      (restingFunctional.m_Transform = none →
        Initialize byteEnv 5 restingFunctional = (restingFunctional, some .noTransform)) ∧
      ∀ T, restingFunctional.m_Transform = some T →
        restingFunctional.m_NumberOfPoints ≠
          T.m_NumberOfSamples + registeredNodes restingFunctional →
        (Initialize byteEnv 5 restingFunctional).2 = some .sampleMismatch :=
  ⟨by decide, Option.some_ne_none smallImage,
    Initialize_fails_iff byteEnv 5 restingFunctional (by decide)
      (Option.some_ne_none smallImage)⟩

theorem mismatched_update :
    UpdateContour byteEnv mismatchedFunctional =
      .ok { mismatchedFunctional with m_RegionsUpdated := true, m_EnergyUpdated := true } := by
  norm_num [UpdateContour, UpdateContourLocals, updateContours, updatePoints, exceedsThreshold,
    normSq, mismatchedFunctional, restingFunctional, staleFunctional, AddShapePrior,
    SetReferenceImage, FunctionalBase.New, extraSampleTransform, triangleMesh, byteEnv, resize]

/-- The run of `ComputeDerivative` on `mismatchedFunctional`, whose deformation model holds four
samples for three off-grid points: it returns, with 1/3 in the raster of the third dimension. -/
theorem mismatched_derivative :
    match ComputeDerivative byteEnv mismatchedFunctional with
    | .ok f' => f'.m_Derivative 2 = some [1 / 3]
    | .error _ => False := by
  have habs : |(33 / 200 : ℚ)| = 33 / 200 := abs_of_pos (by norm_num)
  rw [ComputeDerivative, mismatched_update]
  norm_num [habs, gradientLoop, sampleNodes, ComputePointArea, areaLoop, loadPolygon,
    projectSamples, putComponents, scatterDerivative, WeightsMatrix.mult,
    WeightsMatrix.transpose, WeightsMatrix.put, WeightsMatrix.zero, MIN_GRADIENT,
    finRange_Dimension, mismatchedFunctional, restingFunctional, staleFunctional, AddShapePrior,
    SetReferenceImage, FunctionalBase.New, extraSampleTransform, triangleMesh, byteEnv, resize,
    Finset.sum_range_succ]
  rw [if_neg (by simp)]
  norm_num
  rfl

/-- C10, counterexample: the functional holds three off-grid points, its deformation model four
registered samples, and `ComputeDerivative` returns derivative rasters. -/
theorem ComputeDerivative_runs_on_mismatch :
    mismatchedFunctional.m_Transform = some extraSampleTransform ∧
      mismatchedFunctional.m_NumberOfPoints = 3 ∧ extraSampleTransform.m_NumberOfSamples = 4 ∧
      ∃ f', ComputeDerivative byteEnv mismatchedFunctional = .ok f' ∧
        f'.m_Derivative 2 = some [1 / 3] := by
  refine ⟨rfl, rfl, rfl, ?_⟩
  have h := mismatched_derivative
  cases hr : ComputeDerivative byteEnv mismatchedFunctional with
  | ok f' =>
    rw [hr] at h
    exact ⟨f', rfl, h⟩
  | error e =>
    rw [hr] at h
    exact h.elim

/-- C10 (as amended). `ComputeDerivative` does not compare the number of off-grid points with
the number of samples registered with the deformation model: in no state does it raise the
configuration mismatch, nor the other exception of the functional. The comparison is made by
`InitializeCurrentContours`, within `Initialize`, which raises the configuration mismatch when
the two numbers differ. -/
theorem ComputeDerivative_raises_no_mismatch (env : Collaborators) (f : FunctionalBase) :
    ComputeDerivative env f ≠ .error .sampleMismatch ∧
      ComputeDerivative env f ≠ .error .noTransform ∧
      ∀ T, f.m_Transform = some T → f.m_NumberOfContours ≤ f.m_Priors.length →
        f.m_NumberOfPoints ≠ T.m_NumberOfSamples + registeredNodes f →
        (InitializeCurrentContours env f).2 = some .sampleMismatch := by
  refine ⟨?_, ?_, ?_⟩
  · intro h
    exact absurd (ComputeDerivative_error env f _ h) (by simp [Fault.isException])
  · intro h
    exact absurd (ComputeDerivative_error env f _ h) (by simp [Fault.isException])
  · intro T hT hpri hm
    obtain ⟨f2, h⟩ := InitializeCurrentContours_spec env f T hT hpri
    rw [h, if_pos hm]

/-- C10, witness: `restingFunctional` has three off-grid points and a deformation model that
already holds three samples, so that registering its nodes gives six. -/
theorem ComputeDerivative_raises_no_mismatch_witness :
    restingFunctional.m_Transform = some restingTransform ∧
      restingFunctional.m_NumberOfContours ≤ restingFunctional.m_Priors.length ∧
      restingFunctional.m_NumberOfPoints ≠
        restingTransform.m_NumberOfSamples + registeredNodes restingFunctional ∧
      (InitializeCurrentContours byteEnv restingFunctional).2 = some .sampleMismatch ∧
      ComputeDerivative byteEnv restingFunctional ≠ .error .sampleMismatch :=
  ⟨rfl, by decide, by decide,
    (ComputeDerivative_raises_no_mismatch byteEnv restingFunctional).2.2 restingTransform rfl
      (by decide) (by decide),
    (ComputeDerivative_raises_no_mismatch byteEnv restingFunctional).1⟩

/-! ### Shape priors -/

theorem resize_length {α : Type} (l : List α) (n : Nat) (fill : α) :
    (resize l n fill).length = n := by
  unfold resize
  simp only [List.length_append, List.length_take, List.length_replicate]
  omega

/-- Effect of a sequence of `AddShapePrior` calls on any state: counters, priors, returned
indices, and the sizes of the three raster lists once a call was made. -/
theorem addShapePriors_spec (priors : List ContourType) : ∀ f : FunctionalBase,
    (addShapePriors f priors).2.m_NumberOfContours = f.m_NumberOfContours + priors.length ∧
    (addShapePriors f priors).2.m_NumberOfRegions = f.m_NumberOfRegions + priors.length ∧
    (addShapePriors f priors).2.m_NumberOfPoints =
      f.m_NumberOfPoints + (priors.map fun prior => prior.points.length).sum ∧
    (addShapePriors f priors).2.m_Priors = f.m_Priors ++ priors ∧
    (addShapePriors f priors).1 = List.range' f.m_NumberOfContours priors.length ∧
    (priors ≠ [] →
      (addShapePriors f priors).2.m_ROIs.length = f.m_NumberOfContours + priors.length + 1 ∧
      (addShapePriors f priors).2.m_CurrentROIs.length =
        f.m_NumberOfContours + priors.length + 1 ∧
      (addShapePriors f priors).2.m_CurrentMaps.length =
        f.m_NumberOfContours + priors.length + 1) := by
  induction priors with
  | nil =>
    intro f
    exact ⟨rfl, rfl, by simp [addShapePriors], by simp [addShapePriors], rfl,
      fun h => absurd rfl h⟩
  | cons prior rest ih =>
    intro f
    obtain ⟨h1, h2, h3, h4, h5, h6⟩ := ih (AddShapePrior f prior).2
    have hc : (AddShapePrior f prior).2.m_NumberOfContours = f.m_NumberOfContours + 1 := rfl
    have hr : (AddShapePrior f prior).2.m_NumberOfRegions = f.m_NumberOfRegions + 1 := rfl
    have hp : (AddShapePrior f prior).2.m_NumberOfPoints =
        f.m_NumberOfPoints + prior.points.length := rfl
    have hq : (AddShapePrior f prior).2.m_Priors = f.m_Priors ++ [prior] := rfl
    have hret : (AddShapePrior f prior).1 = f.m_NumberOfContours := rfl
    have hstep : addShapePriors f (prior :: rest) =
        ((AddShapePrior f prior).1 :: (addShapePriors (AddShapePrior f prior).2 rest).1,
          (addShapePriors (AddShapePrior f prior).2 rest).2) := rfl
    rw [hstep]
    simp only [List.length_cons, List.map_cons, List.sum_cons]
    refine ⟨by rw [h1, hc]; omega, by rw [h2, hr]; omega, by rw [h3, hp]; omega,
      by rw [h4, hq]; simp, ?_, fun _ => ?_⟩
    · rw [h5, hret, hc]
      rfl
    · cases rest with
      | nil =>
        refine ⟨?_, ?_, ?_⟩
        · show (resize f.m_ROIs (f.m_NumberOfContours + 1 + 1) []).length = _
          rw [resize_length]
          rfl
        · show (resize f.m_CurrentROIs (f.m_NumberOfContours + 1 + 1) []).length = _
          rw [resize_length]
          rfl
        · show (resize f.m_CurrentMaps (f.m_NumberOfContours + 1 + 1) none).length = _
          rw [resize_length]
          rfl
      | cons second others =>
        obtain ⟨ha, hb, hd⟩ := h6 (List.cons_ne_nil _ _)
        rw [ha, hb, hd, hc]
        simp only [List.length_cons]
        omega

/-- C13 (as amended). After any sequence of `n` calls of `AddShapePrior` on a freshly constructed
functional, `n` at least 1, the number of contours is `n`, the number of regions is the number
of contours plus one, the lists of reference rasters, current rasters and current maps have
`n + 1` entries each, the number of off-grid points is the sum of the node counts of the priors,
and call `k + 1` returned the contour index `k`. -/
theorem AddShapePrior_sequence_counts (priors : List ContourType) (hn : 1 ≤ priors.length) :
    (addShapePriors FunctionalBase.New priors).2.m_NumberOfContours = priors.length ∧
    (addShapePriors FunctionalBase.New priors).2.m_NumberOfRegions =
      (addShapePriors FunctionalBase.New priors).2.m_NumberOfContours + 1 ∧
    (addShapePriors FunctionalBase.New priors).2.m_ROIs.length = priors.length + 1 ∧
    (addShapePriors FunctionalBase.New priors).2.m_CurrentROIs.length = priors.length + 1 ∧
    (addShapePriors FunctionalBase.New priors).2.m_CurrentMaps.length = priors.length + 1 ∧
    (addShapePriors FunctionalBase.New priors).2.m_NumberOfPoints =
      (priors.map fun prior => prior.points.length).sum ∧
    (addShapePriors FunctionalBase.New priors).1.length = priors.length ∧
    ∀ k, k < priors.length → (addShapePriors FunctionalBase.New priors).1[k]? = some k := by
  obtain ⟨h1, h2, h3, -, h5, h6⟩ := addShapePriors_spec priors FunctionalBase.New
  have hne : priors ≠ [] := by
    intro h
    rw [h] at hn
    exact absurd hn (by decide)
  obtain ⟨ha, hb, hc⟩ := h6 hne
  have h0 : FunctionalBase.New.m_NumberOfContours = 0 := rfl
  have hr0 : FunctionalBase.New.m_NumberOfRegions = 1 := rfl
  have hp0 : FunctionalBase.New.m_NumberOfPoints = 0 := rfl
  rw [h0] at h1 h5 ha hb hc
  rw [hr0] at h2
  rw [hp0] at h3
  refine ⟨by omega, by omega, by omega, by omega, by omega, by omega, ?_, ?_⟩
  · rw [h5, List.length_range']
  · intro k hk
    rw [h5, List.getElem?_range' _ _ hk]
    simp

/-- C13, witness: two calls, with `triangleMesh` and with `cornerMesh`. -/
theorem AddShapePrior_sequence_counts_witness :
    (addShapePriors FunctionalBase.New [triangleMesh, cornerMesh]).2.m_NumberOfContours = 2 ∧
    (addShapePriors FunctionalBase.New [triangleMesh, cornerMesh]).2.m_NumberOfRegions =
      (addShapePriors FunctionalBase.New [triangleMesh, cornerMesh]).2.m_NumberOfContours + 1 ∧
    (addShapePriors FunctionalBase.New [triangleMesh, cornerMesh]).2.m_ROIs.length = 2 + 1 ∧
    (addShapePriors FunctionalBase.New [triangleMesh, cornerMesh]).2.m_CurrentROIs.length =
      2 + 1 ∧
    (addShapePriors FunctionalBase.New [triangleMesh, cornerMesh]).2.m_CurrentMaps.length =
      2 + 1 ∧
    (addShapePriors FunctionalBase.New [triangleMesh, cornerMesh]).2.m_NumberOfPoints =
      ([triangleMesh, cornerMesh].map fun prior => prior.points.length).sum ∧
    (addShapePriors FunctionalBase.New [triangleMesh, cornerMesh]).1.length = 2 ∧
    ∀ k, k < 2 →
      (addShapePriors FunctionalBase.New [triangleMesh, cornerMesh]).1[k]? = some k :=
  AddShapePrior_sequence_counts [triangleMesh, cornerMesh] (by decide)

/-- C13, counterexample: with no call (`n = 0`) the freshly constructed functional has one
region and no contour, and the three raster lists are empty, not of `n + 1 = 1` entries. -/
theorem AddShapePrior_no_call_empty_lists :
    (addShapePriors FunctionalBase.New []).2.m_NumberOfRegions = 0 + 1 ∧
    (addShapePriors FunctionalBase.New []).2.m_ROIs.length = 0 ∧
    (addShapePriors FunctionalBase.New []).2.m_CurrentROIs.length = 0 ∧
    (addShapePriors FunctionalBase.New []).2.m_CurrentMaps.length = 0 ∧
    ¬ ((addShapePriors FunctionalBase.New []).2.m_ROIs.length = ([] : List ContourType).length + 1 ∧
      (addShapePriors FunctionalBase.New []).2.m_CurrentROIs.length =
        ([] : List ContourType).length + 1 ∧
      (addShapePriors FunctionalBase.New []).2.m_CurrentMaps.length =
        ([] : List ContourType).length + 1) :=
  ⟨rfl, rfl, rfl, rfl, by decide⟩

/-! ### Per-vertex area -/

theorem loadPolygon_triangle (mesh : ContourType) (a b c : Nat) (pt : Nat → PointType) :
    ∃ pt1, loadPolygon mesh [a, b, c] 0 pt = .ok pt1 ∧
      pt1 0 = mesh.points.getD a (fun _ => 0) ∧ pt1 1 = mesh.points.getD b (fun _ => 0) ∧
      pt1 2 = mesh.points.getD c (fun _ => 0) := by
  refine ⟨Function.update (Function.update (Function.update pt 0
    (mesh.points.getD a (fun _ => 0))) 1 (mesh.points.getD b (fun _ => 0))) 2
    (mesh.points.getD c (fun _ => 0)), by simp [loadPolygon], ?_, ?_, ?_⟩
  · simp [Function.update]
  · simp [Function.update]
  · simp [Function.update]

/-- Sum of the areas that the walk of `ComputePointArea` adds up, when every edge of the ring
has a left face that is a triangle of the mesh: one term per edge. -/
theorem areaLoop_triangles (env : Collaborators) (mesh : ContourType) (A : ℚ) :
    ∀ (faces : List Nat) (pt : Nat → PointType) (total : ℚ),
      (∀ face ∈ faces, ∃ a b c, mesh.cells[face]? = some [a, b, c] ∧
        env.ComputeArea (mesh.points.getD a (fun _ => 0)) (mesh.points.getD b (fun _ => 0))
          (mesh.points.getD c (fun _ => 0)) = A) →
      areaLoop env mesh (faces.map some) pt total = .ok (total + faces.length * A) := by
  intro faces
  induction faces with
  | nil =>
    intro pt total _
    simp [areaLoop]
  | cons face rest ih =>
    intro pt total h
    obtain ⟨a, b, c, hcell, harea⟩ := h face (List.mem_cons_self _ _)
    obtain ⟨pt1, hload, h0, h1, h2⟩ := loadPolygon_triangle mesh a b c pt
    simp only [List.map_cons, areaLoop, hcell, hload]
    rw [h0, h1, h2, harea, ih pt1 _ (fun x hx => h x (List.mem_cons_of_mem _ hx))]
    congr 1
    simp only [List.length_cons]
    push_cast
    ring

/-- Value of `ComputePointArea` at a node whose fan consists of `k` triangles of area `A`
each: the absolute value of `0.33 * k * A`. -/
theorem ComputePointArea_fan (env : Collaborators) (mesh : ContourType) (iId : Nat) (A : ℚ)
    (faces : List Nat) (hne : faces ≠ []) (hring : mesh.ring iId = faces.map some)
    (htri : ∀ face ∈ faces, ∃ a b c, mesh.cells[face]? = some [a, b, c] ∧
      env.ComputeArea (mesh.points.getD a (fun _ => 0)) (mesh.points.getD b (fun _ => 0))
        (mesh.points.getD c (fun _ => 0)) = A) :
    ComputePointArea env iId mesh = .ok |faces.length * A * (33 / 100)| := by
  unfold ComputePointArea
  have hloop := areaLoop_triangles env mesh A faces (fun _ _ => 0) 0 htri
  rw [hring]
  cases faces with
  | nil => exact absurd rfl hne
  | cons face rest =>
    simp only [List.map_cons] at hloop ⊢
    rw [hloop]
    simp

/-- On every fan of `k` triangles of area `A` with `k * A` not null, `ComputePointArea` differs
from one third of the summed area. -/
theorem ComputePointArea_fan_ne_third (env : Collaborators) (mesh : ContourType) (iId : Nat)
    (A : ℚ) (faces : List Nat) (hne : faces ≠ []) (hring : mesh.ring iId = faces.map some)
    (htri : ∀ face ∈ faces, ∃ a b c, mesh.cells[face]? = some [a, b, c] ∧
      env.ComputeArea (mesh.points.getD a (fun _ => 0)) (mesh.points.getD b (fun _ => 0))
        (mesh.points.getD c (fun _ => 0)) = A)
    (hnz : (faces.length : ℚ) * A ≠ 0) :
    ComputePointArea env iId mesh ≠ .ok |faces.length * A / 3| := by
  rw [ComputePointArea_fan env mesh iId A faces hne hring htri]
  intro heq
  simp only [Except.ok.injEq] at heq
  have hpos : 0 < |(faces.length : ℚ) * A| := abs_pos.mpr hnz
  have h33 : |(33 / 100 : ℚ)| = 33 / 100 := abs_of_pos (by norm_num)
  have h3 : |(3 : ℚ)| = 3 := abs_of_pos (by norm_num)
  rw [abs_mul, h33, abs_div, h3] at heq
  have : |(faces.length : ℚ) * A| = 0 := by linarith
  exact absurd this (ne_of_gt hpos)

/-- C12, the code at the failing input: the fan of node 0 of `triangleMesh` is one triangle
(`k = 1`) of area `A = 1/2`, and `ComputePointArea` returns 0.33 * 1/2 = 33/200, not one third
of the area, `k * A / 3 = 1/6`. -/
theorem ComputePointArea_not_one_third :
    triangleMesh.ring 0 = [some 0] ∧ triangleMesh.cells[0]? = some [0, 1, 2] ∧
      byteEnv.ComputeArea ![0, 0, 0] ![1, 0, 0] ![0, 1, 0] = 1 / 2 ∧
      ComputePointArea byteEnv 0 triangleMesh = .ok (33 / 200) ∧
      ComputePointArea byteEnv 0 triangleMesh ≠ .ok |(1 : ℚ) * (1 / 2) / 3| := by
  have hval : ComputePointArea byteEnv 0 triangleMesh = .ok (33 / 200) := by
    have h := ComputePointArea_fan byteEnv triangleMesh 0 (1 / 2) [0] (by simp) rfl
      (by
        intro face hface
        simp only [List.mem_singleton] at hface
        subst hface
        exact ⟨0, 1, 2, rfl, rfl⟩)
    rw [h]
    congr 1
    rw [abs_of_pos (by norm_num)]
    norm_num
  refine ⟨rfl, rfl, rfl, hval, ?_⟩
  rw [hval]
  intro h
  simp only [Except.ok.injEq] at h
  rw [abs_of_pos (by norm_num)] at h
  norm_num at h

/-! ### Nested-topology resolver -/

/-- C18 (as amended). On a functional with one contour, hence two regions, whose current contour
is in place, `ComputeOuterRegions` returns; it appends to the outer list one vector that holds,
for every node of the contour, the background id `R - 1 = 1`; and neither the label raster nor
any collaborator is consulted, the outcome being the same whatever they are. -/
theorem ComputeOuterRegions_single_contour (env : Collaborators) (f : FunctionalBase)
    (contour : ContourType) (hR : f.m_NumberOfRegions = 2)
    (hc : f.m_CurrentContours[0]? = some contour) :
    ∃ f', ComputeOuterRegions env f = .ok f' ∧
      f' = { f with m_OuterList := f.m_OuterList ++
        [List.replicate contour.points.length (f.m_NumberOfRegions - 1)] } ∧
      (∀ pid, pid < contour.points.length →
        (f'.m_OuterList[f.m_OuterList.length]?.bind fun outerVect => outerVect[pid]?) =
          some (f.m_NumberOfRegions - 1)) ∧
      ∀ (env' : Collaborators) (regions : Option ROIType),
        ComputeOuterRegions env' { f with m_CurrentRegions := regions } =
          .ok { f' with m_CurrentRegions := regions } := by
  have hrun : ∀ (env' : Collaborators) (regions : Option ROIType),
      ComputeOuterRegions env' { f with m_CurrentRegions := regions } =
        .ok { f with
          m_CurrentRegions := regions
          m_OuterList := f.m_OuterList ++
            [List.replicate contour.points.length (f.m_NumberOfRegions - 1)] } := by
    intro env' regions
    unfold ComputeOuterRegions
    simp only [hR, gt_iff_lt, Nat.lt_irrefl, if_false, hc]
  refine ⟨_, hrun env f.m_CurrentRegions, rfl, ?_, fun env' regions => hrun env' regions⟩
  intro pid hpid
  simp only [List.getElem?_concat_length, Option.some_bind]
  rw [List.getElem?_eq_getElem (by simpa using hpid)]
  simp

/-- C18, witness: the functional `oneContourFunctional`, whose contour is `triangleMesh`. -/
theorem ComputeOuterRegions_single_contour_witness :
    oneContourFunctional.m_NumberOfRegions = 2 ∧
      ∃ f', ComputeOuterRegions byteEnv oneContourFunctional = .ok f' ∧
        f' = { oneContourFunctional with m_OuterList := oneContourFunctional.m_OuterList ++
          [List.replicate triangleMesh.points.length
            (oneContourFunctional.m_NumberOfRegions - 1)] } ∧
        (∀ pid, pid < triangleMesh.points.length →
          (f'.m_OuterList[oneContourFunctional.m_OuterList.length]?.bind
            fun outerVect => outerVect[pid]?) =
              some (oneContourFunctional.m_NumberOfRegions - 1)) ∧
        ∀ (env' : Collaborators) (regions : Option ROIType),
          ComputeOuterRegions env' { oneContourFunctional with m_CurrentRegions := regions } =
            .ok { f' with m_CurrentRegions := regions } :=
  ⟨rfl, ComputeOuterRegions_single_contour byteEnv oneContourFunctional triangleMesh rfl rfl⟩

/-- C18, counterexample: a functional without contour has one region, at most 2, and
`ComputeOuterRegions` indexes the first current contour, which is missing. -/
theorem ComputeOuterRegions_no_contour_out_of_range :
    noContourFunctional.m_NumberOfRegions = 1 ∧ noContourFunctional.m_NumberOfContours = 0 ∧
      noContourFunctional.m_CurrentContours[0]? = none ∧
      ComputeOuterRegions byteEnv noContourFunctional = .error .outOfRange ∧
      ¬ ∃ f', ComputeOuterRegions byteEnv noContourFunctional = .ok f' :=
  ⟨rfl, rfl, rfl, rfl, by rintro ⟨f', h⟩; exact absurd h (by simp [ComputeOuterRegions,
    noContourFunctional, FunctionalBase.New])⟩

/-! ### Gradient computer -/

theorem loadPolygon_ok (mesh : ContourType) :
    ∀ (poly : List Nat) (k : Nat) (pt : Nat → PointType), k + poly.length ≤ 3 →
      ∃ pt1, loadPolygon mesh poly k pt = .ok pt1 := by
  intro poly
  induction poly with
  | nil => intro k pt _; exact ⟨pt, rfl⟩
  | cons id rest ih =>
    intro k pt h
    simp only [List.length_cons] at h
    unfold loadPolygon
    rw [if_pos (by omega)]
    exact ih (k + 1) _ (by omega)

theorem areaLoop_ok (env : Collaborators) (mesh : ContourType) :
    ∀ (ring : List (Option Nat)) (pt : Nat → PointType) (total : ℚ),
      (∀ face, some face ∈ ring → ∃ poly, mesh.cells[face]? = some poly ∧ poly.length ≤ 3) →
      ∃ area, areaLoop env mesh ring pt total = .ok area := by
  intro ring
  induction ring with
  | nil => intro pt total _; exact ⟨total, rfl⟩
  | cons edge rest ih =>
    intro pt total h
    have hrest : ∀ face, some face ∈ rest →
        ∃ poly, mesh.cells[face]? = some poly ∧ poly.length ≤ 3 :=
      fun face hf => h face (List.mem_cons_of_mem _ hf)
    cases edge with
    | none =>
      unfold areaLoop
      exact ih pt total hrest
    | some cell_id =>
      obtain ⟨poly, hcell, hlen⟩ := h cell_id (List.mem_cons_self _ _)
      obtain ⟨pt1, hload⟩ := loadPolygon_ok mesh poly 0 pt (by omega)
      unfold areaLoop
      simp only [hcell, hload]
      exact ih pt1 _ hrest

/-- On a well-formed fan `ComputePointArea` returns, and its value is not negative. -/
theorem ComputePointArea_ok (env : Collaborators) (mesh : ContourType) (pid : Nat)
    (h : FanWellFormed mesh pid) :
    ComputePointArea env pid mesh = .ok (pointArea env mesh pid) ∧ 0 ≤ pointArea env mesh pid := by
  obtain ⟨hne, hfaces⟩ := h
  obtain ⟨area, harea⟩ := areaLoop_ok env mesh (mesh.ring pid) (fun _ _ => 0) 0 hfaces
  have hrun : ComputePointArea env pid mesh = .ok |area * (33 / 100)| := by
    unfold ComputePointArea
    cases hr : mesh.ring pid with
    | nil => exact absurd hr hne
    | cons edge rest =>
      rw [hr] at harea
      simp only [harea]
  have hval : pointArea env mesh pid = |area * (33 / 100)| := by
    unfold pointArea
    rw [hrun]
  rw [hval]
  exact ⟨hrun, abs_nonneg _⟩

theorem nodeSamples_length (env : Collaborators) (L : List (List Nat)) (contid : Nat)
    (normals : ContourType) :
    ∀ (pts : List PointType) (pid cpid : Nat),
      (nodeSamples env L contid normals pts pid cpid).length = pts.length := by
  intro pts
  induction pts with
  | nil => intro pid cpid; rfl
  | cons ci rest ih =>
    intro pid cpid
    simp only [nodeSamples, List.length_cons, ih]

theorem nodeSamples_getElem? (env : Collaborators) (L : List (List Nat)) (contid : Nat)
    (normals : ContourType) :
    ∀ (pts : List PointType) (pid cpid j : Nat) (ci : PointType), pts[j]? = some ci →
      (nodeSamples env L contid normals pts pid cpid)[j]? =
        some (nodeSample env L contid normals (pid + j) (cpid + j) ci) := by
  intro pts
  induction pts with
  | nil => intro pid cpid j ci h; simp at h
  | cons c rest ih =>
    intro pid cpid j ci h
    cases j with
    | zero =>
      simp only [List.getElem?_cons_zero, Option.some.injEq] at h
      subst h
      simp [nodeSamples]
    | succ j =>
      simp only [List.getElem?_cons_succ] at h
      simp only [nodeSamples, List.getElem?_cons_succ]
      rw [ih (pid + 1) (cpid + 1) j ci h]
      congr 2 <;> omega

/-- The node loop of `ComputeDerivative` in closed form: it returns, and pushes the records
`nodeSamples` while it adds their area weights into `totalArea`. -/
theorem sampleNodes_spec (env : Collaborators) (f : FunctionalBase) (contid : Nat)
    (normals : ContourType) (outerVect : List Nat)
    (hout : f.m_OuterList[contid]? = some outerVect) :
    ∀ (pts : List PointType) (pid : Nat) (loc : GradientLocals),
      pid + pts.length ≤ outerVect.length →
      (∀ p, pid ≤ p → p < pid + pts.length → contid ≠ outerRegion f.m_OuterList contid p →
        FanWellFormed normals p) →
      ∃ loc', sampleNodes env f contid normals pts pid loc = .ok loc' ∧
        loc'.sample = loc.sample ++ nodeSamples env f.m_OuterList contid normals pts pid loc.cpid ∧
        loc'.totalArea = loc.totalArea +
          ((nodeSamples env f.m_OuterList contid normals pts pid loc.cpid).map fun s => s.w).sum ∧
        loc'.cpid = loc.cpid + pts.length := by
  intro pts
  induction pts with
  | nil =>
    intro pid loc _ _
    exact ⟨loc, rfl, by simp [nodeSamples], by simp [nodeSamples], rfl⟩
  | cons ci rest ih =>
    intro pid loc hlen hfan
    simp only [List.length_cons] at hlen hfan
    have hpid : pid < outerVect.length := by omega
    have hread : (f.m_OuterList[contid]?).bind (fun v => v[pid]?) =
        some (outerRegion f.m_OuterList contid pid) := by
      rw [hout]
      simp only [Option.some_bind, outerRegion]
      have hc : contid < f.m_OuterList.length := by
        by_contra hcon
        rw [List.getElem?_eq_none (by omega)] at hout
        exact absurd hout (by simp)
      rw [List.getD_eq_getElem _ _ hc]
      rw [List.getElem?_eq_getElem hc] at hout
      simp only [Option.some.injEq] at hout
      rw [hout, List.getElem?_eq_getElem hpid, List.getD_eq_getElem _ _ hpid]
    have hrestfan : ∀ p, pid + 1 ≤ p → p < pid + 1 + rest.length →
        contid ≠ outerRegion f.m_OuterList contid p → FanWellFormed normals p :=
      fun p h1 h2 h3 => hfan p (by omega) (by omega) h3
    unfold sampleNodes
    rw [hread]
    by_cases hdeg : contid ≠ outerRegion f.m_OuterList contid pid
    · obtain ⟨harea, -⟩ := ComputePointArea_ok env normals pid
        (hfan pid (Nat.le_refl _) (by omega) hdeg)
      simp only [hdeg, ne_eq, not_false_eq_true, if_true, harea]
      obtain ⟨loc', hrun, hs, ha, hc⟩ := ih (pid + 1)
        { sample := loc.sample ++
            [⟨if |env.GetEnergyAtPoint ci (outerRegion f.m_OuterList contid pid) -
                env.GetEnergyAtPoint ci contid| < MIN_GRADIENT then 0
              else env.GetEnergyAtPoint ci (outerRegion f.m_OuterList contid pid) -
                env.GetEnergyAtPoint ci contid,
              pointArea env normals pid, env.ComputeNormals normals pid, pid, loc.cpid, contid⟩]
          totalArea := loc.totalArea + pointArea env normals pid
          gradSum := loc.gradSum +
            (if |env.GetEnergyAtPoint ci (outerRegion f.m_OuterList contid pid) -
                env.GetEnergyAtPoint ci contid| < MIN_GRADIENT then 0
              else env.GetEnergyAtPoint ci (outerRegion f.m_OuterList contid pid) -
                env.GetEnergyAtPoint ci contid)
          cpid := loc.cpid + 1 } (by omega) hrestfan
      refine ⟨loc', hrun, ?_, ?_, ?_⟩
      · rw [hs]
        simp only [nodeSamples, nodeSample, hdeg, ne_eq, not_false_eq_true, if_true, rawGradient,
          List.append_assoc, List.singleton_append]
      · rw [ha]
        simp only [nodeSamples, nodeSample, hdeg, ne_eq, not_false_eq_true, if_true,
          List.map_cons, List.sum_cons]
        ring
      · rw [hc]
        simp only [List.length_cons]
        omega
    · simp only [hdeg, if_false]
      obtain ⟨loc', hrun, hs, ha, hc⟩ := ih (pid + 1)
        { loc with
          sample := loc.sample ++ [⟨0, 0, fun _ => 0, pid, loc.cpid, contid⟩]
          cpid := loc.cpid + 1 } (by omega) hrestfan
      refine ⟨loc', hrun, ?_, ?_, ?_⟩
      · rw [hs]
        simp only [nodeSamples, nodeSample, hdeg, if_false, List.append_assoc,
          List.singleton_append]
      · rw [ha]
        simp only [nodeSamples, nodeSample, hdeg, if_false, List.map_cons, List.sum_cons]
        ring
      · rw [hc]
        simp only [List.length_cons]
        omega

theorem putComponents_list (gid : Nat) (ni : VectorType) :
    ∀ (dims : List (Fin Dimension)) (gv : WeightsMatrix), gid < gv.rows →
      gv.cols = Dimension →
      ∃ stored, putComponents gid ni dims gv = .ok stored ∧ stored.rows = gv.rows ∧
        stored.cols = gv.cols ∧
        ∀ (r : Nat) (d : Fin Dimension), stored.get r d =
          if r = gid ∧ d ∈ dims ∧ ni d > MIN_GRADIENT then ni d else gv.get r d := by
  intro dims
  induction dims with
  | nil =>
    intro gv _ _
    exact ⟨gv, rfl, rfl, rfl, by simp⟩
  | cons dim rest ih =>
    intro gv hrow hcols
    unfold putComponents
    by_cases hbig : ni dim > MIN_GRADIENT
    · rw [if_pos hbig]
      let put1 : WeightsMatrix :=
        ⟨gv.rows, gv.cols, fun i j => if i = gid ∧ j = (dim : Nat) then ni dim else gv.get i j⟩
      have hput : gv.put gid dim (ni dim) = .ok put1 := by
        unfold WeightsMatrix.put
        rw [if_pos ⟨hrow, by rw [hcols]; exact dim.isLt⟩]
      simp only [hput]
      obtain ⟨stored, hrun, hr, hc, hget⟩ := ih put1 hrow hcols
      refine ⟨stored, hrun, hr, hc, ?_⟩
      intro r d
      rw [hget r d]
      simp only [put1]
      by_cases hd : d = dim
      · subst hd
        by_cases hrg : r = gid
        · simp [hrg, hbig]
        · simp [hrg]
      · have hval : ¬ ((d : Nat) = (dim : Nat)) := fun h => hd (Fin.ext h)
        simp [hd, hval]
    · rw [if_neg hbig]
      obtain ⟨stored, hrun, hr, hc, hget⟩ := ih gv hrow hcols
      refine ⟨stored, hrun, hr, hc, ?_⟩
      intro r d
      rw [hget r d]
      by_cases hd : d = dim
      · subst hd
        simp [hbig]
      · simp [hd]

/-- The loop over the dimensions in closed form: row `gid` receives the components of `ni` that
exceed the noise floor, every other entry is kept. -/
theorem putComponents_spec (gid : Nat) (ni : VectorType) (gv : WeightsMatrix)
    (hrow : gid < gv.rows) (hcols : gv.cols = Dimension) :
    ∃ stored, putComponents gid ni (List.finRange Dimension) gv = .ok stored ∧
      stored.rows = gv.rows ∧ stored.cols = gv.cols ∧
      ∀ (r : Nat) (d : Fin Dimension), stored.get r d =
        if r = gid ∧ ni d > MIN_GRADIENT then ni d else gv.get r d := by
  obtain ⟨stored, hrun, hr, hc, hget⟩ :=
    putComponents_list gid ni (List.finRange Dimension) gv hrow hcols
  refine ⟨stored, hrun, hr, hc, ?_⟩
  intro r d
  rw [hget r d]
  simp [List.mem_finRange]

/-- The second pass of `ComputeDerivative` in closed form, on records whose global indices and
node identifiers are consecutive. -/
theorem projectSamples_spec (scaler : ℚ) :
    ∀ (samples : List GradientSample) (gid0 cid0 : Nat) (gv : WeightsMatrix)
      (gm : ShapeGradientType),
      (∀ j s, samples[j]? = some s → s.gid = gid0 + j ∧ s.cid = cid0 + j) →
      gid0 + samples.length ≤ gv.rows → gv.cols = Dimension →
      ∃ stored pd,
        projectSamples scaler samples (gv, gm) = .ok (stored, { gm with pointData := pd }) ∧
        stored.rows = gv.rows ∧ stored.cols = gv.cols ∧
        (∀ (r : Nat) (d : Fin Dimension), r < gid0 ∨ gid0 + samples.length ≤ r →
          stored.get r d = gv.get r d) ∧
        (∀ j s (d : Fin Dimension), samples[j]? = some s →
          stored.get (gid0 + j) d =
            if s.w > 0 ∧ scaler * s.grad * s.w * s.normal d > MIN_GRADIENT then
              scaler * s.grad * s.w * s.normal d
            else gv.get (gid0 + j) d) ∧
        (∀ i, i < cid0 ∨ cid0 + samples.length ≤ i → pd i = gm.pointData i) ∧
        ∀ j s, samples[j]? = some s →
          pd (cid0 + j) = if s.w > 0 then scaler * s.grad * s.w else 0 := by
  intro samples
  induction samples with
  | nil =>
    intro gid0 cid0 gv gm _ _ _
    refine ⟨gv, gm.pointData, rfl, rfl, rfl, fun _ _ _ => rfl, ?_, fun _ _ => rfl, ?_⟩
    · intro j s d h
      simp at h
    · intro j s h
      simp at h
  | cons s rest ih =>
    intro gid0 cid0 gv gm hids hrows hcols
    simp only [List.length_cons] at hrows
    obtain ⟨hgid, hcid⟩ := hids 0 s (by simp)
    simp only [Nat.add_zero] at hgid hcid
    have hrestids : ∀ j t, rest[j]? = some t → t.gid = gid0 + 1 + j ∧ t.cid = cid0 + 1 + j := by
      intro j t ht
      obtain ⟨h1, h2⟩ := hids (j + 1) t (by simpa using ht)
      exact ⟨by omega, by omega⟩
    unfold projectSamples
    by_cases hw : s.w > 0
    · rw [if_pos hw]
      obtain ⟨stored1, hput, hr1, hc1, hget1⟩ :=
        putComponents_spec s.gid (fun dim => scaler * s.grad * s.w * s.normal dim) gv
          (by omega) hcols
      simp only [hput]
      obtain ⟨stored, pd, hrun, hr, hc, hout, hin, hpout, hpin⟩ := ih (gid0 + 1) (cid0 + 1)
        stored1
        { gm with pointData := Function.update gm.pointData s.cid (scaler * s.grad * s.w) }
        hrestids (by omega) (by omega)
      refine ⟨stored, pd, hrun, by omega, by omega, ?_, ?_, ?_, ?_⟩
      · intro r d hrange
        simp only [List.length_cons] at hrange
        rw [hout r d (by omega), hget1 r d, if_neg]
        intro hcon
        omega
      · intro j t d ht
        cases j with
        | zero =>
          simp only [List.getElem?_cons_zero, Option.some.injEq] at ht
          subst ht
          rw [Nat.add_zero, hout gid0 d (Or.inl (by omega)), hget1 gid0 d]
          by_cases hbig : scaler * s.grad * s.w * s.normal d > MIN_GRADIENT
          · simp [hgid, hbig, hw]
          · simp [hgid, hbig]
        | succ j =>
          simp only [List.getElem?_cons_succ] at ht
          have hstep := hin j t d ht
          have hidx : gid0 + 1 + j = gid0 + (j + 1) := by omega
          rw [hidx] at hstep
          have hne : ¬ (gid0 + (j + 1) = s.gid) := by omega
          rw [hstep, hget1 (gid0 + (j + 1)) d]
          simp only [hne, false_and, if_false]
      · intro i hrange
        simp only [List.length_cons] at hrange
        rw [hpout i (by omega)]
        simp only [Function.update]
        rw [dif_neg (by omega)]
      · intro j t ht
        cases j with
        | zero =>
          simp only [List.getElem?_cons_zero, Option.some.injEq] at ht
          subst ht
          rw [Nat.add_zero, hpout cid0 (Or.inl (by omega))]
          simp [Function.update, hcid, hw]
        | succ j =>
          simp only [List.getElem?_cons_succ] at ht
          have hstep := hpin j t ht
          have hidx : cid0 + 1 + j = cid0 + (j + 1) := by omega
          rw [hidx] at hstep
          exact hstep
    · rw [if_neg hw]
      obtain ⟨stored, pd, hrun, hr, hc, hout, hin, hpout, hpin⟩ := ih (gid0 + 1) (cid0 + 1) gv
        { gm with pointData := Function.update gm.pointData s.cid 0 }
        hrestids (by omega) hcols
      refine ⟨stored, pd, hrun, hr, hc, ?_, ?_, ?_, ?_⟩
      · intro r d hrange
        simp only [List.length_cons] at hrange
        exact hout r d (by omega)
      · intro j t d ht
        cases j with
        | zero =>
          simp only [List.getElem?_cons_zero, Option.some.injEq] at ht
          subst ht
          rw [Nat.add_zero, hout gid0 d (Or.inl (by omega))]
          simp [hw]
        | succ j =>
          simp only [List.getElem?_cons_succ] at ht
          have hstep := hin j t d ht
          have hidx : gid0 + 1 + j = gid0 + (j + 1) := by omega
          rw [hidx] at hstep
          exact hstep
      · intro i hrange
        simp only [List.length_cons] at hrange
        rw [hpout i (by omega)]
        simp only [Function.update]
        rw [dif_neg (by omega)]
      · intro j t ht
        cases j with
        | zero =>
          simp only [List.getElem?_cons_zero, Option.some.injEq] at ht
          subst ht
          rw [Nat.add_zero, hpout cid0 (Or.inl (by omega))]
          simp [Function.update, hcid, hw]
        | succ j =>
          simp only [List.getElem?_cons_succ] at ht
          have hstep := hpin j t ht
          have hidx : cid0 + 1 + j = cid0 + (j + 1) := by omega
          rw [hidx] at hstep
          exact hstep

theorem nodeSample_ids (env : Collaborators) (L : List (List Nat)) (contid : Nat)
    (normals : ContourType) (pid cpid : Nat) (ci : PointType) :
    (nodeSample env L contid normals pid cpid ci).gid = cpid ∧
      (nodeSample env L contid normals pid cpid ci).cid = pid := by
  unfold nodeSample
  split <;> exact ⟨rfl, rfl⟩

theorem nodeSamples_weights (env : Collaborators) (L : List (List Nat)) (contid : Nat)
    (normals : ContourType) :
    ∀ (pts : List PointType) (pid cpid cpid' : Nat),
      ((nodeSamples env L contid normals pts pid cpid).map fun s => s.w) =
        (nodeSamples env L contid normals pts pid cpid').map fun s => s.w := by
  intro pts
  induction pts with
  | nil => intro pid cpid cpid'; rfl
  | cons ci rest ih =>
    intro pid cpid cpid'
    simp only [nodeSamples, List.map_cons, ih (pid + 1) (cpid + 1) (cpid' + 1)]
    congr 1
    unfold nodeSample
    split <;> rfl

/-- The contour loop of `ComputeDerivative` in closed form: it returns; the gradient mesh of
every visited contour receives the held gradient of every node; the row of every node in the
sparse vector field receives the components of the projected gradient that exceed the noise
floor; nothing else is written. -/
theorem gradientLoop_spec (env : Collaborators) (k : Nat) :
    ∀ (contid : Nat) (gv : WeightsMatrix) (g : FunctionalBase),
      contid + k ≤ g.m_CurrentContours.length → contid + k ≤ g.m_Gradients.length →
      (∀ c contour, contid ≤ c → c < contid + k → g.m_CurrentContours[c]? = some contour →
        ∃ outerVect, g.m_OuterList[c]? = some outerVect ∧
          contour.points.length ≤ outerVect.length ∧
          ∀ pid, pid < contour.points.length → c ≠ outerRegion g.m_OuterList c pid →
            FanWellFormed contour pid) →
      firstGlobalId g.m_CurrentContours (contid + k) ≤ gv.rows → gv.cols = Dimension →
      ∃ stored gs,
        gradientLoop env k contid (firstGlobalId g.m_CurrentContours contid) gv g =
          .ok (stored, { g with m_Gradients := gs }) ∧
        stored.rows = gv.rows ∧ stored.cols = gv.cols ∧ gs.length = g.m_Gradients.length ∧
        (∀ c, c < contid ∨ contid + k ≤ c → gs[c]? = g.m_Gradients[c]?) ∧
        (∀ (r : Nat) (d : Fin Dimension),
          r < firstGlobalId g.m_CurrentContours contid ∨
            firstGlobalId g.m_CurrentContours (contid + k) ≤ r →
          stored.get r d = gv.get r d) ∧
        ∀ c contour gm, contid ≤ c → c < contid + k →
          g.m_CurrentContours[c]? = some contour → g.m_Gradients[c]? = some gm →
          ∃ pd, gs[c]? = some { gm with pointData := pd } ∧
            (∀ i, contour.points.length ≤ i → pd i = gm.pointData i) ∧
            ∀ pid ci, contour.points[pid]? = some ci →
              pd pid = heldGradient g.m_Scale (contourArea env g.m_OuterList c contour)
                (nodeSample env g.m_OuterList c contour pid
                  (firstGlobalId g.m_CurrentContours c + pid) ci) ∧
              ∀ d : Fin Dimension,
                stored.get (firstGlobalId g.m_CurrentContours c + pid) d =
                  if (nodeSample env g.m_OuterList c contour pid
                        (firstGlobalId g.m_CurrentContours c + pid) ci).w > 0 ∧
                      scaledGradient g.m_Scale (contourArea env g.m_OuterList c contour)
                        (nodeSample env g.m_OuterList c contour pid
                          (firstGlobalId g.m_CurrentContours c + pid) ci) *
                        (nodeSample env g.m_OuterList c contour pid
                          (firstGlobalId g.m_CurrentContours c + pid) ci).normal d >
                        MIN_GRADIENT then
                    scaledGradient g.m_Scale (contourArea env g.m_OuterList c contour)
                        (nodeSample env g.m_OuterList c contour pid
                          (firstGlobalId g.m_CurrentContours c + pid) ci) *
                      (nodeSample env g.m_OuterList c contour pid
                        (firstGlobalId g.m_CurrentContours c + pid) ci).normal d
                  else gv.get (firstGlobalId g.m_CurrentContours c + pid) d := by
  induction k with
  | zero =>
    intro contid gv g _ _ _ _ _
    refine ⟨gv, g.m_Gradients, rfl, rfl, rfl, rfl, fun _ _ => rfl, fun _ _ _ => rfl, ?_⟩
    intro c contour gm h1 h2
    omega
  | succ k ih =>
    intro contid gv g hcc hgg hwf hrows hcols
    have hc' : contid < g.m_CurrentContours.length := by omega
    have hg' : contid < g.m_Gradients.length := by omega
    have hcur : g.m_CurrentContours[contid]? = some g.m_CurrentContours[contid] :=
      List.getElem?_eq_getElem hc'
    have hgm : g.m_Gradients[contid]? = some g.m_Gradients[contid] :=
      List.getElem?_eq_getElem hg'
    obtain ⟨outerVect, hout, hlen, hfan⟩ := hwf contid _ (Nat.le_refl _) (by omega) hcur
    have hnext := firstGlobalId_succ g.m_CurrentContours contid _ hcur
    have hmono := firstGlobalId_mono g.m_CurrentContours (contid + 1) (contid + (k + 1))
      (by omega)
    obtain ⟨loc, hsample, hs, ha, hcp⟩ := sampleNodes_spec env g contid
      g.m_CurrentContours[contid] outerVect hout g.m_CurrentContours[contid].points 0
      ⟨[], 0, 0, firstGlobalId g.m_CurrentContours contid⟩ (by omega)
      (fun p _ hp hne => hfan p (by omega) hne)
    simp only [List.nil_append, zero_add] at hs ha hcp
    have harea : loc.totalArea =
        contourArea env g.m_OuterList contid g.m_CurrentContours[contid] := by
      rw [ha]
      unfold contourArea
      rw [nodeSamples_weights env g.m_OuterList contid _ _ 0 _ 0]
    obtain ⟨stored1, pd1, hproj, hr1, hc1, hout1, hin1, hpout1, hpin1⟩ :=
      projectSamples_spec (g.m_Scale / loc.totalArea) loc.sample
        (firstGlobalId g.m_CurrentContours contid) 0 gv g.m_Gradients[contid]
        (by
          intro j s hj
          rw [hs] at hj
          have hlt : j < g.m_CurrentContours[contid].points.length := by
            by_contra hcon
            rw [List.getElem?_eq_none (by rw [nodeSamples_length]; omega)] at hj
            exact absurd hj (by simp)
          rw [nodeSamples_getElem? env g.m_OuterList contid _ _ 0 _ j _
            (List.getElem?_eq_getElem hlt)] at hj
          simp only [Option.some.injEq] at hj
          subst hj
          exact nodeSample_ids _ _ _ _ _ _ _)
        (by rw [hs, nodeSamples_length]; omega) hcols
    let written : ShapeGradientType := ⟨g.m_Gradients[contid].points, pd1⟩
    let g1 : FunctionalBase := { g with m_Gradients := g.m_Gradients.set contid written }
    have hstep : gradientLoop env (k + 1) contid (firstGlobalId g.m_CurrentContours contid) gv g =
        gradientLoop env k (contid + 1) (firstGlobalId g1.m_CurrentContours (contid + 1))
          stored1 g1 := by
      rw [gradientLoop]
      simp only [hcur, hsample, hgm, hproj, hcp, hnext, g1]
    obtain ⟨stored, gs, hrun, hr, hc, hl, hgout, hsout, hin⟩ := ih (contid + 1) stored1 g1
      (by simp only [g1]; omega) (by simp only [g1, List.length_set]; omega)
      (fun c contour h1 h2 h3 => hwf c contour (by omega) (by omega) h3)
      (by
        have hidx : contid + 1 + k = contid + (k + 1) := by omega
        rw [hidx, hr1]
        exact hrows)
      (by rw [hc1]; exact hcols)
    have hidx : contid + 1 + k = contid + (k + 1) := by omega
    rw [hidx] at hsout
    refine ⟨stored, gs, ?_, by rw [hr, hr1], by rw [hc, hc1], ?_, ?_, ?_, ?_⟩
    · rw [hstep, hrun]
    · rw [hl]
      simp only [g1, List.length_set]
    · intro c hcase
      rw [hgout c (by omega)]
      simp only [g1]
      rw [List.getElem?_set_ne (by omega)]
    · intro r d hcase
      have h1 : stored.get r d = stored1.get r d := hsout r d (by
        rcases hcase with h | h
        · left
          show r < firstGlobalId g.m_CurrentContours (contid + 1)
          omega
        · right
          exact h)
      rw [h1]
      apply hout1 r d
      rw [hs, nodeSamples_length]
      rcases hcase with h | h
      · left
        exact h
      · right
        omega
    · intro c contour gm h1 h2 hcont hgrad
      rcases Nat.eq_or_lt_of_le h1 with heq | hlt
      · subst heq
        rw [hcur] at hcont
        rw [hgm] at hgrad
        simp only [Option.some.injEq] at hcont hgrad
        subst hcont
        subst hgrad
        have hkeep := hgout contid (Or.inl (Nat.lt_succ_self _))
        simp only [g1, List.getElem?_set_self hg'] at hkeep
        refine ⟨pd1, hkeep, ?_, ?_⟩
        · intro i hi
          apply hpout1 i
          right
          rw [hs, nodeSamples_length]
          omega
        · intro pid ci hci
          have hsj : loc.sample[pid]? = some (nodeSample env g.m_OuterList contid
              g.m_CurrentContours[contid] pid
              (firstGlobalId g.m_CurrentContours contid + pid) ci) := by
            rw [hs, nodeSamples_getElem? env g.m_OuterList contid _ _ 0 _ pid ci hci]
            simp
          have hpidlt : pid < g.m_CurrentContours[contid].points.length := by
            by_contra hcon
            rw [List.getElem?_eq_none (by omega)] at hci
            exact absurd hci (by simp)
          constructor
          · have := hpin1 pid _ hsj
            simp only [zero_add] at this
            rw [this, harea]
            rfl
          · intro d
            have h1 : stored.get (firstGlobalId g.m_CurrentContours contid + pid) d =
                stored1.get (firstGlobalId g.m_CurrentContours contid + pid) d :=
              hsout _ d (Or.inl (by
                show _ < firstGlobalId g.m_CurrentContours (contid + 1)
                omega))
            rw [h1, hin1 pid _ d hsj, harea]
            rfl
      · obtain ⟨pd, hp1, hp2, hp3⟩ := hin c contour gm (by omega) (by omega) hcont
          (by
            simp only [g1]
            rw [List.getElem?_set_ne (by omega)]
            exact hgrad)
        refine ⟨pd, hp1, hp2, ?_⟩
        intro pid ci hci
        obtain ⟨hq1, hq2⟩ := hp3 pid ci hci
        refine ⟨hq1, ?_⟩
        intro d
        rw [hq2 d]
        have hpidlt : pid < contour.points.length := by
          by_contra hcon
          rw [List.getElem?_eq_none (by omega)] at hci
          exact absurd hci (by simp)
        have hlow := firstGlobalId_mono g.m_CurrentContours (contid + 1) c (by omega)
        have hkeep : stored1.get (firstGlobalId g.m_CurrentContours c + pid) d =
            gv.get (firstGlobalId g.m_CurrentContours c + pid) d := by
          apply hout1
          right
          rw [hs, nodeSamples_length]
          omega
        show (if _ then _ else stored1.get (firstGlobalId g.m_CurrentContours c + pid) d) = _
        rw [hkeep]

theorem firstGlobalId_zero (A : List ContourType) : firstGlobalId A 0 = 0 := by
  simp [firstGlobalId, priorNodes]

theorem firstGlobalId_congr (A B : List ContourType) (n : Nat) (hA : n ≤ A.length)
    (hB : n ≤ B.length)
    (h : ∀ c a b, c < n → A[c]? = some a → B[c]? = some b →
      a.points.length = b.points.length) :
    ∀ c, c ≤ n → firstGlobalId A c = firstGlobalId B c := by
  intro c
  induction c with
  | zero => intro _; rw [firstGlobalId_zero, firstGlobalId_zero]
  | succ c ih =>
    intro hc
    have ha : A[c]? = some A[c] := List.getElem?_eq_getElem (by omega)
    have hb : B[c]? = some B[c] := List.getElem?_eq_getElem (by omega)
    rw [firstGlobalId_succ A c _ ha, firstGlobalId_succ B c _ hb, ih (by omega),
      h c _ _ (by omega) ha hb]

theorem scatterDerivative_spec (f : FunctionalBase) (derivative : WeightsMatrix)
    (buff : Fin Dimension → List ℚ) (hrows : f.m_NumberOfNodes ≤ derivative.rows)
    (hbuf : ∀ i, f.m_NumberOfNodes ≤ (buff i).length) :
    scatterDerivative f derivative buff =
      .ok fun i => (List.range (buff i).length).map fun r =>
        if r < f.m_NumberOfNodes then derivative.get r i else (buff i).getD r 0 := by
  unfold scatterDerivative
  rw [if_pos ⟨hrows, hbuf⟩]

/-- The run of `ComputeDerivative` after its call of `UpdateContour` returned the state `f1`:
the contour loop fills the sparse vector field and the gradient meshes, and the derivative
rasters receive the product of the transposed basis matrix by the vector field. -/
theorem ComputeDerivative_after_update (env : Collaborators) (f f1 : FunctionalBase)
    (T : Transform) (hupd : UpdateContour env f = .ok f1) (hT : f1.m_Transform = some T)
    (hder : ∀ i, ∃ buf, f1.m_Derivative i = some buf ∧ f1.m_NumberOfNodes ≤ buf.length)
    (hphi : f1.m_NumberOfNodes ≤ T.m_Phi.cols)
    (hcc : f1.m_NumberOfContours ≤ f1.m_CurrentContours.length)
    (hgg : f1.m_NumberOfContours ≤ f1.m_Gradients.length)
    (hrows : firstGlobalId f1.m_CurrentContours f1.m_NumberOfContours ≤ f1.m_NumberOfPoints)
    (hwf : ∀ c contour, c < f1.m_NumberOfContours → f1.m_CurrentContours[c]? = some contour →
      ∃ outerVect, f1.m_OuterList[c]? = some outerVect ∧
        contour.points.length ≤ outerVect.length ∧
        ∀ pid, pid < contour.points.length → FanWellFormed contour pid) :
    ∃ stored gs,
      gradientLoop env f1.m_NumberOfContours 0 0
          (WeightsMatrix.zero f1.m_NumberOfPoints Dimension) f1 =
        .ok (stored, { f1 with m_Gradients := gs }) ∧
      ComputeDerivative env f =
        .ok { f1 with
          m_Gradients := gs
          m_Derivative := fun i => some (derivativeRaster f1 T stored i) } ∧
      gs.length = f1.m_Gradients.length ∧
      (∀ (r : Nat) (d : Fin Dimension),
        firstGlobalId f1.m_CurrentContours f1.m_NumberOfContours ≤ r → stored.get r d = 0) ∧
      ∀ c contour gm, c < f1.m_NumberOfContours →
        f1.m_CurrentContours[c]? = some contour → f1.m_Gradients[c]? = some gm →
        ∃ pd, gs[c]? = some { gm with pointData := pd } ∧
          (∀ i, contour.points.length ≤ i → pd i = gm.pointData i) ∧
          ∀ pid ci, contour.points[pid]? = some ci →
            pd pid = heldGradient f1.m_Scale (contourArea env f1.m_OuterList c contour)
              (nodeSample env f1.m_OuterList c contour pid
                (firstGlobalId f1.m_CurrentContours c + pid) ci) ∧
            ∀ d : Fin Dimension,
              stored.get (firstGlobalId f1.m_CurrentContours c + pid) d =
                fieldEntry f1.m_Scale (contourArea env f1.m_OuterList c contour)
                  (nodeSample env f1.m_OuterList c contour pid
                    (firstGlobalId f1.m_CurrentContours c + pid) ci) d := by
  obtain ⟨stored, gs, hloop, hr, hc, hl, -, hsout, hin⟩ :=
    gradientLoop_spec env f1.m_NumberOfContours 0
      (WeightsMatrix.zero f1.m_NumberOfPoints Dimension) f1 (by omega) (by omega)
      (fun c contour _ h2 h3 => by
        obtain ⟨outerVect, h4, h5, h6⟩ := hwf c contour (by omega) h3
        exact ⟨outerVect, h4, h5, fun pid hp _ => h6 pid hp⟩)
      (by simpa using hrows) rfl
  simp only [zero_add, firstGlobalId_zero] at hloop hsout hin
  have hnone : ¬ ∃ i, f1.m_Derivative i = none := by
    rintro ⟨i, hi⟩
    obtain ⟨buf, hb, -⟩ := hder i
    rw [hb] at hi
    exact absurd hi (by simp)
  have hscatter := scatterDerivative_spec { f1 with m_Gradients := gs }
    (T.m_Phi.transpose.mult stored (WeightsMatrix.zero f1.m_NumberOfNodes Dimension))
    (fun i => List.replicate ((f1.m_Derivative i).getD []).length 0)
    (by
      unfold WeightsMatrix.mult
      split
      · exact Nat.le_refl _
      · exact hphi)
    (by
      intro i
      obtain ⟨buf, hb, hlen⟩ := hder i
      simp only [hb, Option.getD_some, List.length_replicate]
      exact hlen)
  refine ⟨stored, gs, hloop, ?_, hl, ?_, ?_⟩
  · unfold ComputeDerivative
    rw [hupd]
    simp only
    rw [if_neg hnone]
    simp only [hT] at hscatter
    simp only [hT, hloop, hscatter]
    congr 2
    funext i
    congr 1
    unfold derivativeRaster
    simp only [List.length_replicate]
    apply List.map_congr_left
    intro r hr'
    rw [List.mem_range] at hr'
    by_cases hnode : r < f1.m_NumberOfNodes
    · simp only [hnode, if_true]
      unfold WeightsMatrix.mult
      have hcols : ¬ (T.m_Phi.transpose.rows = 0 ∨ stored.cols = 0) := by
        rw [hc]
        simp only [WeightsMatrix.transpose, WeightsMatrix.zero]
        intro hcon
        rcases hcon with h | h
        · omega
        · exact absurd h (by decide)
      rw [if_neg hcols]
      rfl
    · simp only [hnode, if_false]
      rw [List.getD_eq_getElem?_getD, List.getElem?_replicate]
      simp [hr']
  · intro r d hge
    rw [hsout r d (Or.inr hge)]
    rfl
  · intro c contour gm hc' hcont hgrad
    obtain ⟨pd, h1, h2, h3⟩ := hin c contour gm (Nat.zero_le _) hc' hcont hgrad
    refine ⟨pd, h1, h2, ?_⟩
    intro pid ci hci
    obtain ⟨h4, h5⟩ := h3 pid ci hci
    refine ⟨h4, ?_⟩
    intro d
    rw [h5 d]
    rfl

/-- The call of `ComputeDerivative` on a functional that is ready for a gradient pass: it
returns; `f1` is the state after the contour update, `stored` the sparse vector field after the
contour loop and `f2` the final state. Every node of every contour gets its held gradient in
the gradient mesh and its row in the vector field; the rasters hold the product with the
transposed basis matrix. -/
theorem ComputeDerivative_spec (env : Collaborators) (f : FunctionalBase) (T : Transform)
    (img : ReferenceImage) (hT : f.m_Transform = some T) (himg : f.m_ReferenceImage = some img)
    (hal : ContoursAligned f) (hready : GradientReady f T) :
    ∃ (f1 f2 : FunctionalBase) (stored : WeightsMatrix) (gs : List ShapeGradientType),
      UpdateContour env f = .ok f1 ∧ ComputeDerivative env f = .ok f2 ∧
      gradientLoop env f1.m_NumberOfContours 0 0
          (WeightsMatrix.zero f1.m_NumberOfPoints Dimension) f1 =
        .ok (stored, { f1 with m_Gradients := gs }) ∧
      f2 = { f1 with
        m_Gradients := gs
        m_Derivative := fun i => some (derivativeRaster f T stored i) } ∧
      f1.m_OuterList = f.m_OuterList ∧ f1.m_Scale = f.m_Scale ∧
      f1.m_NumberOfContours = f.m_NumberOfContours ∧
      (∀ c, c < f.m_NumberOfContours → ∃ prior cur,
        f.m_Priors[c]? = some prior ∧ f.m_CurrentContours[c]? = some cur ∧
        f1.m_CurrentContours[c]? = some { cur with
          points := commitList f T (firstGlobalId f.m_Priors c) prior.points cur.points }) ∧
      (∀ (r : Nat) (d : Fin Dimension), totalNodes f ≤ r → stored.get r d = 0) ∧
      ∀ c contour, c < f.m_NumberOfContours → f1.m_CurrentContours[c]? = some contour →
        ∃ pd, gs[c]? = some ⟨(env.CopyShape contour).points, pd⟩ ∧
          (∀ i, contour.points.length ≤ i → pd i = (env.CopyShape contour).pointData i) ∧
          ∀ pid ci, contour.points[pid]? = some ci →
            pd pid = heldGradient f.m_Scale (contourArea env f.m_OuterList c contour)
              (nodeSample env f.m_OuterList c contour pid
                (firstGlobalId f.m_Priors c + pid) ci) ∧
            ∀ d : Fin Dimension,
              stored.get (firstGlobalId f.m_Priors c + pid) d =
                fieldEntry f.m_Scale (contourArea env f.m_OuterList c contour)
                  (nodeSample env f.m_OuterList c contour pid
                    (firstGlobalId f.m_Priors c + pid) ci) d := by
  obtain ⟨cc, gg, hrun, hl1, hl2, -, hin⟩ := UpdateContourLocals_spec env f T img hT himg hal
  obtain ⟨ha1, ha2, ha3, ha4⟩ := hal
  obtain ⟨hder, hphi, hpts, hwf⟩ := hready
  let f1 : FunctionalBase :=
    { f with
      m_CurrentContours := cc
      m_Gradients := gg
      m_RegionsUpdated := decide (movedCount T 0 (totalNodes f) = 0)
      m_EnergyUpdated := decide (movedCount T 0 (totalNodes f) = 0) }
  have hupd : UpdateContour env f = .ok f1 := by
    unfold UpdateContour
    rw [hrun]
  have hshape : ∀ c a b, c < f.m_NumberOfContours → cc[c]? = some a →
      f.m_Priors[c]? = some b → a.points.length = b.points.length := by
    intro c a b hc hca hcb
    obtain ⟨prior, cur, hp, hq, hr, -⟩ := hin c hc
    rw [hr] at hca
    rw [hp] at hcb
    simp only [Option.some.injEq] at hca hcb
    subst hca
    subst hcb
    simp only [commitList_length]
    exact (ha4 c prior cur hc hp hq).symm
  have hid : ∀ c, c ≤ f.m_NumberOfContours →
      firstGlobalId cc c = firstGlobalId f.m_Priors c :=
    firstGlobalId_congr cc f.m_Priors f.m_NumberOfContours (by omega) ha1 hshape
  obtain ⟨stored, gs, hloop, hcd, hl, hzero, hnodes⟩ :=
    ComputeDerivative_after_update env f f1 T hupd hT hder hphi
      (by show f.m_NumberOfContours ≤ cc.length; omega)
      (by show f.m_NumberOfContours ≤ gg.length; omega)
      (by
        show firstGlobalId cc f.m_NumberOfContours ≤ f.m_NumberOfPoints
        rw [hid _ (Nat.le_refl _)]
        exact hpts)
      (by
        intro c contour hc hcont
        obtain ⟨prior, cur, hp, hq, hr, -⟩ := hin c hc
        have hcont' : cc[c]? = some contour := hcont
        rw [hr] at hcont'
        simp only [Option.some.injEq] at hcont'
        subst hcont'
        obtain ⟨outerVect, ho1, ho2, ho3⟩ := hwf c cur hc hq
        refine ⟨outerVect, ho1, ?_, ?_⟩
        · simp only [commitList_length]
          exact ho2
        · intro pid hpid
          simp only [commitList_length] at hpid
          exact ho3 pid hpid)
  refine ⟨f1, _, stored, gs, hupd, hcd, hloop, rfl, rfl, rfl, rfl, ?_, ?_, ?_⟩
  · intro c hc
    obtain ⟨prior, cur, hp, hq, hr, -⟩ := hin c hc
    exact ⟨prior, cur, hp, hq, hr⟩
  · intro r d hr
    apply hzero r d
    show firstGlobalId cc f.m_NumberOfContours ≤ r
    rw [hid _ (Nat.le_refl _)]
    exact hr
  · intro c contour hc hcont
    obtain ⟨prior, cur, hp, hq, hr, hg⟩ := hin c hc
    have hcont' : cc[c]? = some contour := hcont
    have hgm : gg[c]? = some (env.CopyShape contour) := by
      rw [hg]
      rw [hr] at hcont'
      simp only [Option.some.injEq] at hcont'
      rw [hcont']
    obtain ⟨pd, h1, h2, h3⟩ := hnodes c contour (env.CopyShape contour) hc hcont hgm
    refine ⟨pd, h1, h2, ?_⟩
    intro pid ci hci
    obtain ⟨h4, h5⟩ := h3 pid ci hci
    have hfirst : firstGlobalId f1.m_CurrentContours c = firstGlobalId f.m_Priors c :=
      hid c (by omega)
    rw [hfirst] at h4 h5
    exact ⟨h4, h5⟩

/-! ### Zero energy -/

theorem globalId_decompose (A : List ContourType) :
    ∀ n, n ≤ A.length → ∀ k, k < firstGlobalId A n →
      ∃ c contour pid, c < n ∧ A[c]? = some contour ∧ pid < contour.points.length ∧
        k = firstGlobalId A c + pid := by
  intro n
  induction n with
  | zero =>
    intro _ k hk
    rw [firstGlobalId_zero] at hk
    omega
  | succ n ih =>
    intro hn k hk
    have hA : A[n]? = some A[n] := List.getElem?_eq_getElem (by omega)
    rw [firstGlobalId_succ A n _ hA] at hk
    by_cases hlow : k < firstGlobalId A n
    · obtain ⟨c, contour, pid, h1, h2, h3, h4⟩ := ih (by omega) k hlow
      exact ⟨c, contour, pid, by omega, h2, h3, h4⟩
    · exact ⟨n, A[n], k - firstGlobalId A n, by omega, hA, by omega, by omega⟩

theorem fieldEntry_of_grad_zero (scale totalArea : ℚ) (s : GradientSample) (d : Fin Dimension)
    (h : s.grad = 0) : fieldEntry scale totalArea s d = 0 := by
  unfold fieldEntry scaledGradient
  rw [h]
  simp [MIN_GRADIENT]

theorem heldGradient_of_grad_zero (scale totalArea : ℚ) (s : GradientSample)
    (h : s.grad = 0) : heldGradient scale totalArea s = 0 := by
  unfold heldGradient scaledGradient
  rw [h]
  simp

theorem nodeSample_grad_flat (env : Collaborators) (L : List (List Nat)) (contid : Nat)
    (normals : ContourType) (pid cpid : Nat) (ci : PointType)
    (hpoint : ∀ p roi, env.GetEnergyAtPoint p roi = 0) :
    (nodeSample env L contid normals pid cpid ci).grad = 0 := by
  unfold nodeSample
  split
  · simp [rawGradient, hpoint]
  · rfl

/-- Every entry of the sparse vector field is null when every record has a null gradient. -/
theorem field_zero_of_grad_zero (env : Collaborators) (f f1 : FunctionalBase) (T : Transform)
    (stored : WeightsMatrix) (hal : ContoursAligned f)
    (hcont : ∀ c, c < f.m_NumberOfContours → ∃ prior cur,
      f.m_Priors[c]? = some prior ∧ f.m_CurrentContours[c]? = some cur ∧
      f1.m_CurrentContours[c]? = some { cur with
        points := commitList f T (firstGlobalId f.m_Priors c) prior.points cur.points })
    (hzero : ∀ (r : Nat) (d : Fin Dimension), totalNodes f ≤ r → stored.get r d = 0)
    (hnodes : ∀ c contour, c < f.m_NumberOfContours → f1.m_CurrentContours[c]? = some contour →
      ∀ pid ci, contour.points[pid]? = some ci → ∀ d : Fin Dimension,
        stored.get (firstGlobalId f.m_Priors c + pid) d =
          fieldEntry f.m_Scale (contourArea env f.m_OuterList c contour)
            (nodeSample env f.m_OuterList c contour pid (firstGlobalId f.m_Priors c + pid) ci) d)
    (hgrad : ∀ c contour pid cpid ci,
      (nodeSample env f.m_OuterList c contour pid cpid ci).grad = 0) :
    ∀ (r : Nat) (d : Fin Dimension), stored.get r d = 0 := by
  intro r d
  by_cases hr : totalNodes f ≤ r
  · exact hzero r d hr
  · obtain ⟨ha1, ha2, ha3, ha4⟩ := hal
    obtain ⟨c, prior, pid, hc, hp, hpid, hk⟩ :=
      globalId_decompose f.m_Priors f.m_NumberOfContours ha1 r (by
        show r < (priorNodes (f.m_Priors.take f.m_NumberOfContours)).length
        unfold totalNodes at hr
        omega)
    obtain ⟨prior', cur, hp', hq, hr1⟩ := hcont c hc
    rw [hp] at hp'
    simp only [Option.some.injEq] at hp'
    subst hp'
    have hlen := ha4 c prior cur hc hp hq
    have hpt : pid < (commitList f T (firstGlobalId f.m_Priors c) prior.points
        cur.points).length := by
      rw [commitList_length]
      omega
    have := hnodes c _ hc hr1 pid _ (List.getElem?_eq_getElem hpt) d
    rw [hk, this]
    exact fieldEntry_of_grad_zero _ _ _ _ (hgrad _ _ _ _ _)

theorem derivativeRaster_zero (f : FunctionalBase) (T : Transform) (G : WeightsMatrix)
    (i : Fin Dimension) (hG : ∀ (r : Nat) (d : Fin Dimension), G.get r d = 0) :
    ∀ cell ∈ derivativeRaster f T G i, cell = 0 := by
  intro cell hcell
  unfold derivativeRaster at hcell
  rw [List.mem_map] at hcell
  obtain ⟨r, -, hr⟩ := hcell
  rw [← hr]
  split
  · apply Finset.sum_eq_zero
    intro k _
    rw [hG k i]
    ring
  · rfl

theorem derivativeRaster_length (f : FunctionalBase) (T : Transform) (G : WeightsMatrix)
    (i : Fin Dimension) :
    (derivativeRaster f T G i).length = ((f.m_Derivative i).getD []).length := by
  simp [derivativeRaster]

/-- With a region-energy model that returns 0 for every sample and region, `GetValue` returns
exactly 0 when it evaluates the energy. -/
theorem GetValue_zero_model (env : Collaborators) (fuel : Nat) (f : FunctionalBase)
    (img : ReferenceImage) (hsample : ∀ val roi, env.GetEnergyOfSample val roi = 0)
    (hflag : f.m_EnergyUpdated = false)
    (himg : f.m_ReferenceImage = some img) (h1 : 1 ≤ f.m_ROIs.length)
    (hrois : f.m_CurrentROIs.length = f.m_ROIs.length)
    (hmaps : f.m_CurrentMaps.length = f.m_ROIs.length) (hfit : SlotsFit f)
    (hbuf : referencePixelCount f ≤ img.buffer.length)
    (hreg : f.m_RegionsUpdated = true ∨
      ((∃ regions, f.m_CurrentRegions = some regions) ∧
        f.m_CurrentROIs.length ≤ env.roiPixelMax ∧
        f.m_CurrentROIs.length - 1 ≤ f.m_CurrentContours.length ∧
        f.m_CurrentROIs.length < fuel)) :
    ∃ f', GetValue env fuel f = .ok (0, f') ∧ f'.m_EnergyUpdated = true ∧ f'.m_Value = 0 := by
  obtain ⟨f', hrun, hup, -, hval, -⟩ :=
    GetValue_spec env fuel f img hflag himg h1 hrois hmaps hfit hbuf hreg
  have hz : energyOverPositiveWeights env f' = 0 := by
    unfold energyOverPositiveWeights
    simp [hsample]
  rw [hz] at hrun hval
  exact ⟨f', hrun, hup, hval⟩

/-- With a region-energy model that returns 0 at every point and for every region,
`ComputeDerivative` returns with every cell of every derivative raster at exactly 0, whatever
the meshes, the area weights and the basis matrix are. -/
theorem ComputeDerivative_zero_model (env : Collaborators) (f : FunctionalBase) (T : Transform)
    (img : ReferenceImage) (hpoint : ∀ p roi, env.GetEnergyAtPoint p roi = 0)
    (hT : f.m_Transform = some T) (himg : f.m_ReferenceImage = some img)
    (hal : ContoursAligned f) (hready : GradientReady f T) :
    ∃ f2, ComputeDerivative env f = .ok f2 ∧
      ∀ i, ∃ raster, f2.m_Derivative i = some raster ∧
        raster.length = ((f.m_Derivative i).getD []).length ∧ ∀ cell ∈ raster, cell = 0 := by
  obtain ⟨f1, f2, stored, gs, -, hcd, -, hf2, -, -, -, hcont, hzero, hnodes⟩ :=
    ComputeDerivative_spec env f T img hT himg hal hready
  have hall := field_zero_of_grad_zero env f f1 T stored hal hcont hzero
    (by
      intro c contour hc hcc pid ci hci d
      obtain ⟨pd, -, -, h3⟩ := hnodes c contour hc hcc
      exact (h3 pid ci hci).2 d)
    (fun c contour pid cpid ci => nodeSample_grad_flat env _ c contour pid cpid ci hpoint)
  refine ⟨f2, hcd, ?_⟩
  intro i
  refine ⟨derivativeRaster f T stored i, ?_, derivativeRaster_length f T stored i,
    derivativeRaster_zero f T stored i hall⟩
  rw [hf2]

theorem triangleMesh_fans (pid : Nat) : FanWellFormed triangleMesh pid := by
  refine ⟨by simp [triangleMesh], ?_⟩
  intro face hface
  have hring : triangleMesh.ring pid = [some 0] := rfl
  rw [hring] at hface
  simp only [List.mem_singleton, Option.some.injEq] at hface
  subst hface
  exact ⟨[0, 1, 2], rfl, by decide⟩

theorem readyFunctional_aligned : ContoursAligned readyFunctional :=
  restingFunctional_aligned

theorem readyFunctional_ready : GradientReady readyFunctional weightedTransform := by
  refine ⟨fun i => ⟨[0], rfl, by decide⟩, by decide, by decide, ?_⟩
  intro c contour hc hcont
  have hc0 : c = 0 := by
    have : readyFunctional.m_NumberOfContours = 1 := rfl
    omega
  subst hc0
  have hmesh : readyFunctional.m_CurrentContours[0]? = some triangleMesh := rfl
  rw [hmesh] at hcont
  simp only [Option.some.injEq] at hcont
  subst hcont
  exact ⟨[1, 1, 1], rfl, by decide, fun pid _ => triangleMesh_fans pid⟩

/-! ### Noise floor -/

/-- The state `UpdateContour` returns when no displacement exceeds the threshold has the current
contours, the outer regions and the counters of the state before. -/
theorem UpdateContour_still_keeps (env : Collaborators) (f f1 : FunctionalBase) (T : Transform)
    (img : ReferenceImage) (hT : f.m_Transform = some T) (himg : f.m_ReferenceImage = some img)
    (hal : ContoursAligned f)
    (hstill : ∀ gpid, gpid < totalNodes f → exceedsThreshold (T.m_OffGridValue gpid) = false)
    (hupd : UpdateContour env f = .ok f1) :
    f1.m_CurrentContours = f.m_CurrentContours ∧ f1.m_Value = f.m_Value ∧
      f1.m_EnergyUpdated = true ∧ f1.m_RegionsUpdated = true := by
  obtain ⟨gg, hrun, -⟩ := UpdateContour_still env f T img hT himg hal hstill
  rw [hrun] at hupd
  simp only [Except.ok.injEq] at hupd
  subst hupd
  exact ⟨rfl, rfl, rfl, rfl⟩

theorem byteEnv_pointArea (mesh : ContourType) (pid a b c : Nat)
    (hring : mesh.ring pid = [some 0]) (hcell : mesh.cells[0]? = some [a, b, c]) :
    pointArea byteEnv mesh pid = 33 / 200 := by
  have h := ComputePointArea_fan byteEnv mesh pid (1 / 2) [0] (by simp) hring
    (by
      intro face hface
      simp only [List.mem_singleton] at hface
      subst hface
      exact ⟨a, b, c, hcell, rfl⟩)
  unfold pointArea
  rw [h]
  simp only [List.length_singleton, Nat.cast_one]
  rw [abs_of_pos (by norm_num)]
  norm_num

/-- C15 (as amended). The noise floor is applied to the raw gradient before the scaling, and
after the scaling to the components of the projected gradient, not to the node gradient itself.
After `ComputeDerivative`, the node gradient held in the gradient mesh is exactly 0 for every
node whose raw gradient, the energy under the outer region minus the energy under the inner
region, has a magnitude below 1e-5; a node that is not degenerate, whose raw gradient is at or
above the floor and whose area weight is positive, holds the scaled gradient
`(scale / totalArea) * rawGradient * areaWeight` whatever the magnitude of that product; and a
component of the scaled gradient projected on the normal whose magnitude is below 1e-5 leaves
the entry of the sparse vector field at 0. -/
theorem ComputeDerivative_floor_before_scaling (env : Collaborators) (f : FunctionalBase)
    (T : Transform) (img : ReferenceImage) (hT : f.m_Transform = some T)
    (himg : f.m_ReferenceImage = some img) (hal : ContoursAligned f)
    (hready : GradientReady f T) :
    ∃ f1 G gs f2, UpdateContour env f = .ok f1 ∧
      gradientLoop env f1.m_NumberOfContours 0 0
          (WeightsMatrix.zero f1.m_NumberOfPoints Dimension) f1 =
        .ok (G, { f1 with m_Gradients := gs }) ∧
      ComputeDerivative env f = .ok f2 ∧
      ∀ c contour pid ci, c < f.m_NumberOfContours →
        f1.m_CurrentContours[c]? = some contour → contour.points[pid]? = some ci →
        ∃ gm, f2.m_Gradients[c]? = some gm ∧
          (|env.GetEnergyAtPoint ci (outerRegion f.m_OuterList c pid) -
              env.GetEnergyAtPoint ci c| < MIN_GRADIENT → gm.pointData pid = 0) ∧
          (c ≠ outerRegion f.m_OuterList c pid →
            ¬ |env.GetEnergyAtPoint ci (outerRegion f.m_OuterList c pid) -
              env.GetEnergyAtPoint ci c| < MIN_GRADIENT →
            0 < pointArea env contour pid →
            gm.pointData pid =
              f.m_Scale / contourArea env f.m_OuterList c contour *
                (env.GetEnergyAtPoint ci (outerRegion f.m_OuterList c pid) -
                  env.GetEnergyAtPoint ci c) * pointArea env contour pid) ∧
          ∀ d : Fin Dimension,
            |scaledGradient f.m_Scale (contourArea env f.m_OuterList c contour)
                (nodeSample env f.m_OuterList c contour pid
                  (firstGlobalId f.m_Priors c + pid) ci) *
              (nodeSample env f.m_OuterList c contour pid
                (firstGlobalId f.m_Priors c + pid) ci).normal d| < MIN_GRADIENT →
            G.get (firstGlobalId f.m_Priors c + pid) d = 0 := by
  obtain ⟨f1, f2, G, gs, hupd, hcd, hloop, hf2, -, -, -, -, -, hnodes⟩ :=
    ComputeDerivative_spec env f T img hT himg hal hready
  refine ⟨f1, G, gs, f2, hupd, hloop, hcd, ?_⟩
  intro c contour pid ci hc hcont hci
  obtain ⟨pd, hgs, -, h3⟩ := hnodes c contour hc hcont
  obtain ⟨hpd, hfield⟩ := h3 pid ci hci
  refine ⟨⟨(env.CopyShape contour).points, pd⟩, by rw [hf2]; exact hgs, ?_, ?_, ?_⟩
  · intro hsmall
    show pd pid = 0
    rw [hpd]
    apply heldGradient_of_grad_zero
    unfold nodeSample
    split
    · show rawGradient env c (outerRegion f.m_OuterList c pid) ci = 0
      unfold rawGradient
      rw [if_pos hsmall]
    · rfl
  · intro hdeg hbig hw
    show pd pid = _
    rw [hpd]
    unfold heldGradient scaledGradient nodeSample
    simp only [hdeg, ne_eq, not_false_eq_true, if_true, rawGradient, hbig, if_false, hw,
      gt_iff_lt]
  · intro d hsmall
    rw [hfield d]
    unfold fieldEntry
    rw [if_neg]
    intro hcon
    have h1 := hcon.2
    have h2 := lt_of_le_of_lt (le_abs_self _) hsmall
    exact absurd h1 (not_lt.mpr (le_of_lt h2))

theorem faintFunctional_aligned : ContoursAligned faintFunctional :=
  restingFunctional_aligned

theorem faintFunctional_ready : GradientReady faintFunctional weightedTransform :=
  readyFunctional_ready

/-- C15, witness: the functional `readyFunctional`. -/
theorem ComputeDerivative_floor_before_scaling_witness :
    ∃ f1 G gs f2, UpdateContour byteEnv readyFunctional = .ok f1 ∧
      gradientLoop byteEnv f1.m_NumberOfContours 0 0
          (WeightsMatrix.zero f1.m_NumberOfPoints Dimension) f1 =
        .ok (G, { f1 with m_Gradients := gs }) ∧
      ComputeDerivative byteEnv readyFunctional = .ok f2 ∧
      ∀ c contour pid ci, c < readyFunctional.m_NumberOfContours →
        f1.m_CurrentContours[c]? = some contour → contour.points[pid]? = some ci →
        ∃ gm, f2.m_Gradients[c]? = some gm ∧
          (|byteEnv.GetEnergyAtPoint ci (outerRegion readyFunctional.m_OuterList c pid) -
              byteEnv.GetEnergyAtPoint ci c| < MIN_GRADIENT → gm.pointData pid = 0) ∧
          (c ≠ outerRegion readyFunctional.m_OuterList c pid →
            ¬ |byteEnv.GetEnergyAtPoint ci (outerRegion readyFunctional.m_OuterList c pid) -
              byteEnv.GetEnergyAtPoint ci c| < MIN_GRADIENT →
            0 < pointArea byteEnv contour pid →
            gm.pointData pid =
              readyFunctional.m_Scale /
                  contourArea byteEnv readyFunctional.m_OuterList c contour *
                (byteEnv.GetEnergyAtPoint ci (outerRegion readyFunctional.m_OuterList c pid) -
                  byteEnv.GetEnergyAtPoint ci c) * pointArea byteEnv contour pid) ∧
          ∀ d : Fin Dimension,
            |scaledGradient readyFunctional.m_Scale
                (contourArea byteEnv readyFunctional.m_OuterList c contour)
                (nodeSample byteEnv readyFunctional.m_OuterList c contour pid
                  (firstGlobalId readyFunctional.m_Priors c + pid) ci) *
              (nodeSample byteEnv readyFunctional.m_OuterList c contour pid
                (firstGlobalId readyFunctional.m_Priors c + pid) ci).normal d| <
                MIN_GRADIENT →
            G.get (firstGlobalId readyFunctional.m_Priors c + pid) d = 0 :=
  ComputeDerivative_floor_before_scaling byteEnv readyFunctional weightedTransform smallImage
    rfl rfl readyFunctional_aligned readyFunctional_ready

/-- C15, counterexample: on `faintFunctional` (scale 1e-5) the second node has the raw gradient
1, the area weight 33/200 of a total area of 99/200, hence the scaled gradient 1/300000, of
magnitude below 1e-5; the node gradient held after `ComputeDerivative` is 1/300000, not 0. -/
theorem ComputeDerivative_faint_gradient_kept :
    faintFunctional.m_Scale = 1 / 100000 ∧
      contourArea byteEnv faintFunctional.m_OuterList 0 triangleMesh = 99 / 200 ∧
      pointArea byteEnv triangleMesh 1 = 33 / 200 ∧
      rawGradient byteEnv 0 (outerRegion faintFunctional.m_OuterList 0 1) ![1, 0, 0] = 1 ∧
      |(1 / 100000 : ℚ) / (99 / 200) * (33 / 200) * 1| < MIN_GRADIENT ∧
      ∃ f2 gm, ComputeDerivative byteEnv faintFunctional = .ok f2 ∧
        f2.m_CurrentContours[0]? = some triangleMesh ∧ triangleMesh.points[1]? = some ![1, 0, 0] ∧
        f2.m_Gradients[0]? = some gm ∧ gm.pointData 1 = 1 / 300000 ∧ gm.pointData 1 ≠ 0 := by
  have harea : ∀ pid, pointArea byteEnv triangleMesh pid = 33 / 200 :=
    fun pid => byteEnv_pointArea triangleMesh pid 0 1 2 rfl rfl
  have hL : faintFunctional.m_OuterList = [[1, 1, 1]] := rfl
  have hraw : rawGradient byteEnv 0 (outerRegion faintFunctional.m_OuterList 0 1) ![1, 0, 0] =
      1 := by
    rw [hL]
    norm_num [rawGradient, outerRegion, byteEnv, MIN_GRADIENT]
  have htotal : contourArea byteEnv faintFunctional.m_OuterList 0 triangleMesh = 99 / 200 := by
    rw [hL]
    have hpts : triangleMesh.points = [![0, 0, 0], ![1, 0, 0], ![0, 1, 0]] := rfl
    simp only [contourArea, hpts, nodeSamples, nodeSample, outerRegion, harea]
    norm_num
  refine ⟨rfl, htotal, harea 1, hraw, ?_, ?_⟩
  · rw [abs_of_pos (by norm_num)]
    norm_num [MIN_GRADIENT]
  · obtain ⟨f1, f2, stored, gs, hupd, hcd, -, hf2, -, -, -, -, -, hnodes⟩ :=
      ComputeDerivative_spec byteEnv faintFunctional weightedTransform smallImage rfl rfl
        faintFunctional_aligned faintFunctional_ready
    obtain ⟨hcc, -⟩ := UpdateContour_still_keeps byteEnv faintFunctional f1 weightedTransform
      smallImage rfl rfl faintFunctional_aligned (fun gpid _ => restingTransform_still gpid) hupd
    have hcont : f1.m_CurrentContours[0]? = some triangleMesh := by
      rw [hcc]
      rfl
    obtain ⟨pd, hgs, -, h3⟩ := hnodes 0 triangleMesh (by decide) hcont
    obtain ⟨hpd, -⟩ := h3 1 ![1, 0, 0] rfl
    have hval : pd 1 = 1 / 300000 := by
      rw [hpd, htotal]
      unfold heldGradient scaledGradient nodeSample
      rw [hL] at hraw ⊢
      have hdeg : (0 : Nat) ≠ outerRegion [[1, 1, 1]] 0 1 := by decide
      simp only [hdeg, ne_eq, not_false_eq_true, if_true, hraw, harea]
      norm_num [faintFunctional]
    refine ⟨f2, ⟨(byteEnv.CopyShape triangleMesh).points, pd⟩, hcd, ?_, rfl, ?_, hval, ?_⟩
    · rw [hf2]
      exact hcont
    · rw [hf2]
      exact hgs
    · show pd 1 ≠ 0
      rw [hval]
      norm_num

/-! ### Sparse vector field -/

theorem pointArea_half (env : Collaborators) (mesh : ContourType) (pid a b c : Nat)
    (harea : ∀ p q r, env.ComputeArea p q r = 1 / 2)
    (hring : mesh.ring pid = [some 0]) (hcell : mesh.cells[0]? = some [a, b, c]) :
    pointArea env mesh pid = 33 / 200 := by
  have h := ComputePointArea_fan env mesh pid (1 / 2) [0] (by simp) hring
    (by
      intro face hface
      simp only [List.mem_singleton] at hface
      subst hface
      exact ⟨a, b, c, hcell, harea _ _ _⟩)
  unfold pointArea
  rw [h]
  simp only [List.length_singleton, Nat.cast_one]
  rw [abs_of_pos (by norm_num)]
  norm_num

/-- C16, the code at the failing input: on `readyFunctional` with the normals of `inwardEnv`,
the second node has the area weight 33/200 of a total area of 99/200, the raw gradient 1 and the
normal `(0, 0, -1)`, so that `v = (1 / (99/200)) * (33/200) * 1 * (-1) = -1/3` in the third
dimension, of magnitude above 1e-5; the entry of the sparse vector field at (1, 2) is 0, not
`v`, and the derivative raster of the third dimension holds 0. -/
theorem ComputeDerivative_drops_negative_component :
    readyFunctional.m_Scale = 1 ∧
      contourArea inwardEnv readyFunctional.m_OuterList 0 triangleMesh = 99 / 200 ∧
      pointArea inwardEnv triangleMesh 1 = 33 / 200 ∧
      rawGradient inwardEnv 0 (outerRegion readyFunctional.m_OuterList 0 1) ![1, 0, 0] = 1 ∧
      inwardEnv.ComputeNormals triangleMesh 1 2 = -1 ∧
      (1 : ℚ) / (99 / 200) * (33 / 200) * 1 * (-1) = -1 / 3 ∧
      |(-1 / 3 : ℚ)| > MIN_GRADIENT ∧
      ∃ f1 stored gs f2, UpdateContour inwardEnv readyFunctional = .ok f1 ∧
        f1.m_CurrentContours[0]? = some triangleMesh ∧
        gradientLoop inwardEnv f1.m_NumberOfContours 0 0
            (WeightsMatrix.zero f1.m_NumberOfPoints Dimension) f1 =
          .ok (stored, { f1 with m_Gradients := gs }) ∧
        ComputeDerivative inwardEnv readyFunctional = .ok f2 ∧
        stored.get 1 2 = 0 ∧ f2.m_Derivative 2 = some [0] := by
  have harea : ∀ pid, pointArea inwardEnv triangleMesh pid = 33 / 200 :=
    fun pid => pointArea_half inwardEnv triangleMesh pid 0 1 2 (fun _ _ _ => rfl) rfl rfl
  have hL : readyFunctional.m_OuterList = [[1, 1, 1]] := rfl
  have hraw : rawGradient inwardEnv 0 (outerRegion readyFunctional.m_OuterList 0 1)
      ![1, 0, 0] = 1 := by
    rw [hL]
    norm_num [rawGradient, outerRegion, inwardEnv, byteEnv, MIN_GRADIENT]
  have hpts : triangleMesh.points = [![0, 0, 0], ![1, 0, 0], ![0, 1, 0]] := rfl
  have htotal : contourArea inwardEnv readyFunctional.m_OuterList 0 triangleMesh =
      99 / 200 := by
    rw [hL]
    simp only [contourArea, hpts, nodeSamples, nodeSample, outerRegion, harea]
    norm_num
  refine ⟨rfl, htotal, harea 1, hraw, rfl, by norm_num, ?_, ?_⟩
  · rw [abs_of_neg (by norm_num)]
    norm_num [MIN_GRADIENT]
  · obtain ⟨f1, f2, stored, gs, hupd, hcd, hloop, hf2, -, -, -, -, -, hnodes⟩ :=
      ComputeDerivative_spec inwardEnv readyFunctional weightedTransform smallImage rfl rfl
        readyFunctional_aligned readyFunctional_ready
    obtain ⟨hcc, -⟩ := UpdateContour_still_keeps inwardEnv readyFunctional f1 weightedTransform
      smallImage rfl rfl readyFunctional_aligned (fun gpid _ => restingTransform_still gpid)
      hupd
    have hcont : f1.m_CurrentContours[0]? = some triangleMesh := by
      rw [hcc]
      rfl
    obtain ⟨pd, -, -, h3⟩ := hnodes 0 triangleMesh (by decide) hcont
    have hfirst : firstGlobalId readyFunctional.m_Priors 0 = 0 := firstGlobalId_zero _
    have hdeg : ∀ pid, pid < 3 → (0 : Nat) ≠ outerRegion [[1, 1, 1]] 0 pid := by
      intro pid hpid
      interval_cases pid <;> decide
    have h0 : stored.get 0 2 = 0 := by
      have h := (h3 0 ![0, 0, 0] rfl).2 2
      rw [hfirst] at h
      simp only [Nat.add_zero, zero_add] at h
      have hc : ((2 : Fin Dimension) : Nat) = 2 := rfl
      rw [hc] at h
      rw [h]
      apply fieldEntry_of_grad_zero
      rw [hL]
      unfold nodeSample
      rw [if_pos (hdeg 0 (by decide))]
      norm_num [rawGradient, outerRegion, inwardEnv, byteEnv, MIN_GRADIENT]
    have h2 : stored.get 2 2 = 0 := by
      have h := (h3 2 ![0, 1, 0] rfl).2 2
      rw [hfirst] at h
      simp only [zero_add] at h
      have hc : ((2 : Fin Dimension) : Nat) = 2 := rfl
      rw [hc] at h
      rw [h]
      apply fieldEntry_of_grad_zero
      rw [hL]
      unfold nodeSample
      rw [if_pos (hdeg 2 (by decide))]
      norm_num [rawGradient, outerRegion, inwardEnv, byteEnv, MIN_GRADIENT]
    have h1 : stored.get 1 2 = 0 := by
      have h := (h3 1 ![1, 0, 0] rfl).2 2
      rw [hfirst] at h
      simp only [zero_add] at h
      have hc : ((2 : Fin Dimension) : Nat) = 2 := rfl
      rw [hc] at h
      rw [h, htotal]
      rw [hL] at hraw ⊢
      unfold fieldEntry scaledGradient nodeSample
      rw [if_pos (hdeg 1 (by decide))]
      simp only [hraw, harea]
      have hn : inwardEnv.ComputeNormals triangleMesh 1 2 = -1 := rfl
      rw [hn]
      norm_num [readyFunctional, restingFunctional, staleFunctional, AddShapePrior,
        SetReferenceImage, FunctionalBase.New, MIN_GRADIENT]
    refine ⟨f1, stored, gs, f2, hupd, hcont, hloop, hcd, h1, ?_⟩
    rw [hf2]
    show some (derivativeRaster readyFunctional weightedTransform stored 2) = some [0]
    congr 1
    have hlen : ((readyFunctional.m_Derivative 2).getD []).length = 1 := rfl
    have hnodes1 : readyFunctional.m_NumberOfNodes = 1 := rfl
    have hrows : weightedTransform.m_Phi.rows = 3 := rfl
    unfold derivativeRaster
    rw [hlen, hnodes1, hrows]
    have hc : ((2 : Fin Dimension) : Nat) = 2 := rfl
    simp only [List.range_succ, List.range_zero, List.nil_append, List.map_cons, List.map_nil,
      Nat.lt_one_iff, if_true, Finset.sum_range_succ, Finset.sum_range_zero, hc, h0, h1, h2]
    norm_num

/-! ### Derivative rasters -/

theorem put_shape (m stored : WeightsMatrix) (r c : Nat) (v : ℚ)
    (h : m.put r c v = .ok stored) : stored.rows = m.rows ∧ stored.cols = m.cols := by
  unfold WeightsMatrix.put at h
  split at h
  · simp only [Except.ok.injEq] at h
    subst h
    exact ⟨rfl, rfl⟩
  · exact absurd h (by simp)

theorem putComponents_shape (gid : Nat) (ni : VectorType) :
    ∀ (dims : List (Fin Dimension)) (gv stored : WeightsMatrix),
      putComponents gid ni dims gv = .ok stored →
      stored.rows = gv.rows ∧ stored.cols = gv.cols := by
  intro dims
  induction dims with
  | nil =>
    intro gv stored h
    simp only [putComponents, Except.ok.injEq] at h
    subst h
    exact ⟨rfl, rfl⟩
  | cons dim rest ih =>
    intro gv stored h
    unfold putComponents at h
    split at h
    · split at h
      · exact absurd h (by simp)
      · rename_i stored1 hput
        obtain ⟨h1, h2⟩ := put_shape _ _ _ _ _ hput
        obtain ⟨h3, h4⟩ := ih _ stored h
        exact ⟨by rw [h3, h1], by rw [h4, h2]⟩
    · exact ih gv stored h

theorem projectSamples_shape (scaler : ℚ) :
    ∀ (samples : List GradientSample) (gv stored : WeightsMatrix) (gm gm' : ShapeGradientType),
      projectSamples scaler samples (gv, gm) = .ok (stored, gm') →
      stored.rows = gv.rows ∧ stored.cols = gv.cols := by
  intro samples
  induction samples with
  | nil =>
    intro gv stored gm gm' h
    simp only [projectSamples, Except.ok.injEq, Prod.mk.injEq] at h
    rw [← h.1]
    exact ⟨rfl, rfl⟩
  | cons s rest ih =>
    intro gv stored gm gm' h
    unfold projectSamples at h
    split at h
    · dsimp only at h
      split at h
      · exact absurd h (by simp)
      · rename_i stored1 hput
        obtain ⟨h1, h2⟩ := putComponents_shape _ _ _ _ _ hput
        obtain ⟨h3, h4⟩ := ih _ _ _ _ h
        exact ⟨by rw [h3, h1], by rw [h4, h2]⟩
    · exact ih _ _ _ _ h

/-- The contour loop of `ComputeDerivative` keeps the shape of the sparse vector field. -/
theorem gradientLoop_shape (env : Collaborators) (k : Nat) :
    ∀ (contid cpid : Nat) (gv stored : WeightsMatrix) (g g' : FunctionalBase),
      gradientLoop env k contid cpid gv g = .ok (stored, g') →
      stored.rows = gv.rows ∧ stored.cols = gv.cols := by
  induction k with
  | zero =>
    intro contid cpid gv stored g g' h
    simp only [gradientLoop, Except.ok.injEq, Prod.mk.injEq] at h
    rw [← h.1]
    exact ⟨rfl, rfl⟩
  | succ k ih =>
    intro contid cpid gv stored g g' h
    unfold gradientLoop at h
    split at h
    · exact absurd h (by simp)
    · split at h
      · exact absurd h (by simp)
      · dsimp only at h
        split at h
        · exact absurd h (by simp)
        · split at h
          · exact absurd h (by simp)
          · rename_i stored1 written hproj
            obtain ⟨h1, h2⟩ := projectSamples_shape _ _ _ _ _ _ hproj
            obtain ⟨h3, h4⟩ := ih _ _ _ _ _ _ h
            exact ⟨by rw [h3, h1], by rw [h4, h2]⟩

/-- C17 (as amended). With a basis matrix `phi` that has a row per registered off-grid sample
(`numberOfPoints` of them) and a column per control node, `ComputeDerivative` returns and, for
every control node `r` and every dimension `d`, cell `r` of the derivative raster `d` is the
`(r, d)` entry of the product of the transpose of `phi` by the sparse vector field `G` that the
contour loop assembled (a row per global node index); a cell for which the product is null
holds 0, as does every cell beyond the control nodes, so that no earlier value survives. -/
theorem ComputeDerivative_rasters_product (env : Collaborators) (f : FunctionalBase)
    (T : Transform) (img : ReferenceImage) (hT : f.m_Transform = some T)
    (himg : f.m_ReferenceImage = some img) (hal : ContoursAligned f)
    (hready : GradientReady f T) (hsamples : T.m_Phi.rows = f.m_NumberOfPoints)
    (hcontrol : T.m_Phi.cols = f.m_NumberOfNodes) :
    ∃ f1 G gs f2 product, UpdateContour env f = .ok f1 ∧
      gradientLoop env f1.m_NumberOfContours 0 0
          (WeightsMatrix.zero f1.m_NumberOfPoints Dimension) f1 =
        .ok (G, { f1 with m_Gradients := gs }) ∧
      ComputeDerivative env f = .ok f2 ∧
      G.rows = f.m_NumberOfPoints ∧ G.cols = Dimension ∧
      matrixProduct T.m_Phi.transpose G = some product ∧
      product.rows = f.m_NumberOfNodes ∧ product.cols = Dimension ∧
      ∀ d : Fin Dimension, ∃ raster, f2.m_Derivative d = some raster ∧
        raster.length = ((f.m_Derivative d).getD []).length ∧
        (∀ r, r < f.m_NumberOfNodes → raster[r]? = some (product.get r d)) ∧
        (∀ r, r < f.m_NumberOfNodes → product.get r d = 0 → raster[r]? = some 0) ∧
        ∀ r, f.m_NumberOfNodes ≤ r → r < raster.length → raster[r]? = some 0 := by
  obtain ⟨f1, f2, G, gs, hupd, hcd, hloop, hf2, -, -, -, -, -, -⟩ :=
    ComputeDerivative_spec env f T img hT himg hal hready
  obtain ⟨hr, hc⟩ := gradientLoop_shape env _ _ _ _ _ _ _ hloop
  have hpts : f1.m_NumberOfPoints = f.m_NumberOfPoints := by
    obtain ⟨cc, gg, hrun, -⟩ := UpdateContourLocals_spec env f T img hT himg hal
    unfold UpdateContour at hupd
    rw [hrun] at hupd
    simp only [Except.ok.injEq] at hupd
    rw [← hupd]
  have hrows : G.rows = f.m_NumberOfPoints := by
    rw [hr]
    exact hpts
  have hcols : G.cols = Dimension := hc
  have hconf : T.m_Phi.transpose.cols = G.rows := by
    rw [hrows, ← hsamples]
    rfl
  have hlenD : ∀ d : Fin Dimension, ∀ r,
      r < ((f.m_Derivative d).getD []).length →
      (derivativeRaster f T G d)[r]? =
        some (if r < f.m_NumberOfNodes then
          ∑ k ∈ Finset.range T.m_Phi.rows, T.m_Phi.get k r * G.get k d else 0) := by
    intro d r hlt
    unfold derivativeRaster
    rw [List.getElem?_map, List.getElem?_range hlt]
    rfl
  obtain ⟨hder, -, -, -⟩ := hready
  refine ⟨f1, G, gs, f2, ⟨T.m_Phi.transpose.rows, G.cols, fun r c =>
    ∑ k ∈ Finset.range T.m_Phi.transpose.cols, T.m_Phi.transpose.get r k * G.get k c⟩,
    hupd, hloop, hcd, hrows, hcols, ?_, hcontrol, hcols, ?_⟩
  · unfold matrixProduct
    rw [if_pos hconf]
  · intro d
    obtain ⟨buf, hbuf, hnodes⟩ := hder d
    have hlen : ((f.m_Derivative d).getD []).length = buf.length := by
      rw [hbuf]
      rfl
    refine ⟨derivativeRaster f T G d, by rw [hf2], derivativeRaster_length f T G d, ?_, ?_, ?_⟩
    · intro r hrn
      rw [hlenD d r (by omega), if_pos hrn]
      rfl
    · intro r hrn hzero
      rw [hlenD d r (by omega), if_pos hrn]
      exact congrArg some hzero
    · intro r hge hlt
      rw [derivativeRaster_length] at hlt
      rw [hlenD d r hlt, if_neg (by omega)]

/-- C17, witness: the functional `readyFunctional`, whose basis matrix has three rows, one per
sample, and one column, for the control node. -/
theorem ComputeDerivative_rasters_product_witness :
    weightedTransform.m_Phi.rows = readyFunctional.m_NumberOfPoints ∧
      weightedTransform.m_Phi.cols = readyFunctional.m_NumberOfNodes ∧
      ∃ f1 G gs f2 product, UpdateContour byteEnv readyFunctional = .ok f1 ∧
        gradientLoop byteEnv f1.m_NumberOfContours 0 0
            (WeightsMatrix.zero f1.m_NumberOfPoints Dimension) f1 =
          .ok (G, { f1 with m_Gradients := gs }) ∧
        ComputeDerivative byteEnv readyFunctional = .ok f2 ∧
        G.rows = readyFunctional.m_NumberOfPoints ∧ G.cols = Dimension ∧
        matrixProduct weightedTransform.m_Phi.transpose G = some product ∧
        product.rows = readyFunctional.m_NumberOfNodes ∧ product.cols = Dimension ∧
        ∀ d : Fin Dimension, ∃ raster, f2.m_Derivative d = some raster ∧
          raster.length = ((readyFunctional.m_Derivative d).getD []).length ∧
          (∀ r, r < readyFunctional.m_NumberOfNodes → raster[r]? = some (product.get r d)) ∧
          (∀ r, r < readyFunctional.m_NumberOfNodes → product.get r d = 0 →
            raster[r]? = some 0) ∧
          ∀ r, readyFunctional.m_NumberOfNodes ≤ r → r < raster.length → raster[r]? = some 0 :=
  ⟨rfl, rfl, ComputeDerivative_rasters_product byteEnv readyFunctional weightedTransform
    smallImage rfl rfl readyFunctional_aligned readyFunctional_ready rfl rfl⟩

theorem rowsAsNodesFunctional_ready : GradientReady rowsAsNodesFunctional rowsAsNodesTransform := by
  obtain ⟨h1, -, h3, h4⟩ := readyFunctional_ready
  exact ⟨h1, by decide, h3, h4⟩

/-- C17, counterexample: the basis matrix of `rowsAsNodesFunctional` has a row per control node
(one) and a column per registered sample (three), as the statement has it. The sparse vector
field `G` has three rows, so that the transpose of `phi`, with one column, has no product with
`G`; the product of `phi` itself by `G` has 1/3 at (0, 2); and `ComputeDerivative` leaves 0 in
the cell of the control node in the raster of the third dimension. -/
theorem ComputeDerivative_rows_as_control_nodes :
    rowsAsNodesFunctional.m_Transform = some rowsAsNodesTransform ∧
      rowsAsNodesTransform.m_Phi.rows = rowsAsNodesFunctional.m_NumberOfNodes ∧
      rowsAsNodesTransform.m_Phi.cols = rowsAsNodesTransform.m_NumberOfSamples ∧
      rowsAsNodesTransform.m_NumberOfSamples = rowsAsNodesFunctional.m_NumberOfPoints ∧
      ∃ f1 G gs f2 product, UpdateContour byteEnv rowsAsNodesFunctional = .ok f1 ∧
        gradientLoop byteEnv f1.m_NumberOfContours 0 0
            (WeightsMatrix.zero f1.m_NumberOfPoints Dimension) f1 =
          .ok (G, { f1 with m_Gradients := gs }) ∧
        ComputeDerivative byteEnv rowsAsNodesFunctional = .ok f2 ∧
        G.rows = 3 ∧ rowsAsNodesTransform.m_Phi.transpose.cols = 1 ∧
        matrixProduct rowsAsNodesTransform.m_Phi.transpose G = none ∧
        matrixProduct rowsAsNodesTransform.m_Phi G = some product ∧
        product.get 0 2 = 1 / 3 ∧ f2.m_Derivative 2 = some [0] := by
  refine ⟨rfl, rfl, rfl, rfl, ?_⟩
  have harea : ∀ pid, pointArea byteEnv triangleMesh pid = 33 / 200 :=
    fun pid => byteEnv_pointArea triangleMesh pid 0 1 2 rfl rfl
  have hL : rowsAsNodesFunctional.m_OuterList = [[1, 1, 1]] := rfl
  have hpts : triangleMesh.points = [![0, 0, 0], ![1, 0, 0], ![0, 1, 0]] := rfl
  have htotal : contourArea byteEnv rowsAsNodesFunctional.m_OuterList 0 triangleMesh =
      99 / 200 := by
    rw [hL]
    simp only [contourArea, hpts, nodeSamples, nodeSample, outerRegion, harea]
    norm_num
  obtain ⟨f1, f2, G, gs, hupd, hcd, hloop, hf2, -, -, -, -, -, hnodes⟩ :=
    ComputeDerivative_spec byteEnv rowsAsNodesFunctional rowsAsNodesTransform smallImage rfl rfl
      readyFunctional_aligned rowsAsNodesFunctional_ready
  obtain ⟨hcc, -⟩ := UpdateContour_still_keeps byteEnv rowsAsNodesFunctional f1
    rowsAsNodesTransform smallImage rfl rfl readyFunctional_aligned
    (fun gpid _ => restingTransform_still gpid) hupd
  have hcont : f1.m_CurrentContours[0]? = some triangleMesh := by
    rw [hcc]
    rfl
  have hp1 : f1.m_NumberOfPoints = 3 := by
    obtain ⟨gg, hrun, -⟩ := UpdateContour_still byteEnv rowsAsNodesFunctional
      rowsAsNodesTransform smallImage rfl rfl readyFunctional_aligned
      (fun gpid _ => restingTransform_still gpid)
    rw [hrun] at hupd
    simp only [Except.ok.injEq] at hupd
    rw [← hupd]
    rfl
  obtain ⟨hGr, -⟩ := gradientLoop_shape byteEnv _ _ _ _ _ _ _ hloop
  have hrows : G.rows = 3 := by
    rw [hGr]
    exact hp1
  obtain ⟨pd, -, -, h3⟩ := hnodes 0 triangleMesh (by decide) hcont
  have hfirst : firstGlobalId rowsAsNodesFunctional.m_Priors 0 = 0 := firstGlobalId_zero _
  have hdeg : ∀ pid, pid < 3 → (0 : Nat) ≠ outerRegion [[1, 1, 1]] 0 pid := by
    intro pid hpid
    interval_cases pid <;> decide
  have hc : ((2 : Fin Dimension) : Nat) = 2 := rfl
  have h0 : G.get 0 2 = 0 := by
    have h := (h3 0 ![0, 0, 0] rfl).2 2
    rw [hfirst] at h
    simp only [Nat.add_zero, zero_add] at h
    rw [hc] at h
    rw [h]
    apply fieldEntry_of_grad_zero
    rw [hL]
    unfold nodeSample
    rw [if_pos (hdeg 0 (by decide))]
    norm_num [rawGradient, outerRegion, byteEnv, MIN_GRADIENT]
  have h2 : G.get 2 2 = 0 := by
    have h := (h3 2 ![0, 1, 0] rfl).2 2
    rw [hfirst] at h
    simp only [zero_add] at h
    rw [hc] at h
    rw [h]
    apply fieldEntry_of_grad_zero
    rw [hL]
    unfold nodeSample
    rw [if_pos (hdeg 2 (by decide))]
    norm_num [rawGradient, outerRegion, byteEnv, MIN_GRADIENT]
  have h1 : G.get 1 2 = 1 / 3 := by
    have h := (h3 1 ![1, 0, 0] rfl).2 2
    rw [hfirst] at h
    simp only [zero_add] at h
    rw [hc] at h
    rw [h, htotal, hL]
    have hraw : rawGradient byteEnv 0 (outerRegion [[1, 1, 1]] 0 1) ![1, 0, 0] = 1 := by
      norm_num [rawGradient, outerRegion, byteEnv, MIN_GRADIENT]
    unfold fieldEntry scaledGradient nodeSample
    rw [if_pos (hdeg 1 (by decide))]
    simp only [hraw, harea]
    have hn : byteEnv.ComputeNormals triangleMesh 1 2 = 1 := rfl
    rw [hn]
    norm_num [rowsAsNodesFunctional, readyFunctional, restingFunctional, staleFunctional,
      AddShapePrior, SetReferenceImage, FunctionalBase.New, MIN_GRADIENT]
  refine ⟨f1, G, gs, f2, ⟨1, G.cols, fun r c =>
    ∑ k ∈ Finset.range 3, rowsAsNodesTransform.m_Phi.get r k * G.get k c⟩,
    hupd, hloop, hcd, hrows, rfl, ?_, ?_, ?_, ?_⟩
  · unfold matrixProduct
    rw [if_neg]
    rw [hrows]
    decide
  · unfold matrixProduct
    rw [if_pos (by rw [hrows]; rfl)]
    rfl
  · show ∑ k ∈ Finset.range 3, rowsAsNodesTransform.m_Phi.get 0 k * G.get k 2 = 1 / 3
    have hphi : ∀ k, rowsAsNodesTransform.m_Phi.get 0 k = 1 := fun _ => rfl
    simp only [Finset.sum_range_succ, Finset.sum_range_zero, hphi, h0, h1, h2]
    norm_num
  · rw [hf2]
    show some (derivativeRaster rowsAsNodesFunctional rowsAsNodesTransform G 2) = some [0]
    congr 1
    have hlen : ((rowsAsNodesFunctional.m_Derivative 2).getD []).length = 1 := rfl
    have hnodes1 : rowsAsNodesFunctional.m_NumberOfNodes = 1 := rfl
    have hr1 : rowsAsNodesTransform.m_Phi.rows = 1 := rfl
    unfold derivativeRaster
    rw [hlen, hnodes1, hr1]
    simp only [List.range_succ, List.range_zero, List.nil_append, List.map_cons, List.map_nil,
      Nat.lt_one_iff, if_true, Finset.sum_range_succ, Finset.sum_range_zero, hc, h0]
    norm_num

/-! ### Degenerate nodes -/

theorem outerOfNodes_spec (env : Collaborators) (regions : ROIType) (normals : Nat → VectorType) :
    ∀ (pts : List PointType) (pid : Nat) (vect : List Nat), pid + pts.length ≤ vect.length →
      (outerOfNodes env regions normals pts pid vect).length = vect.length ∧
      (∀ i, i < pid → (outerOfNodes env regions normals pts pid vect)[i]? = vect[i]?) ∧
      ∀ j ci, pts[j]? = some ci →
        (outerOfNodes env regions normals pts pid vect)[pid + j]? =
          some (env.InterpolateROI regions (fun i => ci i - normals (pid + j) i)) := by
  intro pts
  induction pts with
  | nil =>
    intro pid vect _
    refine ⟨rfl, fun _ _ => rfl, ?_⟩
    intro j ci h
    simp at h
  | cons c rest ih =>
    intro pid vect hlen
    simp only [List.length_cons] at hlen
    obtain ⟨h1, h2, h3⟩ := ih (pid + 1)
      (vect.set pid (env.InterpolateROI regions (fun i => c i - normals pid i)))
      (by rw [List.length_set]; omega)
    have hunf : outerOfNodes env regions normals (c :: rest) pid vect =
        outerOfNodes env regions normals rest (pid + 1)
          (vect.set pid (env.InterpolateROI regions (fun i => c i - normals pid i))) := rfl
    rw [hunf]
    refine ⟨by rw [h1, List.length_set], ?_, ?_⟩
    · intro i hi
      rw [h2 i (by omega), List.getElem?_set_ne (by omega)]
    · intro j ci hj
      cases j with
      | zero =>
        simp only [List.getElem?_cons_zero, Option.some.injEq] at hj
        subst hj
        simp only [Nat.add_zero]
        rw [h2 pid (by omega), List.getElem?_set_self (by omega)]
      | succ j =>
        simp only [List.getElem?_cons_succ] at hj
        have := h3 j ci hj
        have hidx : pid + 1 + j = pid + (j + 1) := by omega
        rw [hidx] at this
        exact this

/-- The contour loop of `ComputeOuterRegions` in closed form: it appends one vector per contour,
which holds for every node the label sampled at the node minus its normal. -/
theorem outerLoop_spec (env : Collaborators) (regions : ROIType) (k : Nat) :
    ∀ (contid : Nat) (outerVect : List Nat) (f : FunctionalBase),
      contid + k ≤ f.m_CurrentContours.length →
      ∃ added, outerLoop env regions k contid outerVect f =
          .ok { f with m_OuterList := f.m_OuterList ++ added } ∧
        added.length = k ∧
        ∀ j contour, j < k → f.m_CurrentContours[contid + j]? = some contour →
          ∃ vect, added[j]? = some vect ∧ vect.length = contour.points.length ∧
            ∀ pid ci, contour.points[pid]? = some ci →
              vect[pid]? = some (env.InterpolateROI regions
                (fun i => ci i - env.ComputeNormals contour pid i)) := by
  induction k with
  | zero =>
    intro contid outerVect f _
    refine ⟨[], ?_, rfl, fun j contour hj => by omega⟩
    simp [outerLoop]
  | succ k ih =>
    intro contid outerVect f hlen
    have hc : f.m_CurrentContours[contid]? = some f.m_CurrentContours[contid] :=
      List.getElem?_eq_getElem (by omega)
    let filled := outerOfNodes env regions (env.ComputeNormals f.m_CurrentContours[contid])
      f.m_CurrentContours[contid].points 0
      (resize outerVect f.m_CurrentContours[contid].points.length 0)
    obtain ⟨h1, -, h3⟩ := outerOfNodes_spec env regions
      (env.ComputeNormals f.m_CurrentContours[contid]) f.m_CurrentContours[contid].points 0
      (resize outerVect f.m_CurrentContours[contid].points.length 0)
      (by rw [resize_length]; omega)
    obtain ⟨added, hrun, hl, hin⟩ := ih (contid + 1) filled
      { f with m_OuterList := f.m_OuterList ++ [filled] }
      (by show contid + 1 + k ≤ f.m_CurrentContours.length; omega)
    refine ⟨filled :: added, ?_, by simp [hl], ?_⟩
    · rw [outerLoop]
      simp only [hc]
      rw [hrun]
      simp
    · intro j contour hj hcont
      cases j with
      | zero =>
        rw [Nat.add_zero, hc] at hcont
        simp only [Option.some.injEq] at hcont
        subst hcont
        refine ⟨filled, by simp, by rw [h1, resize_length], ?_⟩
        intro pid ci hci
        have := h3 pid ci hci
        simp only [zero_add] at this
        exact this
      | succ j =>
        have hidx : contid + 1 + j = contid + (j + 1) := by omega
        obtain ⟨vect, hv1, hv2, hv3⟩ := hin j contour (by omega) (by
          show f.m_CurrentContours[contid + 1 + j]? = some contour
          rw [hidx]
          exact hcont)
        exact ⟨vect, by simpa using hv1, hv2, hv3⟩

/-- The call of `ComputeOuterRegions` with more than two regions on a functional whose outer
list is empty: the outer region recorded for a node is the label sampled at the node minus its
normal. -/
theorem ComputeOuterRegions_spec (env : Collaborators) (f : FunctionalBase) (regions : ROIType)
    (hR : 2 < f.m_NumberOfRegions) (hreg : f.m_CurrentRegions = some regions)
    (hfresh : f.m_OuterList = []) (hcc : f.m_NumberOfContours ≤ f.m_CurrentContours.length) :
    ∃ L, ComputeOuterRegions env f = .ok { f with m_OuterList := L } ∧
      ∀ c contour, c < f.m_NumberOfContours → f.m_CurrentContours[c]? = some contour →
        ∃ vect, L[c]? = some vect ∧ vect.length = contour.points.length ∧
          ∀ pid ci, contour.points[pid]? = some ci →
            outerRegion L c pid = env.InterpolateROI regions
              (fun i => ci i - env.ComputeNormals contour pid i) := by
  obtain ⟨added, hrun, hl, hin⟩ := outerLoop_spec env regions f.m_NumberOfContours 0 [] f
    (by omega)
  refine ⟨added, ?_, ?_⟩
  · rw [hfresh, List.nil_append, hreg] at hrun
    unfold ComputeOuterRegions
    rw [if_pos hR, hreg]
    show outerLoop env regions f.m_NumberOfContours 0 [] f = _
    exact hrun
  · intro c contour hc hcont
    obtain ⟨vect, hv1, hv2, hv3⟩ := hin c contour hc (by rw [zero_add]; exact hcont)
    refine ⟨vect, hv1, hv2, ?_⟩
    intro pid ci hci
    have hcl : c < added.length := by omega
    have hpl : pid < vect.length := by
      by_contra hcon
      rw [List.getElem?_eq_none (by omega)] at hci
      exact absurd hci (by simp)
    have hv := hv3 pid ci hci
    unfold outerRegion
    simp only [List.getD_eq_getElem?_getD, hv1, hv, Option.getD_some]

/-- C14 (as amended). `ComputeOuterRegions` records for every node one label, the one sampled at
the node minus its normal, and `ComputeDerivative` treats as degenerate the nodes for which that
recorded outer region is the index of their own contour, whatever the label sampled at the node
plus its normal is: the record of such a node has a null raw gradient, a null area weight and a
null normal, so that it adds nothing to the total area, its node gradient is 0 and its row of
the sparse vector field is null. -/
theorem ComputeDerivative_degenerate_nodes (env : Collaborators) (f0 : FunctionalBase)
    (T : Transform) (img : ReferenceImage) (regions : ROIType)
    (hR : 2 < f0.m_NumberOfRegions) (hreg : f0.m_CurrentRegions = some regions)
    (hfresh : f0.m_OuterList = []) (hT : f0.m_Transform = some T)
    (himg : f0.m_ReferenceImage = some img) (hal : ContoursAligned f0)
    (hder : ∀ i, ∃ buf, f0.m_Derivative i = some buf ∧ f0.m_NumberOfNodes ≤ buf.length)
    (hphi : f0.m_NumberOfNodes ≤ T.m_Phi.cols) (hpts : totalNodes f0 ≤ f0.m_NumberOfPoints)
    (hfan : ∀ c contour, c < f0.m_NumberOfContours → f0.m_CurrentContours[c]? = some contour →
      ∀ pid, pid < contour.points.length → FanWellFormed contour pid) :
    ∃ f f1 G gs f2, ComputeOuterRegions env f0 = .ok f ∧ UpdateContour env f = .ok f1 ∧
      gradientLoop env f1.m_NumberOfContours 0 0
          (WeightsMatrix.zero f1.m_NumberOfPoints Dimension) f1 =
        .ok (G, { f1 with m_Gradients := gs }) ∧
      ComputeDerivative env f = .ok f2 ∧
      ∀ c contour0 pid ci0, c < f0.m_NumberOfContours →
        f0.m_CurrentContours[c]? = some contour0 → contour0.points[pid]? = some ci0 →
        outerRegion f.m_OuterList c pid =
          env.InterpolateROI regions (fun i => ci0 i - env.ComputeNormals contour0 pid i) ∧
        (env.InterpolateROI regions (fun i => ci0 i - env.ComputeNormals contour0 pid i) = c →
          ∃ contour loc gm, f1.m_CurrentContours[c]? = some contour ∧
            sampleNodes env f1 c contour contour.points 0
                ⟨[], 0, 0, firstGlobalId f0.m_Priors c⟩ = .ok loc ∧
            loc.sample[pid]? =
              some ⟨0, 0, fun _ => 0, pid, firstGlobalId f0.m_Priors c + pid, c⟩ ∧
            loc.totalArea = (loc.sample.map fun s => s.w).sum ∧
            f2.m_Gradients[c]? = some gm ∧ gm.pointData pid = 0 ∧
            ∀ d : Fin Dimension, G.get (firstGlobalId f0.m_Priors c + pid) d = 0) := by
  obtain ⟨ha1, ha2, ha3, ha4⟩ := hal
  obtain ⟨L, hcor, houter⟩ := ComputeOuterRegions_spec env f0 regions hR hreg hfresh ha2
  let f : FunctionalBase := { f0 with m_OuterList := L }
  have hal' : ContoursAligned f := ⟨ha1, ha2, ha3, ha4⟩
  have hready : GradientReady f T := by
    refine ⟨hder, hphi, hpts, ?_⟩
    intro c contour hc hcont
    obtain ⟨vect, hv1, hv2, -⟩ := houter c contour hc hcont
    exact ⟨vect, hv1, by omega, hfan c contour hc hcont⟩
  obtain ⟨f1, f2, G, gs, hupd, hcd, hloop, hf2, hL1, -, -, hcont1, -, hnodes⟩ :=
    ComputeDerivative_spec env f T img hT himg hal' hready
  refine ⟨f, f1, G, gs, f2, hcor, hupd, hloop, hcd, ?_⟩
  intro c contour0 pid ci0 hc hcont0 hci0
  obtain ⟨vect, hv1, hv2, hv3⟩ := houter c contour0 hc hcont0
  refine ⟨hv3 pid ci0 hci0, ?_⟩
  intro hsame
  have hrec : outerRegion L c pid = c := by
    rw [hv3 pid ci0 hci0]
    exact hsame
  obtain ⟨prior, cur, hp, hq, hr⟩ := hcont1 c hc
  have hq' : f0.m_CurrentContours[c]? = some cur := hq
  rw [hcont0] at hq'
  simp only [Option.some.injEq] at hq'
  subst hq'
  have hpid : pid < contour0.points.length := by
    by_contra hcon
    rw [List.getElem?_eq_none (by omega)] at hci0
    exact absurd hci0 (by simp)
  have hlenp : (commitList f T (firstGlobalId f.m_Priors c) prior.points
      contour0.points).length = contour0.points.length := commitList_length _ _ _ _ _
  have hci : (commitList f T (firstGlobalId f.m_Priors c) prior.points contour0.points)[pid]? =
      some (commitList f T (firstGlobalId f.m_Priors c) prior.points contour0.points)[pid] :=
    List.getElem?_eq_getElem (by omega)
  have hout1 : f1.m_OuterList[c]? = some vect := by
    rw [hL1]
    exact hv1
  let moved : ContourType :=
    { contour0 with
      points := commitList f T (firstGlobalId f.m_Priors c) prior.points contour0.points }
  have hfan' : ∀ p, 0 ≤ p → p < 0 + moved.points.length →
      c ≠ outerRegion f1.m_OuterList c p → FanWellFormed moved p := by
    intro p _ hp' _
    have hp'' : p < contour0.points.length := by
      rw [zero_add] at hp'
      exact lt_of_lt_of_eq hp' hlenp
    exact hfan c contour0 hc hcont0 p hp''
  obtain ⟨loc, hsample, hs, hta, -⟩ := sampleNodes_spec env f1 c moved vect hout1
    moved.points 0 ⟨[], 0, 0, firstGlobalId f0.m_Priors c⟩
    (by
      rw [zero_add]
      exact le_of_eq (hlenp.trans hv2.symm))
    hfan'
  simp only [List.nil_append, zero_add] at hs hta
  have hzero : nodeSample env L c moved pid (firstGlobalId f0.m_Priors c + pid)
      (commitList f T (firstGlobalId f.m_Priors c) prior.points contour0.points)[pid] =
      ⟨0, 0, fun _ => 0, pid, firstGlobalId f0.m_Priors c + pid, c⟩ := by
    unfold nodeSample
    rw [if_neg (by rw [hrec]; simp)]
  obtain ⟨pd, hgs, -, h3⟩ := hnodes c _ hc hr
  obtain ⟨hpd, hfield⟩ := h3 pid _ hci
  refine ⟨_, loc, ⟨_, pd⟩, hr, hsample, ?_, ?_, by rw [hf2]; exact hgs, ?_, ?_⟩
  · rw [hs, hL1]
    have := nodeSamples_getElem? env L c moved moved.points 0 (firstGlobalId f0.m_Priors c)
      pid _ hci
    rw [zero_add] at this
    rw [this, hzero]
  · rw [hta, hs]
  · show pd pid = 0
    rw [hpd]
    apply heldGradient_of_grad_zero
    show (nodeSample env L c _ pid (firstGlobalId f0.m_Priors c + pid) _).grad = 0
    rw [hzero]
  · intro d
    show G.get (firstGlobalId f.m_Priors c + pid) d = 0
    rw [hfield d]
    apply fieldEntry_of_grad_zero
    show (nodeSample env L c _ pid (firstGlobalId f0.m_Priors c + pid) _).grad = 0
    rw [hzero]

theorem nestedFunctional_aligned : ContoursAligned nestedFunctional := by
  refine ⟨by decide, by decide, by decide, ?_⟩
  intro c prior cur hc hp hq
  have h1 : nestedFunctional.m_Priors = [triangleMesh, triangleMesh] := rfl
  have h2 : nestedFunctional.m_CurrentContours = [triangleMesh, triangleMesh] := rfl
  have hn : nestedFunctional.m_NumberOfContours = 2 := rfl
  rw [h1] at hp
  rw [h2] at hq
  rw [hn] at hc
  interval_cases c
  · simp only [List.getElem?_cons_zero, Option.some.injEq] at hp hq
    rw [← hp, ← hq]
  · simp only [List.getElem?_cons_succ, List.getElem?_cons_zero, Option.some.injEq] at hp hq
    rw [← hp, ← hq]

theorem nestedFunctional_contours (c : Nat) (contour : ContourType)
    (h : nestedFunctional.m_CurrentContours[c]? = some contour) : contour = triangleMesh := by
  have h2 : nestedFunctional.m_CurrentContours = [triangleMesh, triangleMesh] := rfl
  rw [h2] at h
  rcases c with _ | _ | c
  · simpa using h.symm
  · simpa using h.symm
  · simp at h

/-- C14, witness: the functional `nestedFunctional`, with two contours and three regions. -/
theorem ComputeDerivative_degenerate_nodes_witness :
    ∃ f f1 G gs f2, ComputeOuterRegions byteEnv nestedFunctional = .ok f ∧
      UpdateContour byteEnv f = .ok f1 ∧
      gradientLoop byteEnv f1.m_NumberOfContours 0 0
          (WeightsMatrix.zero f1.m_NumberOfPoints Dimension) f1 =
        .ok (G, { f1 with m_Gradients := gs }) ∧
      ComputeDerivative byteEnv f = .ok f2 ∧
      ∀ c contour0 pid ci0, c < nestedFunctional.m_NumberOfContours →
        nestedFunctional.m_CurrentContours[c]? = some contour0 →
        contour0.points[pid]? = some ci0 →
        outerRegion f.m_OuterList c pid =
          byteEnv.InterpolateROI [0, 0, 0, 2]
            (fun i => ci0 i - byteEnv.ComputeNormals contour0 pid i) ∧
        (byteEnv.InterpolateROI [0, 0, 0, 2]
            (fun i => ci0 i - byteEnv.ComputeNormals contour0 pid i) = c →
          ∃ contour loc gm, f1.m_CurrentContours[c]? = some contour ∧
            sampleNodes byteEnv f1 c contour contour.points 0
                ⟨[], 0, 0, firstGlobalId nestedFunctional.m_Priors c⟩ = .ok loc ∧
            loc.sample[pid]? =
              some ⟨0, 0, fun _ => 0, pid, firstGlobalId nestedFunctional.m_Priors c + pid, c⟩ ∧
            loc.totalArea = (loc.sample.map fun s => s.w).sum ∧
            f2.m_Gradients[c]? = some gm ∧ gm.pointData pid = 0 ∧
            ∀ d : Fin Dimension,
              G.get (firstGlobalId nestedFunctional.m_Priors c + pid) d = 0) :=
  ComputeDerivative_degenerate_nodes byteEnv nestedFunctional sixSampleTransform smallImage
    [0, 0, 0, 2] (by decide) rfl rfl rfl rfl nestedFunctional_aligned
    (fun i => ⟨[0], rfl, by decide⟩) (by decide) (by decide)
    (fun c contour _ hcont pid _ => by
      rw [nestedFunctional_contours c contour hcont]
      exact triangleMesh_fans pid)

theorem nested_outer :
    ComputeOuterRegions byteEnv nestedFunctional =
      .ok { nestedFunctional with m_OuterList := [[0, 0, 0], [0, 0, 0]] } := by
  rfl

/-- C14, counterexample: on `nestedFunctional` the label sampled at the second node of the
second contour plus its normal and the label sampled at that node minus its normal are equal,
both 0, and `ComputeDerivative` does not treat the node as degenerate: its record has the raw
gradient -1 and the area weight 33/200, which is counted in the total area 99/200, and its node
gradient is -1/3. -/
theorem ComputeDerivative_equal_samples_not_degenerate :
    byteEnv.InterpolateROI [0, 0, 0, 2]
        (fun i => (![1, 0, 0] : PointType) i + byteEnv.ComputeNormals triangleMesh 1 i) =
      byteEnv.InterpolateROI [0, 0, 0, 2]
        (fun i => (![1, 0, 0] : PointType) i - byteEnv.ComputeNormals triangleMesh 1 i) ∧
      ∃ f f1 f2 loc s gm, ComputeOuterRegions byteEnv nestedFunctional = .ok f ∧
        f.m_CurrentRegions = some [0, 0, 0, 2] ∧ f.m_CurrentContours[1]? = some triangleMesh ∧
        triangleMesh.points[1]? = some ![1, 0, 0] ∧
        UpdateContour byteEnv f = .ok f1 ∧ f1.m_CurrentContours[1]? = some triangleMesh ∧
        sampleNodes byteEnv f1 1 triangleMesh triangleMesh.points 0 ⟨[], 0, 0, 3⟩ = .ok loc ∧
        loc.sample[1]? = some s ∧ s.grad = (-1 : ℚ) ∧ s.w = 33 / 200 ∧
        loc.totalArea = 99 / 200 ∧
        ComputeDerivative byteEnv f = .ok f2 ∧ f2.m_Gradients[1]? = some gm ∧
        gm.pointData 1 = (-1 / 3 : ℚ) := by
  refine ⟨rfl, ?_⟩
  let f : FunctionalBase := { nestedFunctional with m_OuterList := [[0, 0, 0], [0, 0, 0]] }
  have hal : ContoursAligned f := nestedFunctional_aligned
  have hready : GradientReady f sixSampleTransform := by
    refine ⟨fun i => ⟨[0], rfl, by decide⟩, by decide, by decide, ?_⟩
    intro c contour hc hcont
    have hmesh := nestedFunctional_contours c contour hcont
    subst hmesh
    have hn : f.m_NumberOfContours = 2 := rfl
    rw [hn] at hc
    refine ⟨[0, 0, 0], ?_, by decide, fun pid _ => triangleMesh_fans pid⟩
    interval_cases c <;> rfl
  have harea : ∀ pid, pointArea byteEnv triangleMesh pid = 33 / 200 :=
    fun pid => byteEnv_pointArea triangleMesh pid 0 1 2 rfl rfl
  have hpts : triangleMesh.points = [![0, 0, 0], ![1, 0, 0], ![0, 1, 0]] := rfl
  have hdeg : ∀ pid, (1 : Nat) ≠ outerRegion [[0, 0, 0], [0, 0, 0]] 1 pid := by
    intro pid
    rcases pid with _ | _ | _ | pid <;> simp [outerRegion]
  have hraw : rawGradient byteEnv 1 (outerRegion [[0, 0, 0], [0, 0, 0]] 1 1) ![1, 0, 0] = -1 := by
    have habs : |(-1 : ℚ)| = 1 := by
      rw [abs_neg, abs_one]
    norm_num [rawGradient, outerRegion, byteEnv, MIN_GRADIENT, habs]
  have hsamp : nodeSample byteEnv [[0, 0, 0], [0, 0, 0]] 1 triangleMesh 1 (3 + 1) ![1, 0, 0] =
      ⟨-1, 33 / 200, byteEnv.ComputeNormals triangleMesh 1, 1, 3 + 1, 1⟩ := by
    unfold nodeSample
    rw [if_pos (hdeg 1), hraw, harea]
  have hweights : ((nodeSamples byteEnv [[0, 0, 0], [0, 0, 0]] 1 triangleMesh
      triangleMesh.points 0 3).map fun s => s.w).sum = 99 / 200 := by
    simp only [hpts, nodeSamples, nodeSample, hdeg, ne_eq, not_false_eq_true, if_true, harea,
      List.map_cons, List.map_nil, List.sum_cons, List.sum_nil]
    norm_num
  have htotal : contourArea byteEnv [[0, 0, 0], [0, 0, 0]] 1 triangleMesh = 99 / 200 := by
    unfold contourArea
    rw [nodeSamples_weights byteEnv _ 1 triangleMesh _ 0 0 3]
    exact hweights
  obtain ⟨f1, f2, G, gs, hupd, hcd, -, hf2, hL1, -, -, -, -, hnodes⟩ :=
    ComputeDerivative_spec byteEnv f sixSampleTransform smallImage rfl rfl hal hready
  obtain ⟨hcc, -⟩ := UpdateContour_still_keeps byteEnv f f1 sixSampleTransform smallImage
    rfl rfl hal (fun gpid _ => restingTransform_still gpid) hupd
  have hcont : f1.m_CurrentContours[1]? = some triangleMesh := by
    rw [hcc]
    rfl
  have hout1 : f1.m_OuterList[1]? = some [0, 0, 0] := by
    rw [hL1]
    rfl
  obtain ⟨loc, hsample, hs, hta, -⟩ := sampleNodes_spec byteEnv f1 1 triangleMesh [0, 0, 0]
    hout1 triangleMesh.points 0 ⟨[], 0, 0, 3⟩ (by decide)
    (fun p _ _ _ => triangleMesh_fans p)
  simp only [List.nil_append, zero_add] at hs hta
  have hLf : f1.m_OuterList = [[0, 0, 0], [0, 0, 0]] := hL1
  rw [hLf] at hs hta
  obtain ⟨pd, hgs, -, h3⟩ := hnodes 1 triangleMesh (by decide) hcont
  obtain ⟨hpd, -⟩ := h3 1 ![1, 0, 0] rfl
  have hfirst : firstGlobalId f.m_Priors 1 = 3 := rfl
  refine ⟨f, f1, f2, loc, ⟨-1, 33 / 200, byteEnv.ComputeNormals triangleMesh 1, 1, 3 + 1, 1⟩,
    ⟨_, pd⟩, nested_outer, rfl, rfl, rfl, hupd, hcont, hsample, ?_, rfl, rfl, ?_, hcd,
    by rw [hf2]; exact hgs, ?_⟩
  · rw [hs, nodeSamples_getElem? byteEnv _ 1 triangleMesh triangleMesh.points 0 3 1
      ![1, 0, 0] rfl, zero_add, hsamp]
  · rw [hta, hweights]
  · show pd 1 = (-1 / 3 : ℚ)
    rw [hpd, hfirst]
    have hLf' : f.m_OuterList = [[0, 0, 0], [0, 0, 0]] := rfl
    rw [hLf', htotal, hsamp]
    unfold heldGradient scaledGradient
    have hscale : f.m_Scale = 1 := rfl
    rw [hscale]
    norm_num

/-! ### Cache coherence -/

theorem GetValue_cached (env : Collaborators) (fuel : Nat) (f : FunctionalBase)
    (h : f.m_EnergyUpdated = true) : GetValue env fuel f = .ok (f.m_Value, f) := by
  unfold GetValue
  rw [if_neg (by simp [h])]

/-- C19, the code at the failing input: `configuredFunctional` is initialized, which leaves the
energy marked stale and `m_Value` at the infinity of the constructor; the deformation model
displaces no node, and `UpdateContour`, alone or within `ComputeDerivative`, marks the energy up
to date without evaluating it; `GetValue` then returns the infinity of the constructor, while
the energy of the current contours, which `GetValue` computes once the flag is cleared, is a
finite number. -/
theorem GetValue_returns_initial_infinity :
    ∃ f1 f2 f3, Initialize byteEnv 3 configuredFunctional = (f1, none) ∧
      f1.m_EnergyUpdated = false ∧ f1.m_Value = ⊤ ∧
      UpdateContour byteEnv f1 = .ok f2 ∧ f2.m_CurrentContours = f1.m_CurrentContours ∧
      f2.m_EnergyUpdated = true ∧ GetValue byteEnv 3 f2 = .ok (⊤, f2) ∧
      ComputeDerivative byteEnv f1 = .ok f3 ∧ f3.m_CurrentContours = f1.m_CurrentContours ∧
      f3.m_EnergyUpdated = true ∧ GetValue byteEnv 3 f3 = .ok (⊤, f3) ∧
      ∃ (v : ℚ) (f4 : FunctionalBase),
        GetValue byteEnv 3 { f2 with m_EnergyUpdated := false } = .ok ((v : MeasureType), f4) := by
  let f1 : FunctionalBase := (Initialize byteEnv 3 configuredFunctional).1
  let T1 : Transform := triangleMesh.points.foldl Transform.AddOffGridPos blankTransform
  have hT : f1.m_Transform = some T1 := rfl
  have himg : f1.m_ReferenceImage = some smallImage := rfl
  have hal : ContoursAligned f1 := by
    refine ⟨by decide, by decide, by decide, ?_⟩
    intro c prior cur hc hp hq
    have h1 : f1.m_Priors = [triangleMesh] := rfl
    have h2 : f1.m_CurrentContours = [triangleMesh] := rfl
    rw [h1] at hp
    rw [h2] at hq
    rcases c with _ | c
    · simp only [List.getElem?_cons_zero, Option.some.injEq] at hp hq
      rw [← hp, ← hq]
    · simp at hp
  have hstill : ∀ gpid, gpid < totalNodes f1 →
      exceedsThreshold (T1.m_OffGridValue gpid) = false :=
    fun gpid _ => restingTransform_still gpid
  have hready : GradientReady f1 T1 := by
    refine ⟨fun i => ⟨[0], rfl, by decide⟩, by decide, by decide, ?_⟩
    intro c contour hc hcont
    have h2 : f1.m_CurrentContours = [triangleMesh] := rfl
    rw [h2] at hcont
    rcases c with _ | c
    · simp only [List.getElem?_cons_zero, Option.some.injEq] at hcont
      subst hcont
      exact ⟨[1, 1, 1], rfl, by decide, fun pid _ => triangleMesh_fans pid⟩
    · simp at hcont
  obtain ⟨gg, hupd, -⟩ := UpdateContour_still byteEnv f1 T1 smallImage hT himg hal hstill
  obtain ⟨f1', f3, G, gs, hupd', hcd, -, hf3, -⟩ :=
    ComputeDerivative_spec byteEnv f1 T1 smallImage hT himg hal hready
  obtain ⟨hk1, hk2, hk3, -⟩ := UpdateContour_still_keeps byteEnv f1 f1' T1 smallImage hT himg
    hal hstill hupd'
  let f2 : FunctionalBase :=
    { f1 with m_Gradients := gg, m_RegionsUpdated := true, m_EnergyUpdated := true }
  have hspec := GetValue_spec byteEnv 3 { f2 with m_EnergyUpdated := false } smallImage rfl rfl
    (show 1 ≤ f1.m_ROIs.length by decide)
    (show f1.m_CurrentROIs.length = f1.m_ROIs.length by decide)
    (show f1.m_CurrentMaps.length = f1.m_ROIs.length by decide)
    (by
      intro j map h
      have hmaps : f1.m_CurrentMaps = [none, none] := rfl
      have h' : f1.m_CurrentMaps[j]? = some (some map) := h
      rw [hmaps] at h'
      rcases j with _ | _ | j <;> simp at h')
    (by
      have h : referencePixelCount f1 = 4 := staleFunctional_pixelCount
      show referencePixelCount f1 ≤ smallImage.buffer.length
      rw [h]
      decide)
    (Or.inl rfl)
  obtain ⟨f4, hrun, -⟩ := hspec
  refine ⟨f1, f2, f3, rfl, rfl, rfl, hupd, rfl, rfl, GetValue_cached byteEnv 3 f2 rfl, hcd, ?_,
    ?_, ?_, ⟨_, f4, hrun⟩⟩
  · rw [hf3]
    exact hk1
  · rw [hf3]
    exact hk3
  · have hflag : f3.m_EnergyUpdated = true := by
      rw [hf3]
      exact hk3
    have hval : f3.m_Value = ⊤ := by
      rw [hf3]
      exact hk2
    rw [GetValue_cached byteEnv 3 f3 hflag, hval]

/-! ### Zero energy after a gradient pass -/

/-- C11, the code at the failing input: the region-energy model of `flatEnv` returns 0 for every
sample, point and region, and `configuredFunctional`, with one contour, is initialized. A
`GetValue` at that point evaluates the energy and returns 0. `ComputeDerivative` returns with
every cell of every derivative raster at 0, but the `UpdateContour` it starts with finds no
displaced node and marks the energy up to date without evaluating it: the `GetValue` that
follows returns the infinity of the constructor, not 0. -/
theorem GetValue_zero_model_returns_infinity :
    (∀ val roi, flatEnv.GetEnergyOfSample val roi = 0) ∧
      (∀ p roi, flatEnv.GetEnergyAtPoint p roi = 0) ∧
      ∃ f1 f3, Initialize flatEnv 3 configuredFunctional = (f1, none) ∧
        f1.m_NumberOfContours = 1 ∧ f1.m_EnergyUpdated = false ∧
        (∃ f0, GetValue flatEnv 3 f1 = .ok (0, f0)) ∧
        ComputeDerivative flatEnv f1 = .ok f3 ∧
        (∀ i, ∃ raster, f3.m_Derivative i = some raster ∧ ∀ cell ∈ raster, cell = 0) ∧
        f3.m_CurrentContours = f1.m_CurrentContours ∧ f3.m_EnergyUpdated = true ∧
        GetValue flatEnv 3 f3 = .ok (⊤, f3) ∧ (⊤ : MeasureType) ≠ 0 := by
  refine ⟨fun _ _ => rfl, fun _ _ => rfl, ?_⟩
  let f1 : FunctionalBase := (Initialize flatEnv 3 configuredFunctional).1
  let T1 : Transform := triangleMesh.points.foldl Transform.AddOffGridPos blankTransform
  have hT : f1.m_Transform = some T1 := rfl
  have himg : f1.m_ReferenceImage = some smallImage := rfl
  have hal : ContoursAligned f1 := by
    refine ⟨by decide, by decide, by decide, ?_⟩
    intro c prior cur hc hp hq
    have h1 : f1.m_Priors = [triangleMesh] := rfl
    have h2 : f1.m_CurrentContours = [triangleMesh] := rfl
    rw [h1] at hp
    rw [h2] at hq
    rcases c with _ | c
    · simp only [List.getElem?_cons_zero, Option.some.injEq] at hp hq
      rw [← hp, ← hq]
    · simp at hp
  have hstill : ∀ gpid, gpid < totalNodes f1 →
      exceedsThreshold (T1.m_OffGridValue gpid) = false :=
    fun gpid _ => restingTransform_still gpid
  have hready : GradientReady f1 T1 := by
    refine ⟨fun i => ⟨[0], rfl, by decide⟩, by decide, by decide, ?_⟩
    intro c contour hc hcont
    have h2 : f1.m_CurrentContours = [triangleMesh] := rfl
    rw [h2] at hcont
    rcases c with _ | c
    · simp only [List.getElem?_cons_zero, Option.some.injEq] at hcont
      subst hcont
      exact ⟨[1, 1, 1], rfl, by decide, fun pid _ => triangleMesh_fans pid⟩
    · simp at hcont
  obtain ⟨f1', f3', G, gs, hupd', hcd', -, hf3, -⟩ :=
    ComputeDerivative_spec flatEnv f1 T1 smallImage hT himg hal hready
  obtain ⟨hk1, hk2, hk3, -⟩ := UpdateContour_still_keeps flatEnv f1 f1' T1 smallImage hT himg
    hal hstill hupd'
  obtain ⟨f3, hcd, hzero⟩ := ComputeDerivative_zero_model flatEnv f1 T1 smallImage
    (fun _ _ => rfl) hT himg hal hready
  have hsame : f3' = f3 := by
    rw [hcd'] at hcd
    exact Except.ok.inj hcd
  subst hsame
  obtain ⟨f0, hrun0, -⟩ := GetValue_zero_model flatEnv 3 f1 smallImage (fun _ _ => rfl) rfl rfl
    (show 1 ≤ f1.m_ROIs.length by decide)
    (show f1.m_CurrentROIs.length = f1.m_ROIs.length by decide)
    (show f1.m_CurrentMaps.length = f1.m_ROIs.length by decide)
    (by
      intro j map h
      have hmaps : f1.m_CurrentMaps = [none, none] := rfl
      rw [hmaps] at h
      rcases j with _ | _ | j <;> simp at h)
    (by
      have h : referencePixelCount f1 = 4 := staleFunctional_pixelCount
      rw [h]
      decide)
    (Or.inl rfl)
  have hflag : f3'.m_EnergyUpdated = true := by
    rw [hf3]
    exact hk3
  have hval : f3'.m_Value = ⊤ := by
    rw [hf3]
    exact hk2
  refine ⟨f1, f3', rfl, rfl, rfl, ⟨f0, hrun0⟩, hcd', fun i => ?_, ?_, hflag, ?_, by decide⟩
  · obtain ⟨raster, h1, -, h3⟩ := hzero i
    exact ⟨raster, h1, h3⟩
  · rw [hf3]
    exact hk1
  · rw [GetValue_cached flatEnv 3 f3' hflag, hval]

end rstk
